import Mathlib

/-!
Verification of the Cross3D infill generator core (src/infill/Cross3D.cpp).

The development shallowly embeds the data model and the operations of the
Cross3D subdivision engine.  Integer coordinates (`coord_t`, microns) are
embedded as `Int`; C++ integer division (truncation toward zero) is embedded
as `Int.tdiv`.  Floating-point quantities (volumes, densities) are embedded
as `ℚ`, an exact model of the real-number intent of the float code.

External collaborators that are not part of the provided source
(the geometry helpers of src/utils: `vSize`, `LinearAlg2D::areCollinear`,
polygon area and intersection, the `Range` utility, and the header
`Cross3D.h` with the enum values of `Direction`) are either modelled from
the spec (marked `Modelled from the spec:` in their doc comments) or taken
as parameters of a context structure, so every theorem below holds for all
interpretations of those collaborators.
-/

namespace Cross3DV

/-- 2D integer point (`Point` = ClipperLib IntPoint, coordinates in microns). -/
structure Point where
  x : Int
  y : Int
deriving DecidableEq, Repr

instance : Add Point := ⟨fun p q => ⟨p.x + q.x, p.y + q.y⟩⟩
instance : Sub Point := ⟨fun p q => ⟨p.x - q.x, p.y - q.y⟩⟩

/-- Componentwise division of a point by a scalar, truncating toward zero
exactly as C++ `operator/` on 64-bit integer coordinates does. -/
def Point.sdiv (p : Point) (d : Int) : Point := ⟨Int.tdiv p.x d, Int.tdiv p.y d⟩

/-- Dot product of two points seen as vectors (`dot` of src/utils, exact integer math). -/
def dotP (p q : Point) : Int := p.x * q.x + p.y * q.y

/-- Squared Euclidean length (`vSize2` of src/utils, exact integer math). -/
def vSize2 (p : Point) : Int := p.x * p.x + p.y * p.y

/-- Structurally recursive integer square root helper: largest `k ≤ b` with `k * k ≤ n`. -/
def isqrtGo (n : Nat) : Nat → Nat
  | 0 => 0
  | k + 1 => if (k + 1) * (k + 1) ≤ n then k + 1 else isqrtGo n k

/-- Floor integer square root, kernel-computable. -/
def isqrt (n : Nat) : Nat := isqrtGo n n

/-- Modelled from the spec: `vSize` of src/utils (not under src/) is the Euclidean
length of a vector, computed in C++ as `sqrt(vSize2(p))` cast back to an integer
coordinate, i.e. the floor of the real square root of the exact squared length. -/
def vSizeM (p : Point) : Int := Int.ofNat (isqrt (vSize2 p).toNat)

/-- Oriented line segment (`LineSegment` of src/utils, modelled: a pair of points). -/
structure LineSegment where
  from_ : Point
  to_ : Point
deriving DecidableEq, Repr

/-- `LineSegment::reverse`: swap the two endpoints. -/
def LineSegment.reverse (s : LineSegment) : LineSegment := ⟨s.to_, s.from_⟩

/-- `LineSegment::getVector`: the vector from the start point to the end point. -/
def LineSegment.getVector (s : LineSegment) : Point := s.to_ - s.from_

/-- `Cross3D::Triangle::Direction`: which edges the space-filling curve
enters and exits the triangle through. -/
inductive TriDir where
  | AB_TO_BC
  | AC_TO_AB
  | AC_TO_BC
deriving DecidableEq, Repr

/-- `Cross3D::Triangle`: right triangle with the right angle at `straight_corner`. -/
structure Triangle where
  straight_corner : Point
  a : Point
  b : Point
  dir : TriDir
  straight_corner_is_left : Bool
deriving DecidableEq, Repr

/-- `Cross3D::Triangle::getFromEdge` (Cross3D.cpp lines 31-51). -/
def Triangle.getFromEdge (t : Triangle) : LineSegment :=
  let ret : LineSegment :=
    match t.dir with
    | TriDir.AB_TO_BC => ⟨t.a, t.b⟩
    | TriDir.AC_TO_AB => ⟨t.straight_corner, t.a⟩
    | TriDir.AC_TO_BC => ⟨t.straight_corner, t.a⟩
  if !t.straight_corner_is_left then ret.reverse else ret

/-- `Cross3D::Triangle::getToEdge` (Cross3D.cpp lines 53-73). -/
def Triangle.getToEdge (t : Triangle) : LineSegment :=
  let ret : LineSegment :=
    match t.dir with
    | TriDir.AB_TO_BC => ⟨t.straight_corner, t.b⟩
    | TriDir.AC_TO_AB => ⟨t.b, t.a⟩
    | TriDir.AC_TO_BC => ⟨t.straight_corner, t.b⟩
  if !t.straight_corner_is_left then ret.reverse else ret

/-- `Cross3D::Triangle::getMiddle`: the centroid, with truncating integer division. -/
def Triangle.getMiddle (t : Triangle) : Point :=
  (t.straight_corner + t.a + t.b).sdiv 3

/-- `Cross3D::Triangle::subdivide` (Cross3D.cpp lines 96-164): split into two
child triangles sharing the new right-angle corner at the midpoint of `a b`. -/
def Triangle.subdivide (t : Triangle) : Triangle × Triangle :=
  let middle := (t.a + t.b).sdiv 2
  let d0 : TriDir :=
    match t.dir with
    | TriDir.AB_TO_BC => TriDir.AC_TO_BC
    | TriDir.AC_TO_AB => TriDir.AB_TO_BC
    | TriDir.AC_TO_BC => TriDir.AB_TO_BC
  let d1 : TriDir :=
    match t.dir with
    | TriDir.AB_TO_BC => TriDir.AC_TO_AB
    | TriDir.AC_TO_AB => TriDir.AC_TO_BC
    | TriDir.AC_TO_BC => TriDir.AC_TO_AB
  (⟨middle, t.a, t.straight_corner, d0, !t.straight_corner_is_left⟩,
   ⟨middle, t.straight_corner, t.b, d1, !t.straight_corner_is_left⟩)

/-- The midpoint of two points, as the spec words it (same truncating division
the code uses for `(a + b) / 2`). -/
def midpointP (p q : Point) : Point := (p + q).sdiv 2

/-- The child-direction table of spec section 4.1, stated independently of the code:
parent direction maps to the pair (child 0 direction, child 1 direction). -/
def specChildDirs : TriDir → TriDir × TriDir
  | TriDir.AB_TO_BC => (TriDir.AC_TO_BC, TriDir.AC_TO_AB)
  | TriDir.AC_TO_AB => (TriDir.AB_TO_BC, TriDir.AC_TO_BC)
  | TriDir.AC_TO_BC => (TriDir.AB_TO_BC, TriDir.AC_TO_AB)

/-- The from-edge table of spec section 4.1, stated independently of the code. -/
def specFromEdge (t : Triangle) : LineSegment :=
  match t.dir with
  | TriDir.AB_TO_BC => ⟨t.a, t.b⟩
  | TriDir.AC_TO_AB => ⟨t.straight_corner, t.a⟩
  | TriDir.AC_TO_BC => ⟨t.straight_corner, t.a⟩

/-- The to-edge table of spec section 4.1, stated independently of the code. -/
def specToEdge (t : Triangle) : LineSegment :=
  match t.dir with
  | TriDir.AB_TO_BC => ⟨t.straight_corner, t.b⟩
  | TriDir.AC_TO_AB => ⟨t.b, t.a⟩
  | TriDir.AC_TO_BC => ⟨t.straight_corner, t.b⟩

/-- Modelled from the spec: the `Range` utility of src/utils (not under src/).
An inclusive integer interval with `min` and `max` bounds. -/
structure RangeI where
  min : Int
  max : Int
deriving DecidableEq, Repr

/-- Modelled from the spec: `Range::overlap` — two inclusive ranges overlap. -/
def RangeI.overlapB (a b : RangeI) : Bool :=
  decide (a.min ≤ b.max ∧ b.min ≤ a.max)

/-- Modelled from the spec: `Range::expanded` — dilate both ends by `d`. -/
def RangeI.expanded (a : RangeI) (d : Int) : RangeI := ⟨a.min - d, a.max + d⟩

/-- Modelled from the spec: `Range::intersection` of two inclusive ranges. -/
def RangeI.intersectionR (a b : RangeI) : RangeI := ⟨Max.max a.min b.min, Min.min a.max b.max⟩

/-- Modelled from the spec: `Range::size` — the length `max - min`. -/
def RangeI.size (a : RangeI) : Int := a.max - a.min

/-- Modelled from the spec: a default-constructed `Range` into which two values
are `include`d, which yields the inclusive interval spanned by the two values. -/
def rangeOfTwo (v1 v2 : Int) : RangeI := ⟨Min.min v1 v2, Max.max v1 v2⟩

/-- `Cross3D::Prism`: a triangle footprint extruded over a z range. -/
structure Prism where
  triangle : Triangle
  z_range : RangeI
  is_expanding : Bool
deriving DecidableEq, Repr

/-- `Cross3D::Prism::isHalfCube` (Cross3D.cpp lines 166-169):
`|vSize(straight_corner - b) - (z_max - z_min)| < 10`. -/
def Prism.isHalfCube (p : Prism) : Bool :=
  decide ((vSizeM (p.triangle.straight_corner - p.triangle.b)
            - (p.z_range.max - p.z_range.min)).natAbs < 10)

/-- `Cross3D::Prism::isQuarterCube` (Cross3D.cpp lines 170-173):
`|vSize(a - b) - (z_max - z_min)| < 10`. -/
def Prism.isQuarterCube (p : Prism) : Bool :=
  decide ((vSizeM (p.triangle.a - p.triangle.b)
            - (p.z_range.max - p.z_range.min)).natAbs < 10)

/-- `Cross3D::Direction`.  Modelled from the spec for the enum values of the
missing header Cross3D.h: LEFT=0, RIGHT=1, UP=2, DOWN=3, COUNT=4. -/
inductive Direction where
  | LEFT
  | RIGHT
  | UP
  | DOWN
  | COUNT
deriving DecidableEq, Repr

/-- `Cross3D::opposite(Direction)` (Cross3D.cpp lines 13-23). -/
def opposite : Direction → Direction
  | Direction.LEFT => Direction.RIGHT
  | Direction.RIGHT => Direction.LEFT
  | Direction.UP => Direction.DOWN
  | Direction.DOWN => Direction.UP
  | Direction.COUNT => Direction.COUNT

/-- The numeric value of a `Direction` (the enum values of the spec). -/
def dirVal : Direction → Nat
  | Direction.LEFT => 0
  | Direction.RIGHT => 1
  | Direction.UP => 2
  | Direction.DOWN => 3
  | Direction.COUNT => 4

/-- `static_cast<Direction>` of a side number. -/
def dirOfNat : Nat → Direction
  | 0 => Direction.LEFT
  | 1 => Direction.RIGHT
  | 2 => Direction.UP
  | 3 => Direction.DOWN
  | _ => Direction.COUNT

/-- `Cross3D::opposite(uint_fast8_t)` (Cross3D.cpp lines 25-28): cast the side
number to `Direction`, take the opposite, cast back. -/
def oppositeN (k : Nat) : Nat := dirVal (opposite (dirOfNat k))

/-- `Cross3D::Link`.  Modelled from the spec for the missing header: a directed
adjacency edge holding the target cell index and, in place of the C++ reverse
iterator into the neighbor's stable list storage, a unique identifier `id` for
this link and the identifier `rev` of its paired back-link. -/
structure Link where
  to_index : Int
  id : Nat
  rev : Nat
deriving DecidableEq, Repr

/-- `Cross3D::Cell`.  Modelled from the spec (section 3) for the missing header:
prism, arena index, depth, four child indices (negative when absent), the
`is_subdivided` flag, density bookkeeping, and one list of links per side. -/
structure Cell where
  prism : Prism
  index : Int
  depth : Int
  children : List Int
  is_subdivided : Bool
  volume : ℚ
  filled_volume_allowance : ℚ
  minimally_required_density : ℚ
  adjacent_cells : List (List Link)
deriving DecidableEq, Repr

/-- `Cell::getChildCount` (Cross3D.cpp lines 175-178): 2 when `children[2] < 0`, else 4. -/
def Cell.getChildCount (c : Cell) : Nat :=
  if c.children.getD 2 (-1) < 0 then 2 else 4

/-- External collaborators of the core (spec section 1 treats them as out of
scope) together with the configuration fields of the `Cross3D` object.
`areCollinear` is `LinearAlg2D::areCollinear`; `triArea` is
`Triangle::toPolygon().area()`; `triIntersectionArea` is the area of the
polygon-library intersection of the two triangle footprints. -/
structure Ext where
  areCollinear : LineSegment → LineSegment → Bool
  triArea : Triangle → ℚ
  triIntersectionArea : Triangle → Triangle → ℚ
  max_depth : Int
  line_width : Int

/-- The collinear-edge part of `Cross3D::isNextTo` (Cross3D.cpp lines 610-621):
the two edges must be collinear and their projections onto the line of
`a_edge` must overlap by more than 10 units. -/
def edgesNextTo (ext : Ext) (a_edge b_edge : LineSegment) : Bool :=
  if !(ext.areCollinear a_edge b_edge) then false
  else
    let a_vec := a_edge.getVector
    let a_size := vSizeM a_vec
    let a_edge_projected : RangeI := ⟨0, a_size⟩
    let b_edge_projected : RangeI :=
      rangeOfTwo (Int.tdiv (dotP (b_edge.from_ - a_edge.from_) a_vec) a_size)
                 (Int.tdiv (dotP (b_edge.to_ - a_edge.from_) a_vec) a_size)
    decide ((a_edge_projected.intersectionR b_edge_projected).size > 10)

/-- `Cross3D::isNextTo` (Cross3D.cpp lines 576-622). -/
def isNextTo (ext : Ext) (a b : Cell) (side : Direction) : Bool :=
  match side with
  | Direction.UP | Direction.DOWN =>
    if !(a.prism.z_range.overlapB (b.prism.z_range.expanded 10)) then false
    else
      decide (|ext.triIntersectionArea a.prism.triangle b.prism.triangle
                - Min.min (ext.triArea a.prism.triangle) (ext.triArea b.prism.triangle)| < 100)
  | Direction.LEFT =>
    edgesNextTo ext a.prism.triangle.getFromEdge b.prism.triangle.getToEdge
  | Direction.RIGHT =>
    edgesNextTo ext a.prism.triangle.getToEdge b.prism.triangle.getFromEdge
  | Direction.COUNT =>
    edgesNextTo ext ⟨⟨0, 0⟩, ⟨0, 0⟩⟩ ⟨⟨0, 0⟩, ⟨0, 0⟩⟩

/-- Spec wording of the UP/DOWN adjacency test (spec section 4.3): the z ranges
overlap with a 10-unit dilation and the footprint intersection area is within
100 square units of the smaller footprint area. -/
def specVertNextTo (ext : Ext) (a b : Cell) : Prop :=
  a.prism.z_range.overlapB (b.prism.z_range.expanded 10) = true ∧
  |ext.triIntersectionArea a.prism.triangle b.prism.triangle
    - Min.min (ext.triArea a.prism.triangle) (ext.triArea b.prism.triangle)| < 100

/-- Spec wording of the LEFT/RIGHT adjacency test (spec section 4.3): the two
edges are collinear and their 1D projections onto the shared line overlap by
strictly more than 10 units. -/
def specEdgeNextTo (ext : Ext) (a_edge b_edge : LineSegment) : Prop :=
  ext.areCollinear a_edge b_edge = true ∧
  (RangeI.intersectionR ⟨0, vSizeM a_edge.getVector⟩
    (rangeOfTwo
      (Int.tdiv (dotP (b_edge.from_ - a_edge.from_) a_edge.getVector) (vSizeM a_edge.getVector))
      (Int.tdiv (dotP (b_edge.to_ - a_edge.from_) a_edge.getVector) (vSizeM a_edge.getVector)))).size > 10

/-- The `Cell` constructor used by `cell_data.emplace_back(prism, index, depth)`:
children slots start absent, no links, `is_subdivided` false, density
bookkeeping zeroed (modelled from the spec for the missing header). -/
def mkCell (p : Prism) (idx dep : Int) : Cell :=
  { prism := p
    index := idx
    depth := dep
    children := [-1, -1, -1, -1]
    is_subdivided := false
    volume := 0
    filled_volume_allowance := 0
    minimally_required_density := 0
    adjacent_cells := [[], [], [], []] }

/-- A cell with harmless default contents, used as the `getD` fallback for
out-of-range arena accesses (which the source never performs). -/
def dummyCell : Cell :=
  mkCell ⟨⟨⟨0, 0⟩, ⟨0, 0⟩, ⟨0, 0⟩, TriDir.AB_TO_BC, true⟩, ⟨0, 0⟩, true⟩ 0 0

/-- The mutable state of a `Cross3D` object: the arena `cell_data` plus a
fresh-identifier counter standing in for the identity of newly created
C++ list nodes. -/
structure State where
  cells : List Cell
  next_id : Nat
deriving DecidableEq, Repr

/-- `cell_data[i]` (arena lookup by index). -/
def getCell (s : State) (i : Int) : Cell := s.cells.getD i.toNat dummyCell

/-- In-place update of one arena cell. -/
def updCell (s : State) (i : Int) (f : Cell → Cell) : State :=
  { s with cells := s.cells.set i.toNat (f (getCell s i)) }

/-- `cell.adjacent_cells[k]`. -/
def sideOf (c : Cell) (k : Nat) : List Link := c.adjacent_cells.getD k []

/-- Replace one side list of a cell. -/
def setSide (c : Cell) (k : Nat) (l : List Link) : Cell :=
  { c with adjacent_cells := c.adjacent_cells.set k l }

/-- Apply a list transformation to `cell_data[i].adjacent_cells[k]`. -/
def modifySide (s : State) (i : Int) (k : Nat) (f : List Link → List Link) : State :=
  updCell s i (fun c => setSide c k (f (sideOf c k)))

/-- `cell_data.emplace_back`. -/
def appendCell (s : State) (c : Cell) : State := { s with cells := s.cells ++ [c] }

/-- `cell_data[i].children[slot] = v`. -/
def setChildSlot (s : State) (i : Int) (slot : Nat) (v : Int) : State :=
  updCell s i (fun c => { c with children := c.children.set slot v })

/-- The `is_expanding` flag of a child created by `createTree`
(Cross3D.cpp lines 274-281): it flips relative to the parent when the parent
direction is not AC_TO_BC and the xy child index is 1, and the upper z half
always inverts what the lower z half resolved to. -/
def childExpanding (pp : Prism) (zi xyi : Nat) : Bool :=
  let e0 := if pp.triangle.dir ≠ TriDir.AC_TO_BC ∧ xyi = 1 then !pp.is_expanding
            else pp.is_expanding
  if zi = 1 then !e0 else e0

/-- One iteration of the child-creation loop of `Cross3D::createTree`
(Cross3D.cpp lines 264-290): when the z index reaches `child_count / 2` the
slot is marked absent, otherwise a new cell is appended at the next arena
index, the parent slot is pointed at it, and the builder recurses (`recur`
is the recursive call at one unit less fuel). -/
def createChild (recur : State → Int → State) (pp : Prism) (pd : Int) (cc : Nat)
    (tri : Triangle) (zmin zmax : Int) (zi xyi slot : Nat)
    (s : State) (pidx : Int) : State :=
  if zi = cc / 2 then setChildSlot s pidx slot (-1)
  else
    recur
      (appendCell (setChildSlot s pidx slot (Int.ofNat s.cells.length))
        (mkCell ⟨tri, ⟨zmin, zmax⟩, childExpanding pp zi xyi⟩
          (Int.ofNat s.cells.length) (pd + 1)))
      (Int.ofNat s.cells.length)

/-- The recursive `Cross3D::createTree(Cell&, int)` (Cross3D.cpp lines
242-291), fuel-indexed to express the structural recursion (the source
recursion terminates because the depth increases toward `max_depth`; every
theorem below supplies enough fuel).  At or beyond `max_depth` every child
slot is marked absent; otherwise the triangle is subdivided in xy, a
half-cube parent gets 2 children spanning the full z range and any other
parent gets 4 children split at the middle of the z range. -/
def createTreeRec : Nat → State → Int → Int → State
  | 0, s, _, _ => s
  | fuel + 1, s, idx, md =>
    let cell := getCell s idx
    if md ≤ cell.depth then
      updCell s idx (fun c => { c with children := [-1, -1, -1, -1] })
    else
      let pp := cell.prism
      let tris := pp.triangle.subdivide
      let pd := cell.depth
      let cc : Nat := if pp.isHalfCube then 2 else 4
      let z0max : Int := if cc = 2 then pp.z_range.max
                         else Int.tdiv (pp.z_range.max + pp.z_range.min) 2
      let recur := fun st i => createTreeRec fuel st i md
      let sa := createChild recur pp pd cc tris.1 pp.z_range.min z0max 0 0 0 s idx
      let sb := createChild recur pp pd cc tris.2 pp.z_range.min z0max 0 1 1 sa idx
      let sc := createChild recur pp pd cc tris.1 z0max pp.z_range.max 1 0 2 sb idx
      createChild recur pp pd cc tris.2 z0max pp.z_range.max 1 1 3 sc idx

/-- The per-cell fields that the tree builder never modifies on an existing
cell (everything except the `children` slots). -/
def cellSkel (c : Cell) : Prism × Int × Int × Bool × List (List Link) × ℚ × ℚ × ℚ :=
  (c.prism, c.index, c.depth, c.is_subdivided, c.adjacent_cells,
   c.volume, c.filled_volume_allowance, c.minimally_required_density)

/-- What a run of the tree builder rooted at arena slot `idx` is allowed to do
to the pre-existing arena: grow it, rewrite the `children` of `idx`, and
nothing else. -/
def CTUntouched (idx : Nat) (s r : State) : Prop :=
  s.cells.length ≤ r.cells.length ∧
  (∀ j, j < s.cells.length → j ≠ idx →
    r.cells.getD j dummyCell = s.cells.getD j dummyCell) ∧
  (∀ j, j < s.cells.length →
    cellSkel (r.cells.getD j dummyCell) = cellSkel (s.cells.getD j dummyCell))

/-- A concrete prism that is simultaneously a half-cube and a quarter-cube
within the 10-unit tolerance: legs 3 and 4, hypotenuse 5, z-height 4, so
`|vSize(straight_corner - b) - 4| = 0 < 10` and `|vSize(a - b) - 4| = 1 < 10`. -/
def cexPrism : Prism :=
  ⟨⟨⟨0, 0⟩, ⟨3, 0⟩, ⟨0, 4⟩, TriDir.AB_TO_BC, true⟩, ⟨0, 4⟩, true⟩

/-- A one-cell arena holding `cexPrism` at depth 0. -/
def cexState : State := ⟨[mkCell cexPrism 0 0], 0⟩

/-- One pass of the replacement loop of `Cross3D::advanceSequence`
(Cross3D.cpp lines 661-699), walking the sequence left to right with the
already-processed prefix in `acc` (in reverse).  A cell whose `z_range.max`
is below the target z is replaced in place by its UP neighbors, filtered
against the indices of the cells immediately before and after it in the
current sequence; the C++ release build ignores the debug assertions.
The walker stores arena indices in place of the C++ cell pointers, and the
before/after indices read the cells' `index` fields as the source does. -/
def onePassGo (s : State) (z : Int) : List Int → List Int → List Int
  | acc, [] => acc.reverse
  | acc, c :: rest =>
    if (getCell s c).prism.z_range.max < z then
      let cell_before_idx : Int :=
        match acc with
        | [] => -1
        | b :: _ => (getCell s b).index
      let cell_after_idx : Int :=
        match rest with
        | [] => -1
        | a :: _ => (getCell s a).index
      let inserted := ((sideOf (getCell s c) 2).filter
        (fun L => decide (L.to_index ≠ cell_before_idx ∧ L.to_index ≠ cell_after_idx))).map
        (fun L => L.to_index)
      onePassGo s z (inserted.reverse ++ acc) rest
    else onePassGo s z (c :: acc) rest

/-- A full replacement pass over the walker sequence. -/
def onePass (s : State) (z : Int) (seq : List Int) : List Int := onePassGo s z [] seq

/-- The progress check after each pass (Cross3D.cpp lines 701-711): is some
cell of the sequence still below the target z? -/
def anyBelow (s : State) (z : Int) (seq : List Int) : Bool :=
  seq.any (fun c => decide ((getCell s c).prism.z_range.max < z))

/-- `Cross3D::advanceSequence` (Cross3D.cpp lines 652-713), fuel-indexed: run a
replacement pass; if some cell is still below the target z, log a warning
(counted in the second component) and repeat; stop when a pass leaves no cell
below z.  The third component records that the loop exited normally rather
than by fuel exhaustion (the C++ loop is unbounded). -/
def advanceLoop (s : State) (z : Int) : Nat → List Int → List Int × Nat × Bool
  | 0, seq => (seq, 0, false)
  | fuel + 1, seq =>
    let seq2 := onePass s z seq
    if anyBelow s z seq2 then
      let r := advanceLoop s z fuel seq2
      (r.1, r.2.1 + 1, r.2.2)
    else (seq2, 0, true)

/-- The child[0] descent of `Cross3D::getBottomSequence` (Cross3D.cpp lines
627-632): follow `children[0]` while the current cell `is_subdivided`. -/
def descendBottom (s : State) : Nat → Int → Int
  | 0, i => i
  | fuel + 1, i =>
    if (getCell s i).is_subdivided then
      descendBottom s fuel ((getCell s i).children.getD 0 (-1))
    else i

/-- The RIGHT walk of `Cross3D::getBottomSequence` (Cross3D.cpp lines 634-639):
follow the first link of each RIGHT list until a cell has no RIGHT neighbor. -/
def rightWalkGo (s : State) : Nat → Int → List Int → List Int
  | 0, _, acc => acc.reverse
  | fuel + 1, i, acc =>
    match sideOf (getCell s i) 1 with
    | [] => acc.reverse
    | L :: _ => rightWalkGo s fuel L.to_index (L.to_index :: acc)

/-- `Cross3D::getBottomSequence` (Cross3D.cpp lines 624-642), fuel-indexed by
the arena size (the source loops are unbounded; in arena states built by
`createTree` the child index always exceeds the parent index, so the arena
size bounds both loops). -/
def getBottomSequence (s : State) : List Int :=
  rightWalkGo s s.cells.length (descendBottom s s.cells.length 0)
    [descendBottom s s.cells.length 0]

/-- A walker-shaped cell for concrete slice-walker states: a fixed footprint,
the given z range and UP links. -/
def wCell (zmin zmax : Int) (idx : Int) (ups : List Link) : Cell :=
  { prism := ⟨⟨⟨0, 0⟩, ⟨1, 0⟩, ⟨0, 1⟩, TriDir.AB_TO_BC, true⟩, ⟨zmin, zmax⟩, true⟩
    index := idx
    depth := 1
    children := [-1, -1, -1, -1]
    is_subdivided := false
    volume := 0
    filled_volume_allowance := 0
    minimally_required_density := 0
    adjacent_cells := [[], [], ups, []] }

/-- A three-cell tower: cell 0 spans z 0-10 with cell 1 above, cell 1 spans
z 10-20 with cell 2 above, cell 2 spans z 20-30. -/
def cexWalk : State :=
  ⟨[wCell 0 10 0 [⟨1, 0, 1⟩], wCell 10 20 1 [⟨2, 2, 3⟩], wCell 20 30 2 []], 4⟩

/-- `INT2MM`: micron coordinate to millimetres, exactly (ℚ models the float). -/
def INT2MM (x : Int) : ℚ := (x : ℚ) / 1000

/-- `Cross3D::getActualizedVolume` (Cross3D.cpp lines 408-431): line width
times the distance between the from-edge and to-edge midpoints (keyed by the
triangle direction) times the z height. -/
def getActualizedVolume (ext : Ext) (node : Cell) : ℚ :=
  let triangle := node.prism.triangle
  let ac_middle := (triangle.a + triangle.straight_corner).sdiv 2
  let bc_middle := (triangle.b + triangle.straight_corner).sdiv 2
  let ab_middle := (triangle.a + triangle.b).sdiv 2
  let fm_tm : Point × Point :=
    match triangle.dir with
    | TriDir.AC_TO_AB => (ac_middle, ab_middle)
    | TriDir.AC_TO_BC => (ac_middle, bc_middle)
    | TriDir.AB_TO_BC => (ab_middle, bc_middle)
  INT2MM ext.line_width * INT2MM (vSizeM (fm_tm.1 - fm_tm.2))
    * INT2MM (node.prism.z_range.max - node.prism.z_range.min)

/-- The `shouldBeSubdivided` lambda of `createMinimalDensityPattern`
(Cross3D.cpp lines 355-359). -/
def shouldBeSubdivided (ext : Ext) (cell : Cell) : Bool :=
  decide (getActualizedVolume ext cell / cell.volume < cell.minimally_required_density)

/-- `Cross3D::isConstrainedBy` (Cross3D.cpp lines 461-464). -/
def isConstrainedBy (constrainee constrainer : Cell) : Bool :=
  decide (constrainer.depth < constrainee.depth)

/-- `Cross3D::isConstrained` (Cross3D.cpp lines 446-459). -/
def isConstrained (s : State) (cell : Cell) : Bool :=
  cell.adjacent_cells.any (fun side =>
    side.any (fun neighbor => isConstrainedBy cell (getCell s neighbor.to_index)))

/-- `Cross3D::canSubdivide` (Cross3D.cpp lines 434-444). -/
def canSubdivide (md : Int) (s : State) (cell : Cell) : Bool :=
  if md ≤ cell.depth ∨ isConstrained s cell = true then false else true

/-- `std::list::emplace(iterator, ...)` at the position of the link whose
identifier is `r` (the C++ reverse iterator locates that node; identifiers
replace iterator identity in this embedding): insert `lnew` immediately
before it.  The iterator is always valid in the source, so the not-found
fallback (append) is never exercised in a paired state. -/
def insertBeforeId (r : Nat) (lnew : Link) : List Link → List Link
  | [] => [lnew]
  | L :: tl => if L.id = r then lnew :: L :: tl else L :: insertBeforeId r lnew tl

/-- `std::list::erase(iterator)` at the position of the link whose identifier
is `r`: remove the first link carrying that identifier. -/
def eraseFirstId (r : Nat) : List Link → List Link
  | [] => []
  | L :: tl => if L.id = r then tl else L :: eraseFirstId r tl

/-- `Cross3D::initialConnection` (Cross3D.cpp lines 566-574): push a fresh
link to the front of each cell's side list and cross-link the pair (fresh
identifiers stand in for the crossed reverse iterators). -/
def initialConnection (s : State) (before after : Int) (dir : Nat) : State :=
  let s1 := modifySide s before dir (fun l => ⟨after, s.next_id, s.next_id + 1⟩ :: l)
  let s2 := modifySide s1 after (oppositeN dir) (fun l => ⟨before, s.next_id + 1, s.next_id⟩ :: l)
  { s2 with next_id := s.next_id + 2 }

/-- The per-child link distribution of `Cross3D::subdivide` (Cross3D.cpp
lines 530-541): prepend a fresh link from the child to the neighbor and
insert the paired back-link into the neighbor's opposite list immediately
before the parent's old back-link. -/
def addPairBefore (s : State) (child : Int) (side : Nat) (nb : Int) (beforeId : Nat) : State :=
  let s1 := modifySide s child side (fun l => ⟨nb, s.next_id, s.next_id + 1⟩ :: l)
  let s2 := modifySide s1 nb (oppositeN side)
    (insertBeforeId beforeId ⟨child, s.next_id + 1, s.next_id⟩)
  { s2 with next_id := s.next_id + 2 }

/-- Processing of one link of the parent in `Cross3D::subdivide`
(Cross3D.cpp lines 510-547): distribute the link to every child that
`isNextTo` the neighbor, then erase the parent's back-link from the
neighbor's opposite list. -/
def processLink (ext : Ext) (ci : Int) (side : Nat) (s : State) (L : Link) : State :=
  let kids := (getCell s ci).children.takeWhile (fun c => decide (0 ≤ c))
  let s1 := kids.foldl (fun st ch =>
    if isNextTo ext (getCell st ch) (getCell st L.to_index) (dirOfNat side) = true
    then addPairBefore st ch side L.to_index L.rev
    else st) s
  modifySide s1 L.to_index (oppositeN side) (eraseFirstId L.rev)

/-- Processing of one side of the parent in `Cross3D::subdivide`: replay every
link of that side, then clear the side (Cross3D.cpp lines 488-551).  The
parent's own side list is never modified while it is being traversed in the
source (children and neighbors are distinct from the parent), so the snapshot
taken here is the list the C++ iteration sees. -/
def processSide (ext : Ext) (ci : Int) (s : State) (side : Nat) : State :=
  let links := sideOf (getCell s ci) side
  let s1 := links.foldl (processLink ext ci side) s
  modifySide s1 ci side (fun _ => [])

/-- `Cross3D::subdivide` (Cross3D.cpp lines 468-563): connect the new sibling
children (RIGHT between slots 0-1 and, for four children, RIGHT between 2-3
and UP between 0-2 and 1-3), replay the external links of all four sides to
the children, clear the parent's lists, and mark the parent subdivided. -/
def subdivide (ext : Ext) (s : State) (ci : Int) : State :=
  let ch := (getCell s ci).children
  let c0 := ch.getD 0 (-1)
  let c1 := ch.getD 1 (-1)
  let c2 := ch.getD 2 (-1)
  let c3 := ch.getD 3 (-1)
  let s1 := initialConnection s c0 c1 1
  let s2 := if (getCell s ci).getChildCount = 4 then
      initialConnection (initialConnection (initialConnection s1 c2 c3 1) c0 c2 2) c1 c3 2
    else s1
  let s3 := [0, 1, 2, 3].foldl (processSide ext ci) s2
  updCell s3 ci (fun c => { c with is_subdivided := true })

/-- The push-front loop of the constrained branch of
`createMinimalDensityPattern` (Cross3D.cpp lines 390-399): push every
constraining neighbor to the front of the work queue, iterating the sides
and each side's links in order. -/
def constrainingQueuePush (s : State) (cell : Cell) (q : List Int) : List Int :=
  cell.adjacent_cells.foldl (fun acc side =>
    side.foldl (fun acc2 neighbor =>
      if isConstrainedBy cell (getCell s neighbor.to_index) = true
      then neighbor.to_index :: acc2 else acc2) acc) q

/-- One iteration of the work-queue loop of
`Cross3D::createMinimalDensityPattern` (Cross3D.cpp lines 364-401). -/
def mdpStep (ext : Ext) (s : State) (q : List Int) : State × List Int :=
  match q with
  | [] => (s, [])
  | c :: rest =>
    let cell := getCell s c
    if cell.children.getD 0 (-1) < 0 ∨ ext.max_depth ≤ cell.depth then
      (s, rest)
    else if isConstrained s cell = false then
      let s2 := subdivide ext s c
      (s2, rest ++ (getCell s2 c).children.filter
        (fun ch => decide (0 ≤ ch) && shouldBeSubdivided ext (getCell s2 ch)))
    else
      (s, constrainingQueuePush s cell q)

/-- The spec-level description of the constraining neighbors of a cell: the
targets of all its links, in side order then list order, whose cells have
strictly smaller depth. -/
def constrainingTargets (s : State) (cell : Cell) : List Int :=
  ((cell.adjacent_cells.flatten).filter
    (fun L => isConstrainedBy cell (getCell s L.to_index))).map (fun L => L.to_index)

/-- A concrete interpretation of the external collaborators used by witnesses. -/
def extTrivial : Ext := ⟨fun _ _ => true, fun _ => 0, fun _ _ => 0, 3, 400⟩

/-- A link `L` stored in side `k` of the cell at arena position `i`. -/
def LinkAt (s : State) (i k : Nat) (L : Link) : Prop :=
  i < s.cells.length ∧ k < 4 ∧ L ∈ sideOf (s.cells.getD i dummyCell) k

/-- Every stored link points at a valid arena position. -/
def linkTargetsValid (s : State) : Prop :=
  ∀ i < s.cells.length, ∀ k < 4, ∀ L ∈ sideOf (s.cells.getD i dummyCell) k,
    0 ≤ L.to_index ∧ L.to_index.toNat < s.cells.length

/-- The one-level balance invariant of the spec: the depths of any two cells
joined by a link differ by at most one. -/
def balanced (s : State) : Prop :=
  ∀ i < s.cells.length, ∀ k < 4, ∀ L ∈ sideOf (s.cells.getD i dummyCell) k,
    ((s.cells.getD i dummyCell).depth - (getCell s L.to_index).depth).natAbs ≤ 1

/-- Every present child is a valid arena position one level deeper than its
parent (established by `createTree`, untouched by subdivision). -/
def childDepthOK (s : State) : Prop :=
  ∀ i < s.cells.length, ∀ ch ∈ (s.cells.getD i dummyCell).children, 0 ≤ ch →
    ch.toNat < s.cells.length ∧ (getCell s ch).depth = (s.cells.getD i dummyCell).depth + 1

/-- Every cell has exactly the four side lists of the source data model. -/
def adjLen4 (s : State) : Prop :=
  ∀ i < s.cells.length, (s.cells.getD i dummyCell).adjacent_cells.length = 4

/-- The well-formedness bundle under which the balance argument runs. -/
def BalInv (s : State) : Prop :=
  balanced s ∧ childDepthOK s ∧ linkTargetsValid s ∧ adjLen4 s

/-- The valid children of a cell, in slot order, exactly as the child loop of
`Cross3D::subdivide` visits them (break at the first negative slot). -/
def kidsOf (s : State) (ci : Int) : List Int :=
  (getCell s ci).children.takeWhile (fun c => decide (0 ≤ c))

/-- The well-formedness facts about a cell that hold whenever the source calls
`subdivide` on it: a valid index whose first two child slots are filled (the
code asserts this), slot 3 filled when slot 2 is, children distinct from the
parent and valid, and no link of the cell pointing back at the cell or at one
of its children (children have no links before their parent is subdivided, so
nothing links to them). -/
def SubdividePre (s : State) (ci : Int) : Prop :=
  0 ≤ ci ∧ ci.toNat < s.cells.length ∧
  (getCell s ci).children.length = 4 ∧
  0 ≤ (getCell s ci).children.getD 0 (-1) ∧
  0 ≤ (getCell s ci).children.getD 1 (-1) ∧
  (0 ≤ (getCell s ci).children.getD 2 (-1) → 0 ≤ (getCell s ci).children.getD 3 (-1)) ∧
  (∀ ch ∈ kidsOf s ci, ch ≠ ci ∧ ch.toNat < s.cells.length) ∧
  (∀ k < 4, ∀ L ∈ sideOf (getCell s ci) k, L.to_index ≠ ci ∧ L.to_index ∉ kidsOf s ci) ∧
  (kidsOf s ci).Nodup

/-- The links `subdivide(ci)` may leave in the arena: links already present
before the call, sibling links between two children of `ci`, links from a
child of `ci` to a cell some link of `ci` pointed at, and links from such a
cell back to a child of `ci`. -/
def Allowed (s0 : State) (ci : Int) (i k : Nat) (L : Link) : Prop :=
  LinkAt s0 i k L ∨
  ((Int.ofNat i ∈ kidsOf s0 ci ∧ L.to_index ∈ kidsOf s0 ci) ∨
   (Int.ofNat i ∈ kidsOf s0 ci ∧
     ∃ k2 L2, LinkAt s0 ci.toNat k2 L2 ∧ L.to_index = L2.to_index) ∨
   (L.to_index ∈ kidsOf s0 ci ∧
     ∃ k2 L2, LinkAt s0 ci.toNat k2 L2 ∧ Int.ofNat i = L2.to_index))

/-- All links of `t` are links `subdivide(ci)` may leave starting from `s0`. -/
def LinksAllowed (s0 : State) (ci : Int) (t : State) : Prop :=
  ∀ i k L, LinkAt t i k L → Allowed s0 ci i k L

/-- The cell fields relevant to balance are unchanged between two states. -/
def sameShape (s t : State) : Prop :=
  t.cells.length = s.cells.length ∧
  ∀ j : Int, (getCell t j).children = (getCell s j).children ∧
    (getCell t j).depth = (getCell s j).depth ∧
    (getCell t j).adjacent_cells.length = (getCell s j).adjacent_cells.length ∧
    (getCell t j).index = (getCell s j).index

/-- The loop invariant of the balance proof for one `subdivide(ci)` run:
shape preserved, the parent's side lists only ever shrink, and every link is
an allowed link. -/
def SubGood (s0 : State) (ci : Int) (t : State) : Prop :=
  sameShape s0 t ∧
  (∀ k, sideOf (getCell t ci) k ⊆ sideOf (getCell s0 ci) k) ∧
  LinksAllowed s0 ci t

/-- Any completed sequence of subdivisions in which `subdivide` is only ever
applied to well-formed cells for which `canSubdivide` is true. -/
inductive SubSteps (ext : Ext) (md : Int) : State → State → Prop where
  | refl (s : State) : SubSteps ext md s s
  | step {s t : State} (p : Int) : SubSteps ext md s t → SubdividePre t p →
      canSubdivide md t (getCell t p) = true → SubSteps ext md s (subdivide ext t p)

/-- A three-cell arena for the C1 witness: a parent at depth 0 with two
children at depth 1 and no links anywhere. -/
def cexTree : State :=
  ⟨[{ prism := cexPrism, index := 0, depth := 0, children := [1, 2, -1, -1],
      is_subdivided := false, volume := 0, filled_volume_allowance := 0,
      minimally_required_density := 0, adjacent_cells := [[], [], [], []] },
    mkCell cexPrism 1 1, mkCell cexPrism 2 1], 0⟩

/-- The number of links carrying identifier `n` in one side list. -/
def countId (l : List Link) (n : Nat) : Nat := l.countP (fun L => L.id == n)

/-- The number of links carrying identifier `n` stored in one cell. -/
def cellCount (c : Cell) (n : Nat) : Nat :=
  (c.adjacent_cells.map (fun l => countId l n)).sum

/-- The number of links carrying identifier `n` stored in the whole arena. -/
def idCount (s : State) (n : Nat) : Nat := (s.cells.map (fun c => cellCount c n)).sum

/-- The pairing invariant of the spec (section 3, Link): cells carry their own
arena position in `index`; every cell has four side lists; link identifiers
are globally unique and below the freshness counter; and every link L stored
in side k of the cell at position i points at a valid cell whose opposite
side list contains the paired back-link — the link whose identifier is
`L.rev`, whose target is position i, and whose own `rev` is `L.id`. -/
def PairInv (s : State) : Prop :=
  (∀ i < s.cells.length, (s.cells.getD i dummyCell).index = Int.ofNat i) ∧
  adjLen4 s ∧
  (∀ n, idCount s n ≤ 1) ∧
  (∀ n, s.next_id ≤ n → idCount s n = 0) ∧
  (∀ i k L, LinkAt s i k L →
    0 ≤ L.to_index ∧ L.to_index.toNat < s.cells.length ∧
    (⟨Int.ofNat i, L.rev, L.id⟩ : Link) ∈
      sideOf (s.cells.getD L.to_index.toNat dummyCell) (oppositeN k))

/-- The pairing invariant during the side loop of `subdivide`: identifiers in
`bad` are the already-replayed links of the parent, whose back-links have been
erased; every other link is still correctly paired. -/
def PairExcept (s : State) (bad : List Nat) : Prop :=
  (∀ n, idCount s n ≤ 1) ∧
  (∀ n, s.next_id ≤ n → idCount s n = 0) ∧
  (∀ i k L, LinkAt s i k L → L.id ∉ bad →
    0 ≤ L.to_index ∧ L.to_index.toNat < s.cells.length ∧
    (⟨Int.ofNat i, L.rev, L.id⟩ : Link) ∈
      sideOf (s.cells.getD L.to_index.toNat dummyCell) (oppositeN k))

/-- C3: for every triangle T, `Triangle::subdivide` returns exactly two children,
both with `straight_corner = midpoint(T.a, T.b)` and flipped
`straight_corner_is_left`; child 0 has `a = T.a`, `b = T.straight_corner`,
child 1 has `a = T.straight_corner`, `b = T.b`; and the child directions follow
the table: AB_TO_BC yields (AC_TO_BC, AC_TO_AB), AC_TO_AB yields
(AB_TO_BC, AC_TO_BC), AC_TO_BC yields (AB_TO_BC, AC_TO_AB). -/
theorem C3_triangle_subdivide (t : Triangle) :
    (t.subdivide.1.straight_corner = midpointP t.a t.b ∧
     t.subdivide.2.straight_corner = midpointP t.a t.b) ∧
    (t.subdivide.1.straight_corner_is_left = !t.straight_corner_is_left ∧
     t.subdivide.2.straight_corner_is_left = !t.straight_corner_is_left) ∧
    (t.subdivide.1.a = t.a ∧ t.subdivide.1.b = t.straight_corner) ∧
    (t.subdivide.2.a = t.straight_corner ∧ t.subdivide.2.b = t.b) ∧
    (t.subdivide.1.dir, t.subdivide.2.dir) = specChildDirs t.dir := by
  cases t with
  | mk sc a b dir left =>
    cases dir <;> simp [Triangle.subdivide, specChildDirs, midpointP]

/-- C7: for every triangle, `getFromEdge` and `getToEdge` return the segments
selected by the direction field according to the table of spec section 4.1,
and when `straight_corner_is_left` is false the returned segment is the
reversal of the segment the table gives. -/
theorem C7_from_to_edges (t : Triangle) :
    t.getFromEdge = (if t.straight_corner_is_left then specFromEdge t
                     else (specFromEdge t).reverse) ∧
    t.getToEdge = (if t.straight_corner_is_left then specToEdge t
                   else (specToEdge t).reverse) := by
  cases t with
  | mk sc a b dir left =>
    cases dir <;> cases left <;>
      simp [Triangle.getFromEdge, Triangle.getToEdge, specFromEdge, specToEdge]

/-- C5: for every pair of cells (a, b), `isNextTo(a, b, UP)` and
`isNextTo(a, b, DOWN)` hold iff the z-range of a overlaps the z-range of b
expanded by 10 units and the footprint intersection area is within 100 square
units of the smaller footprint area; `isNextTo(a, b, LEFT)` holds iff a's
from-edge and b's to-edge are collinear with 1D projection overlap strictly
greater than 10 units, and `isNextTo(a, b, RIGHT)` likewise with a's to-edge
against b's from-edge. -/
theorem C5_isNextTo (ext : Ext) (a b : Cell) :
    ((isNextTo ext a b Direction.UP = true ↔ specVertNextTo ext a b) ∧
     (isNextTo ext a b Direction.DOWN = true ↔ specVertNextTo ext a b)) ∧
    (isNextTo ext a b Direction.LEFT = true ↔
      specEdgeNextTo ext a.prism.triangle.getFromEdge b.prism.triangle.getToEdge) ∧
    (isNextTo ext a b Direction.RIGHT = true ↔
      specEdgeNextTo ext a.prism.triangle.getToEdge b.prism.triangle.getFromEdge) := by
  constructor
  · constructor <;>
    · simp only [isNextTo, specVertNextTo]
      by_cases h : a.prism.z_range.overlapB (b.prism.z_range.expanded 10) = true <;>
        simp [h]
  · constructor
    · simp only [isNextTo, edgesNextTo, specEdgeNextTo]
      by_cases h : ext.areCollinear a.prism.triangle.getFromEdge
          b.prism.triangle.getToEdge = true <;> simp [h]
    · simp only [isNextTo, edgesNextTo, specEdgeNextTo]
      by_cases h : ext.areCollinear a.prism.triangle.getToEdge
          b.prism.triangle.getFromEdge = true <;> simp [h]

theorem listGetD_set_self {α : Type} {l : List α} {i : Nat} (h : i < l.length) (a d : α) :
    (l.set i a).getD i d = a := by
  simp [List.getD_eq_getElem?_getD, List.getElem?_set_self h]

theorem listGetD_set_ne {α : Type} {l : List α} {i j : Nat} (h : i ≠ j) (a d : α) :
    (l.set i a).getD j d = l.getD j d := by
  simp [List.getD_eq_getElem?_getD, List.getElem?_set_ne h]

theorem listGetD_append_left {α : Type} {l l2 : List α} {j : Nat} (h : j < l.length) (d : α) :
    (l ++ l2).getD j d = l.getD j d := by
  simp [List.getD_eq_getElem?_getD, List.getElem?_append_left h]

theorem listGetD_append_self {α : Type} (l : List α) (c d : α) :
    (l ++ [c]).getD l.length d = c := by
  simp [List.getD_eq_getElem?_getD, List.getElem?_append_right (Nat.le_refl _)]

theorem cellSkel_prism {c c' : Cell} (h : cellSkel c = cellSkel c') : c.prism = c'.prism :=
  congrArg Prod.fst h

theorem cellSkel_index {c c' : Cell} (h : cellSkel c = cellSkel c') : c.index = c'.index :=
  congrArg (fun p => p.2.1) h

theorem cellSkel_depth {c c' : Cell} (h : cellSkel c = cellSkel c') : c.depth = c'.depth :=
  congrArg (fun p => p.2.2.1) h

theorem cellSkel_is_subdivided {c c' : Cell} (h : cellSkel c = cellSkel c') :
    c.is_subdivided = c'.is_subdivided :=
  congrArg (fun p => p.2.2.2.1) h

theorem cellSkel_adjacent {c c' : Cell} (h : cellSkel c = cellSkel c') :
    c.adjacent_cells = c'.adjacent_cells :=
  congrArg (fun p => p.2.2.2.2.1) h

theorem ctuntouched_refl (idx : Nat) (s : State) : CTUntouched idx s s :=
  ⟨Nat.le_refl _, fun _ _ _ => rfl, fun _ _ => rfl⟩

theorem ctuntouched_trans {idx : Nat} {s t r : State}
    (h1 : CTUntouched idx s t) (h2 : CTUntouched idx t r) : CTUntouched idx s r := by
  obtain ⟨l1, f1, k1⟩ := h1
  obtain ⟨l2, f2, k2⟩ := h2
  refine ⟨Nat.le_trans l1 l2, ?_, ?_⟩
  · intro j hj hne
    rw [f2 j (Nat.lt_of_lt_of_le hj l1) hne, f1 j hj hne]
  · intro j hj
    rw [k2 j (Nat.lt_of_lt_of_le hj l1), k1 j hj]

theorem ctuntouched_setChildSlot (idx : Int) (s : State) (slot : Nat) (v : Int) :
    CTUntouched idx.toNat s (setChildSlot s idx slot v) := by
  refine ⟨?_, ?_, ?_⟩
  · simp [setChildSlot, updCell]
  · intro j hj hne
    simp only [setChildSlot, updCell]
    exact listGetD_set_ne (fun h => hne h.symm) _ _
  · intro j hj
    simp only [setChildSlot, updCell]
    by_cases hij : idx.toNat = j
    · subst hij
      rw [listGetD_set_self (by simpa using hj)]
      rfl
    · rw [listGetD_set_ne hij]

theorem ctuntouched_appendCell (idx : Nat) (s : State) (c : Cell) :
    CTUntouched idx s (appendCell s c) := by
  refine ⟨?_, ?_, ?_⟩
  · simp [appendCell]
  · intro j hj _
    simp only [appendCell]
    exact listGetD_append_left hj _
  · intro j hj
    simp only [appendCell]
    rw [listGetD_append_left hj]

theorem createChild_untouched (recur : State → Int → State) (pp : Prism) (pd : Int)
    (cc : Nat) (tri : Triangle) (zmin zmax : Int) (zi xyi slot : Nat)
    (s : State) (idx : Int)
    (hrec : ∀ st n, n.toNat < st.cells.length → CTUntouched n.toNat st (recur st n)) :
    CTUntouched idx.toNat s (createChild recur pp pd cc tri zmin zmax zi xyi slot s idx) := by
  by_cases hzi : zi = cc / 2
  · rw [createChild, if_pos hzi]
    exact ctuntouched_setChildSlot idx s slot (-1)
  · rw [createChild, if_neg hzi]
    set n : Int := Int.ofNat s.cells.length with hn
    set s1 := setChildSlot s idx slot n with hs1
    set newCell : Cell :=
      mkCell ⟨tri, ⟨zmin, zmax⟩, childExpanding pp zi xyi⟩ n (pd + 1) with hnew
    set s2 := appendCell s1 newCell with hs2
    have hlen1 : s1.cells.length = s.cells.length := by simp [hs1, setChildSlot, updCell]
    have hlen2 : s2.cells.length = s.cells.length + 1 := by simp [hs2, appendCell, hlen1]
    have hnv : n.toNat = s.cells.length := by simp [hn]
    have hu1 := ctuntouched_setChildSlot idx s slot n
    have hu2 := ctuntouched_appendCell idx.toNat s1 newCell
    have hu3 := hrec s2 n (by rw [hnv, hlen2]; omega)
    obtain ⟨l3, f3, k3⟩ := hu3
    have h12 : CTUntouched idx.toNat s s2 := ctuntouched_trans hu1 hu2
    obtain ⟨l12, f12, k12⟩ := h12
    refine ⟨?_, ?_, ?_⟩
    · omega
    · intro j hj hne
      rw [f3 j (by omega) (by omega), f12 j hj hne]
    · intro j hj
      rw [k3 j (by omega), k12 j hj]

theorem createTreeRec_untouched (fuel : Nat) :
    ∀ (s : State) (idx md : Int), CTUntouched idx.toNat s (createTreeRec fuel s idx md) := by
  induction fuel with
  | zero => intro s idx md; exact ctuntouched_refl _ _
  | succ fuel ih =>
    intro s idx md
    rw [createTreeRec]
    by_cases hd : md ≤ (getCell s idx).depth
    · rw [if_pos hd]
      refine ⟨?_, ?_, ?_⟩
      · simp [updCell]
      · intro j hj hne
        simp only [updCell]
        exact listGetD_set_ne (fun h => hne h.symm) _ _
      · intro j hj
        simp only [updCell]
        by_cases hij : idx.toNat = j
        · subst hij
          rw [listGetD_set_self (by simpa using hj)]
          rfl
        · rw [listGetD_set_ne hij]
    · rw [if_neg hd]
      have hrec : ∀ st n, n.toNat < st.cells.length →
          CTUntouched n.toNat st (createTreeRec fuel st n md) := fun st n _ => ih st n md
      refine ctuntouched_trans
        (createChild_untouched _ _ _ _ _ _ _ _ _ _ s idx hrec)
        (ctuntouched_trans
          (createChild_untouched _ _ _ _ _ _ _ _ _ _ _ idx hrec)
          (ctuntouched_trans
            (createChild_untouched _ _ _ _ _ _ _ _ _ _ _ idx hrec)
            (createChild_untouched _ _ _ _ _ _ _ _ _ _ _ idx hrec)))

theorem length_setChildSlot (s : State) (idx : Int) (slot : Nat) (v : Int) :
    (setChildSlot s idx slot v).cells.length = s.cells.length := by
  simp [setChildSlot, updCell]

theorem getCell_setChildSlot_self (s : State) (idx : Int) (slot : Nat) (v : Int)
    (h : idx.toNat < s.cells.length) :
    getCell (setChildSlot s idx slot v) idx =
      { getCell s idx with children := (getCell s idx).children.set slot v } := by
  simp only [setChildSlot, updCell, getCell]
  exact listGetD_set_self h _ _

theorem getCell_setChildSlot_other (s : State) (idx : Int) (slot : Nat) (v : Int)
    (j : Int) (hne : idx.toNat ≠ j.toNat) :
    getCell (setChildSlot s idx slot v) j = getCell s j := by
  simp only [setChildSlot, updCell, getCell]
  exact listGetD_set_ne hne _ _

theorem ctuntouched_getCell {idx : Nat} {s r : State} (h : CTUntouched idx s r)
    (j : Int) (hj : j.toNat < s.cells.length) (hne : j.toNat ≠ idx) :
    getCell r j = getCell s j :=
  h.2.1 j.toNat hj hne

theorem createChild_skip (recur : State → Int → State) (pp : Prism) (pd : Int)
    (cc : Nat) (tri : Triangle) (zmin zmax : Int) (zi xyi slot : Nat)
    (s : State) (pidx : Int) (hzi : zi = cc / 2) :
    createChild recur pp pd cc tri zmin zmax zi xyi slot s pidx =
      setChildSlot s pidx slot (-1) := by
  rw [createChild, if_pos hzi]

theorem createChild_create (recur : State → Int → State) (pp : Prism) (pd : Int)
    (cc : Nat) (tri : Triangle) (zmin zmax : Int) (zi xyi slot : Nat)
    (s : State) (idx : Int)
    (hrec : ∀ st n, n.toNat < st.cells.length → CTUntouched n.toNat st (recur st n))
    (hzi : zi ≠ cc / 2) (hidx : idx.toNat < s.cells.length) :
    (getCell (createChild recur pp pd cc tri zmin zmax zi xyi slot s idx) idx).children
      = (getCell s idx).children.set slot (Int.ofNat s.cells.length) ∧
    (getCell (createChild recur pp pd cc tri zmin zmax zi xyi slot s idx)
        (Int.ofNat s.cells.length)).prism
      = ⟨tri, ⟨zmin, zmax⟩, childExpanding pp zi xyi⟩ ∧
    s.cells.length < (createChild recur pp pd cc tri zmin zmax zi xyi slot s idx).cells.length := by
  rw [createChild, if_neg hzi]
  set n : Int := Int.ofNat s.cells.length with hn
  set s1 := setChildSlot s idx slot n with hs1
  set newCell : Cell :=
    mkCell ⟨tri, ⟨zmin, zmax⟩, childExpanding pp zi xyi⟩ n (pd + 1) with hnew
  set s2 := appendCell s1 newCell with hs2
  have hlen1 : s1.cells.length = s.cells.length := length_setChildSlot s idx slot n
  have hlen2 : s2.cells.length = s.cells.length + 1 := by simp [hs2, appendCell, hlen1]
  have hnv : n.toNat = s.cells.length := by simp [hn]
  obtain ⟨l3, f3, k3⟩ := hrec s2 n (by rw [hnv, hlen2]; omega)
  refine ⟨?_, ?_, ?_⟩
  · have hne : idx.toNat ≠ n.toNat := by omega
    have e1 : getCell (recur s2 n) idx = getCell s2 idx :=
      f3 idx.toNat (by omega) (by omega)
    have e2 : getCell s2 idx = getCell s1 idx := by
      simp only [hs2, appendCell, getCell]
      exact listGetD_append_left (by omega) _
    rw [e1, e2, hs1, getCell_setChildSlot_self s idx slot n hidx]
  · have e1 : cellSkel (getCell (recur s2 n) n) = cellSkel (getCell s2 n) :=
      k3 n.toNat (by omega)
    have e2 : getCell s2 n = newCell := by
      simp only [hs2, appendCell, getCell]
      rw [hnv, ← hlen1]
      exact listGetD_append_self _ _ _
    rw [cellSkel_prism e1, e2, hnew]
    rfl
  · omega

/-- C6 amended: in the recursive createTree step, for every cell whose depth is
strictly less than max_depth: if its prism is a half-cube it receives exactly 2
children, both spanning the parent's full z-range, with slots 2 and 3 negative;
if its prism is not a half-cube (the code tests only `isHalfCube`, so a prism
within tolerance of both classifications takes the 2-child branch) it receives
exactly 4 children, children 0 and 1 occupying the lower half of the z-range
up to the truncated midpoint and children 2 and 3 the upper half. -/
theorem C6_createTree_children (fuel : Nat) (s : State) (idx md : Int)
    (hidx : idx.toNat < s.cells.length)
    (hlen : (getCell s idx).children.length = 4)
    (hdepth : (getCell s idx).depth < md) :
    ∀ r, r = createTreeRec (fuel + 1) s idx md →
    (((getCell s idx).prism.isHalfCube = true →
      (getCell r idx).getChildCount = 2 ∧
      0 ≤ (getCell r idx).children.getD 0 (-1) ∧
      0 ≤ (getCell r idx).children.getD 1 (-1) ∧
      (getCell r idx).children.getD 2 (-1) = -1 ∧
      (getCell r idx).children.getD 3 (-1) = -1 ∧
      (getCell r ((getCell r idx).children.getD 0 (-1))).prism.z_range
        = (getCell s idx).prism.z_range ∧
      (getCell r ((getCell r idx).children.getD 1 (-1))).prism.z_range
        = (getCell s idx).prism.z_range) ∧
     ((getCell s idx).prism.isHalfCube = false →
      (getCell r idx).getChildCount = 4 ∧
      (∀ k, k < 4 → 0 ≤ (getCell r idx).children.getD k (-1)) ∧
      (getCell r ((getCell r idx).children.getD 0 (-1))).prism.z_range
        = ⟨(getCell s idx).prism.z_range.min,
           Int.tdiv ((getCell s idx).prism.z_range.max + (getCell s idx).prism.z_range.min) 2⟩ ∧
      (getCell r ((getCell r idx).children.getD 1 (-1))).prism.z_range
        = ⟨(getCell s idx).prism.z_range.min,
           Int.tdiv ((getCell s idx).prism.z_range.max + (getCell s idx).prism.z_range.min) 2⟩ ∧
      (getCell r ((getCell r idx).children.getD 2 (-1))).prism.z_range
        = ⟨Int.tdiv ((getCell s idx).prism.z_range.max + (getCell s idx).prism.z_range.min) 2,
           (getCell s idx).prism.z_range.max⟩ ∧
      (getCell r ((getCell r idx).children.getD 3 (-1))).prism.z_range
        = ⟨Int.tdiv ((getCell s idx).prism.z_range.max + (getCell s idx).prism.z_range.min) 2,
           (getCell s idx).prism.z_range.max⟩)) := by
  intro r hr
  have hd2 : ¬ md ≤ (getCell s idx).depth := not_le.mpr hdepth
  have hrec : ∀ st n, n.toNat < st.cells.length →
      CTUntouched n.toNat st (createTreeRec fuel st n md) :=
    fun st n _ => createTreeRec_untouched fuel st n md
  constructor
  · -- half-cube branch: 2 children spanning the parent z-range
    intro hH
    have hr2 : r =
        createChild (fun st i => createTreeRec fuel st i md)
          (getCell s idx).prism (getCell s idx).depth 2
          ((getCell s idx).prism.triangle.subdivide).2
          (getCell s idx).prism.z_range.max (getCell s idx).prism.z_range.max 1 1 3
          (createChild (fun st i => createTreeRec fuel st i md)
            (getCell s idx).prism (getCell s idx).depth 2
            ((getCell s idx).prism.triangle.subdivide).1
            (getCell s idx).prism.z_range.max (getCell s idx).prism.z_range.max 1 0 2
            (createChild (fun st i => createTreeRec fuel st i md)
              (getCell s idx).prism (getCell s idx).depth 2
              ((getCell s idx).prism.triangle.subdivide).2
              (getCell s idx).prism.z_range.min (getCell s idx).prism.z_range.max 0 1 1
              (createChild (fun st i => createTreeRec fuel st i md)
                (getCell s idx).prism (getCell s idx).depth 2
                ((getCell s idx).prism.triangle.subdivide).1
                (getCell s idx).prism.z_range.min (getCell s idx).prism.z_range.max 0 0 0
                s idx) idx) idx) idx := by
      rw [hr]
      simp only [createTreeRec]
      rw [if_neg hd2]
      simp [hH]
    set SA := createChild (fun st i => createTreeRec fuel st i md)
      (getCell s idx).prism (getCell s idx).depth 2
      ((getCell s idx).prism.triangle.subdivide).1
      (getCell s idx).prism.z_range.min (getCell s idx).prism.z_range.max 0 0 0
      s idx with hSA
    set SB := createChild (fun st i => createTreeRec fuel st i md)
      (getCell s idx).prism (getCell s idx).depth 2
      ((getCell s idx).prism.triangle.subdivide).2
      (getCell s idx).prism.z_range.min (getCell s idx).prism.z_range.max 0 1 1
      SA idx with hSB
    have ha := createChild_create (fun st i => createTreeRec fuel st i md)
      (getCell s idx).prism (getCell s idx).depth 2
      ((getCell s idx).prism.triangle.subdivide).1
      (getCell s idx).prism.z_range.min (getCell s idx).prism.z_range.max 0 0 0
      s idx hrec (by decide) hidx
    rw [← hSA] at ha
    have hua := createChild_untouched (fun st i => createTreeRec fuel st i md)
      (getCell s idx).prism (getCell s idx).depth 2
      ((getCell s idx).prism.triangle.subdivide).1
      (getCell s idx).prism.z_range.min (getCell s idx).prism.z_range.max 0 0 0
      s idx hrec
    rw [← hSA] at hua
    have hidxa : idx.toNat < SA.cells.length := Nat.lt_of_lt_of_le hidx hua.1
    have hb := createChild_create (fun st i => createTreeRec fuel st i md)
      (getCell s idx).prism (getCell s idx).depth 2
      ((getCell s idx).prism.triangle.subdivide).2
      (getCell s idx).prism.z_range.min (getCell s idx).prism.z_range.max 0 1 1
      SA idx hrec (by decide) hidxa
    rw [← hSB] at hb
    have hub := createChild_untouched (fun st i => createTreeRec fuel st i md)
      (getCell s idx).prism (getCell s idx).depth 2
      ((getCell s idx).prism.triangle.subdivide).2
      (getCell s idx).prism.z_range.min (getCell s idx).prism.z_range.max 0 1 1
      SA idx hrec
    rw [← hSB] at hub
    rw [createChild_skip _ _ _ _ _ _ _ _ _ _ _ _ (by decide),
        createChild_skip _ _ _ _ _ _ _ _ _ _ _ _ (by decide)] at hr2
    -- arena indices of the two created children
    have hnA : (Int.ofNat s.cells.length).toNat = s.cells.length := by simp
    have hnB : (Int.ofNat SA.cells.length).toNat = SA.cells.length := by simp
    have hneA : idx.toNat ≠ (Int.ofNat s.cells.length).toNat := by omega
    have hneB : idx.toNat ≠ (Int.ofNat SA.cells.length).toNat := by
      have := ha.2.2; omega
    -- the children list of the parent after all four steps
    have hcells : getCell r idx =
        { getCell SB idx with
            children := (((getCell SB idx).children.set 2 (-1)).set 3 (-1)) } := by
      rw [hr2]
      rw [getCell_setChildSlot_self _ idx 3 (-1)
            (by rw [length_setChildSlot]
                exact Nat.lt_of_lt_of_le hidxa hub.1),
          getCell_setChildSlot_self _ idx 2 (-1) (Nat.lt_of_lt_of_le hidxa hub.1)]
    have hchB : (getCell SB idx).children =
        ((getCell s idx).children.set 0 (Int.ofNat s.cells.length)).set 1
          (Int.ofNat SA.cells.length) := by
      rw [hb.1, ha.1]
    have hlenB : (getCell SB idx).children.length = 4 := by
      rw [hchB]; simp [hlen]
    have hch0 : (getCell r idx).children.getD 0 (-1) = Int.ofNat s.cells.length := by
      rw [hcells]
      show ((((getCell SB idx).children.set 2 (-1)).set 3 (-1))).getD 0 (-1) = _
      rw [listGetD_set_ne (by decide), listGetD_set_ne (by decide), hchB,
          listGetD_set_ne (by decide), listGetD_set_self (by omega)]
    have hch1 : (getCell r idx).children.getD 1 (-1) = Int.ofNat SA.cells.length := by
      rw [hcells]
      show ((((getCell SB idx).children.set 2 (-1)).set 3 (-1))).getD 1 (-1) = _
      rw [listGetD_set_ne (by decide), listGetD_set_ne (by decide), hchB,
          listGetD_set_self (by simp; omega)]
    have hch2 : (getCell r idx).children.getD 2 (-1) = -1 := by
      rw [hcells]
      show ((((getCell SB idx).children.set 2 (-1)).set 3 (-1))).getD 2 (-1) = _
      rw [listGetD_set_ne (by decide), listGetD_set_self (by simp [hlenB])]
    have hch3 : (getCell r idx).children.getD 3 (-1) = -1 := by
      rw [hcells]
      show ((((getCell SB idx).children.set 2 (-1)).set 3 (-1))).getD 3 (-1) = _
      rw [listGetD_set_self (by simp [hlenB])]
    -- prisms of the two created children are untouched by the later steps
    have hgA : getCell r (Int.ofNat s.cells.length) = getCell SA (Int.ofNat s.cells.length) := by
      rw [hr2, getCell_setChildSlot_other _ idx 3 (-1) _ hneA,
          getCell_setChildSlot_other _ idx 2 (-1) _ hneA]
      exact ctuntouched_getCell hub _ (by omega) (by omega)
    have hgB : getCell r (Int.ofNat SA.cells.length) = getCell SB (Int.ofNat SA.cells.length) := by
      rw [hr2, getCell_setChildSlot_other _ idx 3 (-1) _ hneB,
          getCell_setChildSlot_other _ idx 2 (-1) _ hneB]
    refine ⟨?_, ?_, ?_, hch2, hch3, ?_, ?_⟩
    · simp only [Cell.getChildCount]
      rw [hch2]
      norm_num
    · rw [hch0]; exact Int.ofNat_nonneg _
    · rw [hch1]; exact Int.ofNat_nonneg _
    · rw [hch0, hgA, ha.2.1]
    · rw [hch1, hgB, hb.2.1]
  · -- non-half-cube branch: 4 children split at the truncated z midpoint
    intro hH
    have hr2 : r =
        createChild (fun st i => createTreeRec fuel st i md)
          (getCell s idx).prism (getCell s idx).depth 4
          ((getCell s idx).prism.triangle.subdivide).2
          (Int.tdiv ((getCell s idx).prism.z_range.max + (getCell s idx).prism.z_range.min) 2)
          (getCell s idx).prism.z_range.max 1 1 3
          (createChild (fun st i => createTreeRec fuel st i md)
            (getCell s idx).prism (getCell s idx).depth 4
            ((getCell s idx).prism.triangle.subdivide).1
            (Int.tdiv ((getCell s idx).prism.z_range.max + (getCell s idx).prism.z_range.min) 2)
            (getCell s idx).prism.z_range.max 1 0 2
            (createChild (fun st i => createTreeRec fuel st i md)
              (getCell s idx).prism (getCell s idx).depth 4
              ((getCell s idx).prism.triangle.subdivide).2
              (getCell s idx).prism.z_range.min
              (Int.tdiv ((getCell s idx).prism.z_range.max + (getCell s idx).prism.z_range.min) 2)
              0 1 1
              (createChild (fun st i => createTreeRec fuel st i md)
                (getCell s idx).prism (getCell s idx).depth 4
                ((getCell s idx).prism.triangle.subdivide).1
                (getCell s idx).prism.z_range.min
                (Int.tdiv ((getCell s idx).prism.z_range.max + (getCell s idx).prism.z_range.min) 2)
                0 0 0 s idx) idx) idx) idx := by
      rw [hr]
      simp only [createTreeRec]
      rw [if_neg hd2]
      simp [hH]
    set SA := createChild (fun st i => createTreeRec fuel st i md)
      (getCell s idx).prism (getCell s idx).depth 4
      ((getCell s idx).prism.triangle.subdivide).1
      (getCell s idx).prism.z_range.min
      (Int.tdiv ((getCell s idx).prism.z_range.max + (getCell s idx).prism.z_range.min) 2)
      0 0 0 s idx with hSA
    set SB := createChild (fun st i => createTreeRec fuel st i md)
      (getCell s idx).prism (getCell s idx).depth 4
      ((getCell s idx).prism.triangle.subdivide).2
      (getCell s idx).prism.z_range.min
      (Int.tdiv ((getCell s idx).prism.z_range.max + (getCell s idx).prism.z_range.min) 2)
      0 1 1 SA idx with hSB
    set SC := createChild (fun st i => createTreeRec fuel st i md)
      (getCell s idx).prism (getCell s idx).depth 4
      ((getCell s idx).prism.triangle.subdivide).1
      (Int.tdiv ((getCell s idx).prism.z_range.max + (getCell s idx).prism.z_range.min) 2)
      (getCell s idx).prism.z_range.max 1 0 2 SB idx with hSC
    have ha := createChild_create (fun st i => createTreeRec fuel st i md)
      (getCell s idx).prism (getCell s idx).depth 4
      ((getCell s idx).prism.triangle.subdivide).1
      (getCell s idx).prism.z_range.min
      (Int.tdiv ((getCell s idx).prism.z_range.max + (getCell s idx).prism.z_range.min) 2)
      0 0 0 s idx hrec (by decide) hidx
    rw [← hSA] at ha
    have hua := createChild_untouched (fun st i => createTreeRec fuel st i md)
      (getCell s idx).prism (getCell s idx).depth 4
      ((getCell s idx).prism.triangle.subdivide).1
      (getCell s idx).prism.z_range.min
      (Int.tdiv ((getCell s idx).prism.z_range.max + (getCell s idx).prism.z_range.min) 2)
      0 0 0 s idx hrec
    rw [← hSA] at hua
    have hidxa : idx.toNat < SA.cells.length := Nat.lt_of_lt_of_le hidx hua.1
    have hb := createChild_create (fun st i => createTreeRec fuel st i md)
      (getCell s idx).prism (getCell s idx).depth 4
      ((getCell s idx).prism.triangle.subdivide).2
      (getCell s idx).prism.z_range.min
      (Int.tdiv ((getCell s idx).prism.z_range.max + (getCell s idx).prism.z_range.min) 2)
      0 1 1 SA idx hrec (by decide) hidxa
    rw [← hSB] at hb
    have hub := createChild_untouched (fun st i => createTreeRec fuel st i md)
      (getCell s idx).prism (getCell s idx).depth 4
      ((getCell s idx).prism.triangle.subdivide).2
      (getCell s idx).prism.z_range.min
      (Int.tdiv ((getCell s idx).prism.z_range.max + (getCell s idx).prism.z_range.min) 2)
      0 1 1 SA idx hrec
    rw [← hSB] at hub
    have hidxb : idx.toNat < SB.cells.length := Nat.lt_of_lt_of_le hidxa hub.1
    have hc := createChild_create (fun st i => createTreeRec fuel st i md)
      (getCell s idx).prism (getCell s idx).depth 4
      ((getCell s idx).prism.triangle.subdivide).1
      (Int.tdiv ((getCell s idx).prism.z_range.max + (getCell s idx).prism.z_range.min) 2)
      (getCell s idx).prism.z_range.max 1 0 2 SB idx hrec (by decide) hidxb
    rw [← hSC] at hc
    have huc := createChild_untouched (fun st i => createTreeRec fuel st i md)
      (getCell s idx).prism (getCell s idx).depth 4
      ((getCell s idx).prism.triangle.subdivide).1
      (Int.tdiv ((getCell s idx).prism.z_range.max + (getCell s idx).prism.z_range.min) 2)
      (getCell s idx).prism.z_range.max 1 0 2 SB idx hrec
    rw [← hSC] at huc
    have hidxc : idx.toNat < SC.cells.length := Nat.lt_of_lt_of_le hidxb huc.1
    have hd4 := createChild_create (fun st i => createTreeRec fuel st i md)
      (getCell s idx).prism (getCell s idx).depth 4
      ((getCell s idx).prism.triangle.subdivide).2
      (Int.tdiv ((getCell s idx).prism.z_range.max + (getCell s idx).prism.z_range.min) 2)
      (getCell s idx).prism.z_range.max 1 1 3 SC idx hrec (by decide) hidxc
    have hud := createChild_untouched (fun st i => createTreeRec fuel st i md)
      (getCell s idx).prism (getCell s idx).depth 4
      ((getCell s idx).prism.triangle.subdivide).2
      (Int.tdiv ((getCell s idx).prism.z_range.max + (getCell s idx).prism.z_range.min) 2)
      (getCell s idx).prism.z_range.max 1 1 3 SC idx hrec
    have hnA : (Int.ofNat s.cells.length).toNat = s.cells.length := by simp
    have hnB : (Int.ofNat SA.cells.length).toNat = SA.cells.length := by simp
    have hnC : (Int.ofNat SB.cells.length).toNat = SB.cells.length := by simp
    have hneA : (Int.ofNat s.cells.length).toNat ≠ idx.toNat := by omega
    have hneB : (Int.ofNat SA.cells.length).toNat ≠ idx.toNat := by omega
    have hneC : (Int.ofNat SB.cells.length).toNat ≠ idx.toNat := by omega
    have hchD : (getCell r idx).children =
        ((((getCell s idx).children.set 0 (Int.ofNat s.cells.length)).set 1
          (Int.ofNat SA.cells.length)).set 2 (Int.ofNat SB.cells.length)).set 3
          (Int.ofNat SC.cells.length) := by
      rw [hr2, hd4.1, hc.1, hb.1, ha.1]
    have hch0 : (getCell r idx).children.getD 0 (-1) = Int.ofNat s.cells.length := by
      rw [hchD, listGetD_set_ne (by decide), listGetD_set_ne (by decide),
          listGetD_set_ne (by decide), listGetD_set_self (by omega)]
    have hch1 : (getCell r idx).children.getD 1 (-1) = Int.ofNat SA.cells.length := by
      rw [hchD, listGetD_set_ne (by decide), listGetD_set_ne (by decide),
          listGetD_set_self (by simp; omega)]
    have hch2 : (getCell r idx).children.getD 2 (-1) = Int.ofNat SB.cells.length := by
      rw [hchD, listGetD_set_ne (by decide), listGetD_set_self (by simp; omega)]
    have hch3 : (getCell r idx).children.getD 3 (-1) = Int.ofNat SC.cells.length := by
      rw [hchD, listGetD_set_self (by simp; omega)]
    have l1 : s.cells.length < SA.cells.length := ha.2.2
    have l2 : SA.cells.length < SB.cells.length := hb.2.2
    have l3 : SB.cells.length < SC.cells.length := hc.2.2
    have hgA : getCell r (Int.ofNat s.cells.length) = getCell SA (Int.ofNat s.cells.length) := by
      rw [hr2, ctuntouched_getCell hud _ (by omega) (by omega),
          ctuntouched_getCell huc _ (by omega) (by omega),
          ctuntouched_getCell hub _ (by omega) (by omega)]
    have hgB : getCell r (Int.ofNat SA.cells.length) = getCell SB (Int.ofNat SA.cells.length) := by
      rw [hr2, ctuntouched_getCell hud _ (by omega) (by omega),
          ctuntouched_getCell huc _ (by omega) (by omega)]
    have hgC : getCell r (Int.ofNat SB.cells.length) = getCell SC (Int.ofNat SB.cells.length) := by
      rw [hr2, ctuntouched_getCell hud _ (by omega) (by omega)]
    refine ⟨?_, ?_, ?_, ?_, ?_, ?_⟩
    · simp only [Cell.getChildCount]
      rw [hch2, if_neg (by omega)]
    · intro k hk
      interval_cases k
      · rw [hch0]; exact Int.ofNat_nonneg _
      · rw [hch1]; exact Int.ofNat_nonneg _
      · rw [hch2]; exact Int.ofNat_nonneg _
      · rw [hch3]; exact Int.ofNat_nonneg _
    · rw [hch0, hgA, ha.2.1]
    · rw [hch1, hgB, hb.2.1]
    · rw [hch2, hgC, hc.2.1]
    · rw [hch3, hr2, hd4.2.1]

/-- C6 counterexample: a cell below max_depth whose prism is a quarter-cube
(and, within the 10-unit tolerance, also a half-cube) receives 2 children, not
the 4 children the claim promises for every quarter-cube. -/
theorem C6_counterexample :
    (getCell cexState 0).prism.isQuarterCube = true ∧
    (getCell cexState 0).depth < 1 ∧
    ¬ ((getCell (createTreeRec 2 cexState 0 1) 0).getChildCount = 4) := by
  decide

/-- C6 witness: the amended theorem applied to the concrete one-cell arena. -/
theorem C6_witness :
    (getCell cexState 0).prism.isHalfCube = true ∧
    (getCell (createTreeRec 2 cexState 0 1) 0).getChildCount = 2 := by
  refine ⟨by decide, ?_⟩
  exact ((C6_createTree_children 1 cexState 0 1 (by decide) (by decide) (by decide)
    (createTreeRec 2 cexState 0 1) rfl).1 (by decide)).1

theorem onePassGo_of_none (s : State) (z : Int) (seq : List Int)
    (h : ∀ c ∈ seq, ¬ ((getCell s c).prism.z_range.max < z)) :
    ∀ acc, onePassGo s z acc seq = acc.reverse ++ seq := by
  induction seq with
  | nil => intro acc; simp [onePassGo]
  | cons c rest ih =>
    intro acc
    simp only [onePassGo]
    rw [if_neg (h c (by simp))]
    rw [ih (fun x hx => h x (by simp [hx])) (c :: acc)]
    simp

theorem onePass_of_none (s : State) (z : Int) (seq : List Int)
    (h : ∀ c ∈ seq, ¬ ((getCell s c).prism.z_range.max < z)) :
    onePass s z seq = seq := by
  rw [onePass, onePassGo_of_none s z seq h []]
  simp

theorem anyBelow_eq_false (s : State) (z : Int) (seq : List Int) :
    anyBelow s z seq = false ↔ ∀ c ∈ seq, ¬ ((getCell s c).prism.z_range.max < z) := by
  simp [anyBelow]

theorem advanceLoop_completed (s : State) (z : Int) :
    ∀ (fuel : Nat) (seq r : List Int) (w : Nat),
      advanceLoop s z fuel seq = (r, w, true) →
      anyBelow s z r = false ∧ r = Nat.iterate (onePass s z) (w + 1) seq := by
  intro fuel
  induction fuel with
  | zero =>
    intro seq r w h
    rw [advanceLoop] at h
    simp at h
  | succ fuel ih =>
    intro seq r w h
    rw [advanceLoop] at h
    by_cases hb : anyBelow s z (onePass s z seq) = true
    · rw [if_pos hb] at h
      rcases hin : advanceLoop s z fuel (onePass s z seq) with ⟨r2, w2, c2⟩
      rw [hin] at h
      simp only [Prod.mk.injEq] at h
      obtain ⟨h1, h2, h3⟩ := h
      have hrec := ih (onePass s z seq) r2 w2 (by rw [hin, h3])
      subst h1
      subst h2
      refine ⟨hrec.1, ?_⟩
      rw [hrec.2]
      exact (Function.iterate_succ_apply _ _ _).symm
    · rw [if_neg hb] at h
      simp only [Prod.mk.injEq] at h
      obtain ⟨h1, h2, _⟩ := h
      subst h1
      subst h2
      exact ⟨Bool.not_eq_true _ ▸ hb, by rw [Function.iterate_succ_apply, Function.iterate_zero_apply]⟩

/-- C8 amended: when a full replacement pass of `advanceSequence` leaves a cell
below the target z, a warning is logged (counted by the second result
component) and the replacement pass is repeated — the walker keeps being
advanced rather than being left unchanged — and the failure is not fatal:
when the loop exits, the walker is the result of `warnings + 1` full passes
and no cell of it lies below the target z. -/
theorem C8_advance_warns_and_retries (s : State) (z : Int) (fuel : Nat)
    (seq r : List Int) (w : Nat) (h : advanceLoop s z fuel seq = (r, w, true)) :
    (∀ c ∈ r, ¬ ((getCell s c).prism.z_range.max < z)) ∧
    r = Nat.iterate (onePass s z) (w + 1) seq :=
  ⟨(anyBelow_eq_false _ _ _).mp (advanceLoop_completed s z fuel seq r w h).1,
   (advanceLoop_completed s z fuel seq r w h).2⟩

/-- C8 counterexample: advancing the three-cell tower from sequence `[0]` to
z = 25 triggers the warning check (after the first full pass, cell 1 is still
below z) yet the walker is not left unchanged: the loop runs another pass and
returns `[2]`, which differs both from the pass-1 result `[1]` and from the
original `[0]`. -/
theorem C8_counterexample :
    anyBelow cexWalk 25 (onePass cexWalk 25 [0]) = true ∧
    1 ≤ (advanceLoop cexWalk 25 10 [0]).2.1 ∧
    (advanceLoop cexWalk 25 10 [0]).1 ≠ onePass cexWalk 25 [0] ∧
    (advanceLoop cexWalk 25 10 [0]).1 ≠ [0] := by
  decide

/-- C8 witness: the amended theorem applied to the three-cell tower. -/
theorem C8_witness :
    advanceLoop cexWalk 25 10 [0] = ([2], 1, true) ∧
    ((∀ c ∈ ([2] : List Int), ¬ ((getCell cexWalk c).prism.z_range.max < 25)) ∧
      ([2] : List Int) = Nat.iterate (onePass cexWalk 25) 2 [0]) :=
  ⟨by decide, C8_advance_warns_and_retries cexWalk 25 10 [0] [2] 1 (by decide)⟩

/-- C9: immediately after a call of `advanceSequence` returns (the loop exited
normally), a second call with the same z leaves the walker's layer_sequence
unchanged: the first pass of the second call replaces nothing and the loop
exits at once. -/
theorem C9_advance_idempotent (s : State) (z : Int) (fuel fuel2 : Nat)
    (seq r : List Int) (w : Nat) (h : advanceLoop s z fuel seq = (r, w, true)) :
    advanceLoop s z (fuel2 + 1) r = (r, 0, true) := by
  have hc := advanceLoop_completed s z fuel seq r w h
  have hfix : onePass s z r = r :=
    onePass_of_none _ _ _ ((anyBelow_eq_false _ _ _).mp hc.1)
  rw [advanceLoop, hfix, hc.1]
  simp

/-- C9 witness: advancing the three-cell tower to z = 25 yields the walker
`[2]`; a second advance with the same z returns it unchanged. -/
theorem C9_witness :
    advanceLoop cexWalk 25 1 ([2] : List Int) = ([2], 0, true) :=
  C9_advance_idempotent cexWalk 25 10 0 [0] [2] 1 (by decide)

theorem descendBottom_unsub (s : State)
    (hdesc : ∀ i < s.cells.length, (s.cells.getD i dummyCell).is_subdivided = true →
      i < ((s.cells.getD i dummyCell).children.getD 0 (-1)).toNat ∧
      ((s.cells.getD i dummyCell).children.getD 0 (-1)).toNat < s.cells.length) :
    ∀ (fuel : Nat) (i : Int), i.toNat < s.cells.length → s.cells.length - i.toNat ≤ fuel →
      (getCell s (descendBottom s fuel i)).is_subdivided = false ∧
      (descendBottom s fuel i).toNat < s.cells.length := by
  intro fuel
  induction fuel with
  | zero => intro i hi hf; omega
  | succ fuel ih =>
    intro i hi hf
    rw [descendBottom]
    by_cases hs2 : (getCell s i).is_subdivided = true
    · have hd := hdesc i.toNat hi hs2
      rw [show s.cells.getD i.toNat dummyCell = getCell s i from rfl] at hd
      rw [if_pos hs2]
      exact ih _ hd.2 (by omega)
    · rw [if_neg hs2]
      exact ⟨Bool.not_eq_true _ ▸ hs2, hi⟩

theorem rightWalk_unsub (s : State)
    (hsub : ∀ i < s.cells.length, ∀ k < 4, ∀ L ∈ sideOf (s.cells.getD i dummyCell) k,
      (getCell s L.to_index).is_subdivided = false ∧ L.to_index.toNat < s.cells.length) :
    ∀ (fuel : Nat) (i : Int) (acc : List Int), i.toNat < s.cells.length →
      (∀ c ∈ acc, (getCell s c).is_subdivided = false) →
      ∀ c ∈ rightWalkGo s fuel i acc, (getCell s c).is_subdivided = false := by
  intro fuel
  induction fuel with
  | zero =>
    intro i acc hi hacc c hc
    rw [rightWalkGo] at hc
    simp only [List.mem_reverse] at hc
    exact hacc c hc
  | succ fuel ih =>
    intro i acc hi hacc c hc
    rw [rightWalkGo] at hc
    split at hc
    · simp only [List.mem_reverse] at hc
      exact hacc c hc
    · next L tl heq =>
      have hmem : L ∈ sideOf (s.cells.getD i.toNat dummyCell) 1 := by
        show L ∈ sideOf (getCell s i) 1
        rw [heq]
        exact List.mem_cons_self _ _
      have hLprop := hsub i.toNat hi 1 (by omega) L hmem
      refine ih L.to_index (L.to_index :: acc) hLprop.2 ?_ c hc
      intro x hx
      rcases List.mem_cons.mp hx with h1 | h2
      · rw [h1]; exact hLprop.1
      · exact hacc x h2

/-- C10: `getBottomSequence` descends `children[0]` only while the current
cell's `is_subdivided` flag is true (not until a childless cell), so — in any
state where links point only at unsubdivided cells, as the subdivision
operations maintain, and where child indices exceed parent indices, as
`createTree` guarantees — every cell of the returned sequence has
`is_subdivided = false`; and if the root was never subdivided (so it has no
RIGHT links), the returned sequence is exactly `[0]`, the sentinel cell. -/
theorem C10_getBottomSequence (s : State)
    (hsub : ∀ i < s.cells.length, ∀ k < 4, ∀ L ∈ sideOf (s.cells.getD i dummyCell) k,
      (getCell s L.to_index).is_subdivided = false ∧ L.to_index.toNat < s.cells.length)
    (hdesc : ∀ i < s.cells.length, (s.cells.getD i dummyCell).is_subdivided = true →
      i < ((s.cells.getD i dummyCell).children.getD 0 (-1)).toNat ∧
      ((s.cells.getD i dummyCell).children.getD 0 (-1)).toNat < s.cells.length)
    (hne : 0 < s.cells.length) :
    (∀ c ∈ getBottomSequence s, (getCell s c).is_subdivided = false) ∧
    ((getCell s 0).is_subdivided = false → sideOf (getCell s 0) 1 = [] →
      getBottomSequence s = [0]) := by
  constructor
  · intro c hc
    have hd := descendBottom_unsub s hdesc s.cells.length 0 (by simpa using hne) (by omega)
    refine rightWalk_unsub s hsub s.cells.length _ _ hd.2 ?_ c hc
    intro x hx
    rw [List.mem_singleton.mp hx]
    exact hd.1
  · intro hroot hright
    obtain ⟨m, hm⟩ : ∃ m, s.cells.length = m + 1 := ⟨s.cells.length - 1, by omega⟩
    have h0 : descendBottom s (m + 1) 0 = 0 := by
      rw [descendBottom, if_neg (by rw [hroot]; exact Bool.false_ne_true)]
    rw [getBottomSequence, hm, h0, rightWalkGo, hright]
    rfl

/-- C10 witness: in the three-cell tower the root is unsubdivided and has no
RIGHT links, so the bottom sequence is exactly `[0]`, and every cell of it is
unsubdivided. -/
theorem C10_witness :
    (∀ c ∈ getBottomSequence cexWalk, (getCell cexWalk c).is_subdivided = false) ∧
    getBottomSequence cexWalk = [0] := by
  have h := C10_getBottomSequence cexWalk (by decide) (by decide) (by decide)
  exact ⟨h.1, h.2 (by decide) (by decide)⟩

theorem sideFoldPush (s : State) (cell : Cell) (side : List Link) (acc : List Int) :
    side.foldl (fun acc2 neighbor =>
        if isConstrainedBy cell (getCell s neighbor.to_index) = true
        then neighbor.to_index :: acc2 else acc2) acc
      = ((side.filter (fun L => isConstrainedBy cell (getCell s L.to_index))).map
          (fun L => L.to_index)).reverse ++ acc := by
  induction side generalizing acc with
  | nil => simp
  | cons L tl ih =>
    simp only [List.foldl_cons, List.filter_cons]
    by_cases h : isConstrainedBy cell (getCell s L.to_index) = true
    · rw [if_pos h, ih, h]
      simp
    · rw [if_neg h, ih]
      simp only [Bool.not_eq_true] at h
      rw [h]
      simp

theorem constrainingQueuePush_eq (s : State) (cell : Cell) (q : List Int) :
    constrainingQueuePush s cell q = (constrainingTargets s cell).reverse ++ q := by
  rw [constrainingQueuePush, constrainingTargets]
  generalize cell.adjacent_cells = ll
  induction ll generalizing q with
  | nil => simp
  | cons x xs ih =>
    simp only [List.foldl_cons, List.flatten_cons, List.filter_append, List.map_append,
      List.reverse_append]
    rw [sideFoldPush, ih]
    simp

/-- C4: one iteration of the `createMinimalDensityPattern` work-queue loop.
A leaf at the front (negative `children[0]` or depth at least max_depth) is
popped and skipped; an unconstrained non-leaf is popped and subdivided and
every child whose actualized-volume ratio is below its minimally required
density is appended to the back of the queue; a constrained cell is neither
subdivided nor removed — every neighbor of strictly smaller depth is pushed
to the front of the queue, ahead of the constrained cell, so those neighbors
are processed before the constrained cell is retried. -/
theorem C4_mdp_step (ext : Ext) (s : State) (c : Int) (rest : List Int) :
    (((getCell s c).children.getD 0 (-1) < 0 ∨ ext.max_depth ≤ (getCell s c).depth) →
      mdpStep ext s (c :: rest) = (s, rest)) ∧
    (¬((getCell s c).children.getD 0 (-1) < 0 ∨ ext.max_depth ≤ (getCell s c).depth) →
      isConstrained s (getCell s c) = false →
      mdpStep ext s (c :: rest) =
        (subdivide ext s c,
         rest ++ (getCell (subdivide ext s c) c).children.filter
           (fun ch => decide (0 ≤ ch) &&
             shouldBeSubdivided ext (getCell (subdivide ext s c) ch)))) ∧
    (¬((getCell s c).children.getD 0 (-1) < 0 ∨ ext.max_depth ≤ (getCell s c).depth) →
      isConstrained s (getCell s c) = true →
      mdpStep ext s (c :: rest) =
        (s, (constrainingTargets s (getCell s c)).reverse ++ (c :: rest))) := by
  refine ⟨?_, ?_, ?_⟩
  · intro h
    simp only [mdpStep]
    rw [if_pos h]
  · intro h hcon
    simp only [mdpStep]
    rw [if_neg h, if_pos hcon]
  · intro h hcon
    simp only [mdpStep]
    rw [if_neg h, if_neg (by simp [hcon]), constrainingQueuePush_eq]

/-- C4 witness: in the three-cell tower, cell 0 is a leaf (children[0] is
negative), so the queue step pops and skips it. -/
theorem C4_witness :
    ((getCell cexWalk 0).children.getD 0 (-1) < 0 ∨
      extTrivial.max_depth ≤ (getCell cexWalk 0).depth) ∧
    mdpStep extTrivial cexWalk [0] = (cexWalk, []) :=
  ⟨Or.inl (by decide), (C4_mdp_step extTrivial cexWalk 0 []).1 (Or.inl (by decide))⟩

theorem listGetD_set {α : Type} (l : List α) (i j : Nat) (a d : α) :
    (l.set i a).getD j d = if i = j ∧ i < l.length then a else l.getD j d := by
  by_cases hij : i = j
  · subst hij
    by_cases hlen : i < l.length
    · simp [List.getD_eq_getElem?_getD, List.getElem?_set, hlen]
    · simp [List.getD_eq_getElem?_getD, List.getElem?_set, hlen,
        List.getElem?_eq_none (Nat.le_of_not_lt hlen)]
  · simp [List.getD_eq_getElem?_getD, List.getElem?_set, hij]

theorem sideOf_setSide (c : Cell) (k : Nat) (l : List Link) (k2 : Nat) :
    sideOf (setSide c k l) k2 =
      if k = k2 ∧ k < c.adjacent_cells.length then l else sideOf c k2 := by
  simp only [sideOf, setSide]
  exact listGetD_set _ _ _ _ _

theorem cells_updCell_getD (s : State) (i : Int) (f : Cell → Cell) (j : Nat) :
    (updCell s i f).cells.getD j dummyCell =
      if i.toNat = j ∧ i.toNat < s.cells.length then f (getCell s i)
      else s.cells.getD j dummyCell := by
  simp only [updCell]
  exact listGetD_set _ _ _ _ _

theorem cells_modifySide_getD (s : State) (i : Int) (k : Nat) (f : List Link → List Link)
    (j : Nat) :
    (modifySide s i k f).cells.getD j dummyCell =
      if i.toNat = j ∧ i.toNat < s.cells.length
      then setSide (getCell s i) k (f (sideOf (getCell s i) k))
      else s.cells.getD j dummyCell := by
  simp only [modifySide]
  exact cells_updCell_getD _ _ _ _

theorem getCell_modifySide_ne (s : State) (i : Int) (k : Nat) (f : List Link → List Link)
    (j : Int) (h : i.toNat ≠ j.toNat) :
    getCell (modifySide s i k f) j = getCell s j := by
  show (modifySide s i k f).cells.getD j.toNat dummyCell = _
  rw [cells_modifySide_getD, if_neg (fun hc => h hc.1)]
  rfl

theorem length_updCell (s : State) (i : Int) (f : Cell → Cell) :
    (updCell s i f).cells.length = s.cells.length := by
  simp [updCell]

theorem length_modifySide (s : State) (i : Int) (k : Nat) (f : List Link → List Link) :
    (modifySide s i k f).cells.length = s.cells.length := by
  simp [modifySide, updCell]

theorem length_foldl {α : Type} (f : State → α → State) (l : List α) (s : State)
    (h : ∀ t a, a ∈ l → (f t a).cells.length = t.cells.length) :
    (l.foldl f s).cells.length = s.cells.length := by
  induction l generalizing s with
  | nil => rfl
  | cons x xs ih =>
    rw [List.foldl_cons, ih _ (fun t a ha => h t a (by simp [ha]))]
    exact h s x (by simp)

theorem length_initialConnection (s : State) (a b : Int) (dir : Nat) :
    (initialConnection s a b dir).cells.length = s.cells.length := by
  simp [initialConnection, length_modifySide]

theorem length_addPairBefore (s : State) (child : Int) (side : Nat) (nb : Int)
    (beforeId : Nat) :
    (addPairBefore s child side nb beforeId).cells.length = s.cells.length := by
  simp [addPairBefore, length_modifySide]

theorem length_processLink (ext : Ext) (ci : Int) (side : Nat) (s : State) (L : Link) :
    (processLink ext ci side s L).cells.length = s.cells.length := by
  rw [processLink, length_modifySide, length_foldl]
  intro t a _
  by_cases h : isNextTo ext (getCell t a) (getCell t L.to_index) (dirOfNat side) = true
  · rw [if_pos h, length_addPairBefore]
  · rw [if_neg h]

theorem length_processSide (ext : Ext) (ci : Int) (s : State) (side : Nat) :
    (processSide ext ci s side).cells.length = s.cells.length := by
  rw [processSide, length_modifySide, length_foldl]
  intro t a _
  exact length_processLink ext ci side t a

theorem length_subdivide (ext : Ext) (s : State) (ci : Int) :
    (subdivide ext s ci).cells.length = s.cells.length := by
  rw [subdivide, length_updCell, length_foldl]
  · by_cases h : (getCell s ci).getChildCount = 4
    · rw [if_pos h]
      simp [length_initialConnection]
    · rw [if_neg h]
      simp [length_initialConnection]
  · intro t a _
    exact length_processSide ext ci t a

theorem mem_insertBeforeId {r : Nat} {lnew : Link} {l : List Link} {L : Link} :
    L ∈ insertBeforeId r lnew l ↔ L = lnew ∨ L ∈ l := by
  induction l with
  | nil => simp [insertBeforeId]
  | cons x tl ih =>
    rw [insertBeforeId]
    by_cases h : x.id = r
    · rw [if_pos h]
      simp
    · rw [if_neg h]
      simp only [List.mem_cons, ih]
      tauto

theorem mem_eraseFirstId_sub {r : Nat} {l : List Link} {L : Link}
    (h : L ∈ eraseFirstId r l) : L ∈ l := by
  induction l with
  | nil => simpa [eraseFirstId] using h
  | cons x tl ih =>
    rw [eraseFirstId] at h
    by_cases hx : x.id = r
    · rw [if_pos hx] at h
      exact List.mem_cons_of_mem _ h
    · rw [if_neg hx] at h
      rcases List.mem_cons.mp h with h1 | h2
      · exact h1 ▸ List.mem_cons_self _ _
      · exact List.mem_cons_of_mem _ (ih h2)

theorem linkAt_nextId (s : State) (n : Nat) (i2 k2 : Nat) (L : Link) :
    LinkAt { s with next_id := n } i2 k2 L ↔ LinkAt s i2 k2 L := Iff.rfl

theorem linkAt_modifySide {s : State} {i : Int} {k : Nat} {f : List Link → List Link}
    {i2 k2 : Nat} {L : Link} (h : LinkAt (modifySide s i k f) i2 k2 L) :
    (i2 = i.toNat ∧ k2 = k ∧ k2 < 4 ∧ i.toNat < s.cells.length ∧
      L ∈ f (sideOf (getCell s i) k)) ∨ LinkAt s i2 k2 L := by
  obtain ⟨h1, h2, h3⟩ := h
  rw [length_modifySide] at h1
  rw [cells_modifySide_getD] at h3
  by_cases hc : i.toNat = i2 ∧ i.toNat < s.cells.length
  · rw [if_pos hc] at h3
    rw [sideOf_setSide] at h3
    by_cases hk : k = k2 ∧ k < (getCell s i).adjacent_cells.length
    · rw [if_pos hk] at h3
      exact Or.inl ⟨hc.1.symm, hk.1.symm, h2, hc.2, hk.1 ▸ h3⟩
    · rw [if_neg hk] at h3
      refine Or.inr ⟨h1, h2, ?_⟩
      rwa [show getCell s i = s.cells.getD i2 dummyCell from by
        rw [getCell, hc.1]] at h3
  · rw [if_neg hc] at h3
    exact Or.inr ⟨h1, h2, h3⟩

theorem linkAt_modifySide_cons {s : State} {i : Int} {k : Nat} {lnew : Link}
    {i2 k2 : Nat} {L : Link}
    (h : LinkAt (modifySide s i k (fun l => lnew :: l)) i2 k2 L) :
    (i2 = i.toNat ∧ k2 = k ∧ k2 < 4 ∧ i.toNat < s.cells.length ∧ L = lnew) ∨
      LinkAt s i2 k2 L := by
  rcases linkAt_modifySide h with ⟨e1, e2, e3, e4, hm⟩ | hold
  · rcases List.mem_cons.mp hm with he | hm2
    · exact Or.inl ⟨e1, e2, e3, e4, he⟩
    · refine Or.inr ⟨e1 ▸ e4, e3, ?_⟩
      rw [e1, e2]
      exact hm2
  · exact Or.inr hold

theorem linkAt_modifySide_insert {s : State} {i : Int} {k : Nat} {r : Nat} {lnew : Link}
    {i2 k2 : Nat} {L : Link}
    (h : LinkAt (modifySide s i k (insertBeforeId r lnew)) i2 k2 L) :
    (i2 = i.toNat ∧ k2 = k ∧ k2 < 4 ∧ i.toNat < s.cells.length ∧ L = lnew) ∨
      LinkAt s i2 k2 L := by
  rcases linkAt_modifySide h with ⟨e1, e2, e3, e4, hm⟩ | hold
  · rcases mem_insertBeforeId.mp hm with he | hm2
    · exact Or.inl ⟨e1, e2, e3, e4, he⟩
    · refine Or.inr ⟨e1 ▸ e4, e3, ?_⟩
      rw [e1, e2]
      exact hm2
  · exact Or.inr hold

theorem linkAt_modifySide_sub {s : State} {i : Int} {k : Nat}
    {f : List Link → List Link} {i2 k2 : Nat} {L : Link}
    (hf : ∀ l L2, L2 ∈ f l → L2 ∈ l)
    (h : LinkAt (modifySide s i k f) i2 k2 L) : LinkAt s i2 k2 L := by
  rcases linkAt_modifySide h with ⟨e1, e2, e3, e4, hm⟩ | hold
  · refine ⟨e1 ▸ e4, e3, ?_⟩
    rw [e1, e2]
    exact hf _ _ hm
  · exact hold

theorem linkAt_updCell {s : State} {i : Int} {f : Cell → Cell}
    {i2 k2 : Nat} {L : Link} (h : LinkAt (updCell s i f) i2 k2 L) :
    (i2 = i.toNat ∧ i.toNat < s.cells.length ∧ k2 < 4 ∧
      L ∈ sideOf (f (getCell s i)) k2) ∨ LinkAt s i2 k2 L := by
  obtain ⟨h1, h2, h3⟩ := h
  rw [length_updCell] at h1
  rw [cells_updCell_getD] at h3
  by_cases hc : i.toNat = i2 ∧ i.toNat < s.cells.length
  · rw [if_pos hc] at h3
    exact Or.inl ⟨hc.1.symm, hc.2, h2, h3⟩
  · rw [if_neg hc] at h3
    exact Or.inr ⟨h1, h2, h3⟩

theorem sameShape_refl (s : State) : sameShape s s := ⟨rfl, fun _ => ⟨rfl, rfl, rfl, rfl⟩⟩

theorem sameShape_trans {s t u : State} (h1 : sameShape s t) (h2 : sameShape t u) :
    sameShape s u :=
  ⟨h2.1.trans h1.1, fun j =>
    ⟨(h2.2 j).1.trans (h1.2 j).1, (h2.2 j).2.1.trans (h1.2 j).2.1,
     (h2.2 j).2.2.1.trans (h1.2 j).2.2.1, (h2.2 j).2.2.2.trans (h1.2 j).2.2.2⟩⟩

theorem getCell_nextId (s : State) (n : Nat) (j : Int) :
    getCell { s with next_id := n } j = getCell s j := rfl

theorem sameShape_updCell (s : State) (i : Int) (f : Cell → Cell)
    (hf : ∀ c, (f c).children = c.children ∧ (f c).depth = c.depth ∧
      (f c).adjacent_cells.length = c.adjacent_cells.length ∧ (f c).index = c.index) :
    sameShape s (updCell s i f) := by
  refine ⟨length_updCell _ _ _, fun j => ?_⟩
  have e := cells_updCell_getD s i f j.toNat
  by_cases hc : i.toNat = j.toNat ∧ i.toNat < s.cells.length
  · rw [if_pos hc] at e
    have e2 : getCell s i = getCell s j := by rw [getCell, getCell, hc.1]
    refine ⟨?_, ?_, ?_, ?_⟩
    · show ((updCell s i f).cells.getD j.toNat dummyCell).children = _
      rw [e, (hf (getCell s i)).1, e2]
    · show ((updCell s i f).cells.getD j.toNat dummyCell).depth = _
      rw [e, (hf (getCell s i)).2.1, e2]
    · show ((updCell s i f).cells.getD j.toNat dummyCell).adjacent_cells.length = _
      rw [e, (hf (getCell s i)).2.2.1, e2]
    · show ((updCell s i f).cells.getD j.toNat dummyCell).index = _
      rw [e, (hf (getCell s i)).2.2.2, e2]
  · rw [if_neg hc] at e
    have e2 : getCell (updCell s i f) j = getCell s j := e
    rw [e2]
    exact ⟨rfl, rfl, rfl, rfl⟩

theorem sameShape_modifySide (s : State) (i : Int) (k : Nat) (f : List Link → List Link) :
    sameShape s (modifySide s i k f) :=
  sameShape_updCell s i _ (fun c => ⟨rfl, rfl, by simp [setSide], rfl⟩)

theorem sameShape_nextId {s t : State} (n : Nat) (h : sameShape s t) :
    sameShape s { t with next_id := n } := h

theorem kid_nonneg {s : State} {ci ch : Int} (h : ch ∈ kidsOf s ci) : 0 ≤ ch := by
  have := List.mem_takeWhile_imp h
  simpa using this

theorem subGood_refl (s0 : State) (ci : Int) : SubGood s0 ci s0 :=
  ⟨sameShape_refl s0, fun _ _ h => h, fun _ _ _ h => Or.inl h⟩

theorem subGood_foldl {α : Type} (s0 : State) (ci : Int) (f : State → α → State)
    (l : List α) (t : State) (hg : SubGood s0 ci t)
    (hstep : ∀ u a, a ∈ l → SubGood s0 ci u → SubGood s0 ci (f u a)) :
    SubGood s0 ci (l.foldl f t) := by
  induction l generalizing t with
  | nil => exact hg
  | cons x xs ih =>
    rw [List.foldl_cons]
    exact ih _ (hstep t x (by simp) hg) (fun u a ha hu => hstep u a (by simp [ha]) hu)

theorem subGood_initialConnection (s0 : State) (ci : Int) (hci0 : 0 ≤ ci)
    (a b : Int) (dir : Nat) (t : State) (hg : SubGood s0 ci t)
    (ha : a ∈ kidsOf s0 ci) (hb : b ∈ kidsOf s0 ci)
    (hane : a ≠ ci) (hbne : b ≠ ci) :
    SubGood s0 ci (initialConnection t a b dir) := by
  obtain ⟨hsh, hps, hla⟩ := hg
  have ha0 : 0 ≤ a := kid_nonneg ha
  have hb0 : 0 ≤ b := kid_nonneg hb
  have hAne : a.toNat ≠ ci.toNat := fun h => hane (by omega)
  have hBne : b.toNat ≠ ci.toNat := fun h => hbne (by omega)
  refine ⟨?_, ?_, ?_⟩
  · exact sameShape_nextId _
      (sameShape_trans (sameShape_trans hsh (sameShape_modifySide t a dir _))
        (sameShape_modifySide _ b (oppositeN dir) _))
  · intro k
    have e1 : getCell (initialConnection t a b dir) ci = getCell t ci := by
      show getCell { modifySide (modifySide t a dir _) b (oppositeN dir) _
        with next_id := t.next_id + 2 } ci = getCell t ci
      rw [getCell_nextId, getCell_modifySide_ne _ _ _ _ _ hBne,
        getCell_modifySide_ne _ _ _ _ _ hAne]
    rw [e1]
    exact hps k
  · intro i2 k2 L h
    have h2 : LinkAt (modifySide (modifySide t a dir
        (fun l => ⟨b, t.next_id, t.next_id + 1⟩ :: l)) b (oppositeN dir)
        (fun l => ⟨a, t.next_id + 1, t.next_id⟩ :: l)) i2 k2 L := h
    rcases linkAt_modifySide_cons h2 with ⟨e1, _, _, _, he⟩ | hh
    · right
      left
      subst he
      refine ⟨?_, ?_⟩
      · rw [e1, show Int.ofNat b.toNat = b from Int.toNat_of_nonneg hb0]
        exact hb
      · exact ha
    · rcases linkAt_modifySide_cons hh with ⟨e1, _, _, _, he⟩ | hh2
      · right
        left
        subst he
        refine ⟨?_, ?_⟩
        · rw [e1, show Int.ofNat a.toNat = a from Int.toNat_of_nonneg ha0]
          exact ha
        · exact hb
      · exact hla i2 k2 L hh2

theorem subGood_addPairBefore (s0 : State) (ci : Int) (hci0 : 0 ≤ ci)
    (ch nb : Int) (side : Nat) (r : Nat) (t : State) (hg : SubGood s0 ci t)
    (hch : ch ∈ kidsOf s0 ci) (hchne : ch ≠ ci)
    (horig : ∃ k2 L2, LinkAt s0 ci.toNat k2 L2 ∧ nb = L2.to_index)
    (hnbne : nb ≠ ci) (hnb0 : 0 ≤ nb) :
    SubGood s0 ci (addPairBefore t ch side nb r) := by
  obtain ⟨hsh, hps, hla⟩ := hg
  have hch0 : 0 ≤ ch := kid_nonneg hch
  have hChne : ch.toNat ≠ ci.toNat := fun h => hchne (by omega)
  have hNbne : nb.toNat ≠ ci.toNat := fun h => hnbne (by omega)
  refine ⟨?_, ?_, ?_⟩
  · exact sameShape_nextId _
      (sameShape_trans (sameShape_trans hsh (sameShape_modifySide t ch side _))
        (sameShape_modifySide _ nb (oppositeN side) _))
  · intro k
    have e1 : getCell (addPairBefore t ch side nb r) ci = getCell t ci := by
      show getCell { modifySide (modifySide t ch side _) nb (oppositeN side) _
        with next_id := t.next_id + 2 } ci = getCell t ci
      rw [getCell_nextId, getCell_modifySide_ne _ _ _ _ _ hNbne,
        getCell_modifySide_ne _ _ _ _ _ hChne]
    rw [e1]
    exact hps k
  · intro i2 k2 L h
    obtain ⟨k2o, L2o, hL2o, hnbo⟩ := horig
    have h2 : LinkAt (modifySide (modifySide t ch side
        (fun l => ⟨nb, t.next_id, t.next_id + 1⟩ :: l)) nb (oppositeN side)
        (insertBeforeId r ⟨ch, t.next_id + 1, t.next_id⟩)) i2 k2 L := h
    rcases linkAt_modifySide_insert h2 with ⟨e1, _, _, _, he⟩ | hh
    · right
      right
      right
      subst he
      refine ⟨hch, k2o, L2o, hL2o, ?_⟩
      rw [e1, show Int.ofNat nb.toNat = nb from Int.toNat_of_nonneg hnb0]
      exact hnbo
    · rcases linkAt_modifySide_cons hh with ⟨e1, _, _, _, he⟩ | hh2
      · right
        right
        left
        subst he
        refine ⟨?_, k2o, L2o, hL2o, hnbo⟩
        rw [e1, show Int.ofNat ch.toNat = ch from Int.toNat_of_nonneg hch0]
        exact hch
      · exact hla i2 k2 L hh2

theorem subGood_modifySub_ne (s0 : State) (ci : Int) (x : Int) (k : Nat)
    (f : List Link → List Link) (hf : ∀ l L2, L2 ∈ f l → L2 ∈ l)
    (hx : x.toNat ≠ ci.toNat) (t : State) (hg : SubGood s0 ci t) :
    SubGood s0 ci (modifySide t x k f) := by
  obtain ⟨hsh, hps, hla⟩ := hg
  refine ⟨sameShape_trans hsh (sameShape_modifySide t x k f), ?_, ?_⟩
  · intro k2
    rw [getCell_modifySide_ne _ _ _ _ _ hx]
    exact hps k2
  · intro i2 k2 L h
    exact hla i2 k2 L (linkAt_modifySide_sub hf h)

theorem subGood_clear (s0 : State) (ci : Int) (side : Nat) (t : State)
    (hg : SubGood s0 ci t) :
    SubGood s0 ci (modifySide t ci side (fun _ => [])) := by
  obtain ⟨hsh, hps, hla⟩ := hg
  refine ⟨sameShape_trans hsh (sameShape_modifySide t ci side _), ?_, ?_⟩
  · intro k
    show sideOf ((modifySide t ci side _).cells.getD ci.toNat dummyCell) k ⊆ _
    rw [cells_modifySide_getD]
    by_cases hc : ci.toNat = ci.toNat ∧ ci.toNat < t.cells.length
    · rw [if_pos hc, sideOf_setSide]
      by_cases hk : side = k ∧ side < (getCell t ci).adjacent_cells.length
      · rw [if_pos hk]
        intro L hL
        exact absurd hL (List.not_mem_nil L)
      · rw [if_neg hk]
        exact hps k
    · rw [if_neg hc]
      exact hps k
  · intro i2 k2 L h
    exact hla i2 k2 L (linkAt_modifySide_sub (fun l L2 hm => absurd hm (List.not_mem_nil L2)) h)

theorem list_len4 {α : Type} {l : List α} (h : l.length = 4) : ∃ a b c d, l = [a, b, c, d] := by
  match l, h with
  | [a, b, c, d], _ => exact ⟨a, b, c, d, rfl⟩

theorem subGood_processLink (ext : Ext) (s0 : State) (ci : Int) (hci0 : 0 ≤ ci)
    (hciv : ci.toNat < s0.cells.length) (side : Nat) (hside : side < 4)
    (hv : linkTargetsValid s0)
    (hnoself : ∀ k < 4, ∀ L ∈ sideOf (getCell s0 ci) k,
      L.to_index ≠ ci ∧ L.to_index ∉ kidsOf s0 ci)
    (hkids : ∀ ch ∈ kidsOf s0 ci, ch ≠ ci ∧ ch.toNat < s0.cells.length)
    (t : State) (hg : SubGood s0 ci t) (L : Link)
    (hL : L ∈ sideOf (getCell s0 ci) side) :
    SubGood s0 ci (processLink ext ci side t L) := by
  have hLAt : LinkAt s0 ci.toNat side L := ⟨hciv, hside, hL⟩
  have hto := hnoself side hside L hL
  have hto0 : 0 ≤ L.to_index := (hv ci.toNat hciv side hside L hL).1
  simp only [processLink]
  have hk : (getCell t ci).children.takeWhile (fun c => decide (0 ≤ c)) = kidsOf s0 ci := by
    rw [(hg.1.2 ci).1]
    rfl
  rw [hk]
  have hfold : SubGood s0 ci ((kidsOf s0 ci).foldl (fun st ch =>
      if isNextTo ext (getCell st ch) (getCell st L.to_index) (dirOfNat side) = true
      then addPairBefore st ch side L.to_index L.rev else st) t) := by
    refine subGood_foldl s0 ci _ _ t hg ?_
    intro u ch hch hu
    by_cases hn : isNextTo ext (getCell u ch) (getCell u L.to_index) (dirOfNat side) = true
    · rw [if_pos hn]
      exact subGood_addPairBefore s0 ci hci0 ch L.to_index side L.rev u hu hch
        (hkids ch hch).1 ⟨side, L, hLAt, rfl⟩ hto.1 hto0
    · rw [if_neg hn]
      exact hu
  have htone : L.to_index.toNat ≠ ci.toNat := fun h => hto.1 (by omega)
  exact subGood_modifySub_ne s0 ci L.to_index (oppositeN side) _
    (fun l L2 hm => mem_eraseFirstId_sub hm) htone _ hfold

theorem subGood_processSide (ext : Ext) (s0 : State) (ci : Int) (hci0 : 0 ≤ ci)
    (hciv : ci.toNat < s0.cells.length)
    (hv : linkTargetsValid s0)
    (hnoself : ∀ k < 4, ∀ L ∈ sideOf (getCell s0 ci) k,
      L.to_index ≠ ci ∧ L.to_index ∉ kidsOf s0 ci)
    (hkids : ∀ ch ∈ kidsOf s0 ci, ch ≠ ci ∧ ch.toNat < s0.cells.length)
    (t : State) (hg : SubGood s0 ci t) (side : Nat) (hside : side < 4) :
    SubGood s0 ci (processSide ext ci t side) := by
  simp only [processSide]
  have hsnap := hg.2.1 side
  have hfold : SubGood s0 ci ((sideOf (getCell t ci) side).foldl (processLink ext ci side) t) := by
    refine subGood_foldl s0 ci _ _ t hg ?_
    intro u L hLm hu
    exact subGood_processLink ext s0 ci hci0 hciv side hside hv hnoself hkids u hu L (hsnap hLm)
  exact subGood_clear s0 ci side _ hfold

theorem subGood_subdivide (ext : Ext) (s : State) (ci : Int)
    (pre : SubdividePre s ci) (hv : linkTargetsValid s) :
    SubGood s ci (subdivide ext s ci) := by
  obtain ⟨hci0, hciv, hlen4, h0, h1, h23, hkids, hnoself, hnd⟩ := pre
  obtain ⟨a, b, c, d, he⟩ := list_len4 hlen4
  have hg0 : (getCell s ci).children.getD 0 (-1) = a := by rw [he]; rfl
  have hg1 : (getCell s ci).children.getD 1 (-1) = b := by rw [he]; rfl
  have hg2 : (getCell s ci).children.getD 2 (-1) = c := by rw [he]; rfl
  have hg3 : (getCell s ci).children.getD 3 (-1) = d := by rw [he]; rfl
  have ha0 : 0 ≤ a := hg0 ▸ h0
  have hb0 : 0 ≤ b := hg1 ▸ h1
  have hamem : a ∈ kidsOf s ci := by
    rw [kidsOf, he, List.takeWhile_cons, if_pos (by simpa using ha0)]
    simp
  have hbmem : b ∈ kidsOf s ci := by
    rw [kidsOf, he, List.takeWhile_cons, if_pos (by simpa using ha0),
      List.takeWhile_cons, if_pos (by simpa using hb0)]
    simp
  have hstep : ∀ t, SubGood s ci t → SubGood s ci ([0, 1, 2, 3].foldl (processSide ext ci) t) := by
    intro t ht
    refine subGood_foldl s ci _ _ t ht ?_
    intro u k hk hu
    have hk4 : k < 4 := by
      simp at hk
      rcases hk with rfl | rfl | rfl | rfl <;> omega
    exact subGood_processSide ext s ci hci0 hciv hv hnoself hkids u hu k hk4
  have hupd : ∀ u, SubGood s ci u →
      SubGood s ci (updCell u ci (fun cc => { cc with is_subdivided := true })) := by
    intro u hu
    obtain ⟨hsh, hps, hla⟩ := hu
    refine ⟨sameShape_trans hsh (sameShape_updCell u ci _ (fun cc => ⟨rfl, rfl, rfl, rfl⟩)), ?_, ?_⟩
    · intro k
      show sideOf ((updCell u ci _).cells.getD ci.toNat dummyCell) k ⊆ _
      rw [cells_updCell_getD]
      by_cases hcx : ci.toNat = ci.toNat ∧ ci.toNat < u.cells.length
      · rw [if_pos hcx]
        exact hps k
      · rw [if_neg hcx]
        exact hps k
    · intro i2 k2 L h
      rcases linkAt_updCell h with ⟨e1, e2, e3, hm⟩ | hold
      · refine hla i2 k2 L ⟨e1 ▸ e2, e3, ?_⟩
        rw [e1]
        exact hm
      · exact hla i2 k2 L hold
  have hs1 : SubGood s ci (initialConnection s a b 1) :=
    subGood_initialConnection s ci hci0 a b 1 s (subGood_refl s ci) hamem hbmem
      (hkids a hamem).1 (hkids b hbmem).1
  simp only [subdivide]
  rw [hg0, hg1, hg2, hg3]
  by_cases hc2 : 0 ≤ c
  · have hd0 : 0 ≤ d := by
      have := h23 (by rw [hg2]; exact hc2)
      rwa [hg3] at this
    have hcmem : c ∈ kidsOf s ci := by
      rw [kidsOf, he, List.takeWhile_cons, if_pos (by simpa using ha0),
        List.takeWhile_cons, if_pos (by simpa using hb0),
        List.takeWhile_cons, if_pos (by simpa using hc2)]
      simp
    have hdmem : d ∈ kidsOf s ci := by
      rw [kidsOf, he, List.takeWhile_cons, if_pos (by simpa using ha0),
        List.takeWhile_cons, if_pos (by simpa using hb0),
        List.takeWhile_cons, if_pos (by simpa using hc2),
        List.takeWhile_cons, if_pos (by simpa using hd0)]
      simp
    have hcc : (getCell s ci).getChildCount = 4 := by
      rw [Cell.getChildCount, hg2, if_neg (by omega)]
    rw [if_pos hcc]
    refine hupd _ (hstep _ ?_)
    refine subGood_initialConnection s ci hci0 b d 2 _ ?_ hbmem hdmem
      (hkids b hbmem).1 (hkids d hdmem).1
    refine subGood_initialConnection s ci hci0 a c 2 _ ?_ hamem hcmem
      (hkids a hamem).1 (hkids c hcmem).1
    exact subGood_initialConnection s ci hci0 c d 1 _ hs1 hcmem hdmem
      (hkids c hcmem).1 (hkids d hdmem).1
  · have hcc : ¬ ((getCell s ci).getChildCount = 4) := by
      rw [Cell.getChildCount, hg2, if_pos (by omega)]
      omega
    rw [if_neg hcc]
    exact hupd _ (hstep _ hs1)

theorem kid_depth (s : State) (ci : Int) (hcd : childDepthOK s)
    (hciv : ci.toNat < s.cells.length) :
    ∀ ch ∈ kidsOf s ci, ch.toNat < s.cells.length ∧
      (getCell s ch).depth = (getCell s ci).depth + 1 := by
  intro ch hch
  have h0 : 0 ≤ ch := kid_nonneg hch
  have hmem : ch ∈ (getCell s ci).children := (List.takeWhile_sublist _).subset hch
  exact hcd ci.toNat hciv ch hmem h0

theorem neighbor_depth (md : Int) (s : State) (ci : Int) (hb : balanced s)
    (ha4 : adjLen4 s) (hciv : ci.toNat < s.cells.length)
    (hcan : canSubdivide md s (getCell s ci) = true) :
    ∀ k2 L2, LinkAt s ci.toNat k2 L2 →
      (getCell s ci).depth ≤ (getCell s L2.to_index).depth ∧
      (getCell s L2.to_index).depth ≤ (getCell s ci).depth + 1 := by
  intro k2 L2 hL2
  have hub := hb ci.toNat hL2.1 k2 hL2.2.1 L2 hL2.2.2
  rw [show s.cells.getD ci.toNat dummyCell = getCell s ci from rfl] at hub
  constructor
  · have hnc : ¬ (isConstrained s (getCell s ci) = true) := by
      intro hcon
      rw [canSubdivide, if_pos (Or.inr hcon)] at hcan
      exact Bool.false_ne_true hcan
    by_contra hlt
    push_neg at hlt
    apply hnc
    rw [isConstrained, List.any_eq_true]
    have h4 : (getCell s ci).adjacent_cells.length = 4 := ha4 ci.toNat hciv
    have hlen : k2 < (getCell s ci).adjacent_cells.length := by
      rw [h4]
      exact hL2.2.1
    refine ⟨(getCell s ci).adjacent_cells[k2], List.getElem_mem hlen, ?_⟩
    rw [List.any_eq_true]
    refine ⟨L2, ?_, ?_⟩
    · have he : sideOf (getCell s ci) k2 = (getCell s ci).adjacent_cells[k2] := by
        simp [sideOf, List.getD_eq_getElem?_getD, List.getElem?_eq_getElem hlen]
      rw [← he]
      exact hL2.2.2
    · rw [isConstrainedBy]
      exact decide_eq_true hlt
  · omega

theorem balInv_subdivide (ext : Ext) (md : Int) (s : State) (ci : Int)
    (hinv : BalInv s) (pre : SubdividePre s ci)
    (hcan : canSubdivide md s (getCell s ci) = true) :
    BalInv (subdivide ext s ci) := by
  obtain ⟨hb, hcd, hv, ha4⟩ := hinv
  have hciv := pre.2.1
  have hkidsP := pre.2.2.2.2.2.2.1
  obtain ⟨hsh, _, hla⟩ := subGood_subdivide ext s ci pre hv
  have dT : ∀ j : Int, (getCell (subdivide ext s ci) j).depth = (getCell s j).depth :=
    fun j => (hsh.2 j).2.1
  have cT : ∀ j : Int, (getCell (subdivide ext s ci) j).children = (getCell s j).children :=
    fun j => (hsh.2 j).1
  have aT : ∀ j : Int, (getCell (subdivide ext s ci) j).adjacent_cells.length
      = (getCell s j).adjacent_cells.length := fun j => (hsh.2 j).2.2.1
  have lT : (subdivide ext s ci).cells.length = s.cells.length := hsh.1
  have hkd := kid_depth s ci hcd hciv
  have hnd := neighbor_depth md s ci hb ha4 hciv hcan
  refine ⟨?_, ?_, ?_, ?_⟩
  · intro i hi k hk L hm
    have hown : ((subdivide ext s ci).cells.getD i dummyCell).depth
        = (s.cells.getD i dummyCell).depth := by
      have := dT (Int.ofNat i)
      simpa [getCell] using this
    rw [hown, dT L.to_index]
    rcases hla i k L ⟨hi, hk, hm⟩ with hold | hnew
    · exact hb i hold.1 k hk L hold.2.2
    · have hOwnEq : (s.cells.getD i dummyCell).depth = (getCell s (Int.ofNat i)).depth := by
        simp [getCell]
      rcases hnew with ⟨hks, hkt⟩ | ⟨hks, k2, L2, hL2, hte⟩ | ⟨hkt, k2, L2, hL2, hie⟩
      · have d1 := (hkd _ hks).2
        have d2 := (hkd _ hkt).2
        rw [hOwnEq, d1, d2]
        simp
      · have d1 := (hkd _ hks).2
        have d2 := hnd k2 L2 hL2
        rw [hOwnEq, d1, hte]
        omega
      · have d1 := (hkd _ hkt).2
        have d2 := hnd k2 L2 hL2
        rw [hOwnEq, hie, d1]
        omega
  · intro i hi ch hch hch0
    rw [lT] at hi
    have hchEq : ((subdivide ext s ci).cells.getD i dummyCell).children
        = (s.cells.getD i dummyCell).children := by
      have := cT (Int.ofNat i)
      simpa [getCell] using this
    rw [hchEq] at hch
    have hres := hcd i hi ch hch hch0
    refine ⟨by rw [lT]; exact hres.1, ?_⟩
    rw [dT ch, show ((subdivide ext s ci).cells.getD i dummyCell).depth
        = (s.cells.getD i dummyCell).depth from by
      have := dT (Int.ofNat i)
      simpa [getCell] using this]
    exact hres.2
  · intro i hi k hk L hm
    rw [lT] at hi
    rcases hla i k L ⟨by rw [lT]; exact hi, hk, hm⟩ with hold | hnew
    · have := hv i hold.1 k hk L hold.2.2
      exact ⟨this.1, by rw [lT]; exact this.2⟩
    · rcases hnew with ⟨_, hkt⟩ | ⟨_, k2, L2, hL2, hte⟩ | ⟨hkt, _⟩
      · exact ⟨kid_nonneg hkt, by rw [lT]; exact (hkidsP _ hkt).2⟩
      · have := hv ci.toNat hciv k2 hL2.2.1 L2 hL2.2.2
        exact ⟨by rw [hte]; exact this.1, by rw [hte, lT]; exact this.2⟩
      · exact ⟨kid_nonneg hkt, by rw [lT]; exact (hkidsP _ hkt).2⟩
  · intro i hi
    rw [lT] at hi
    have := aT (Int.ofNat i)
    rw [show ((subdivide ext s ci).cells.getD i dummyCell).adjacent_cells.length
        = (s.cells.getD i dummyCell).adjacent_cells.length from by
      simpa [getCell] using this]
    exact ha4 i hi

theorem subSteps_balInv {ext : Ext} {md : Int} {s0 s : State}
    (hs : SubSteps ext md s0 s) (h0 : BalInv s0) : BalInv s := by
  induction hs with
  | refl => exact h0
  | step p _ pre hcan ih => exact balInv_subdivide _ md _ p ih pre hcan

/-- C1: provided `subdivide(cell)` is only ever called on well-formed cells
for which `canSubdivide(cell)` is true, after any completed sequence of
subdivisions every pair of cells joined by a link in any direction has
depths differing by at most one; and, for the depths the program can reach
(`depth ≤ max_depth`), `canSubdivide(cell)` returns false exactly when
`cell.depth` equals max_depth or some linked neighbor of the cell has depth
strictly smaller than the cell's depth. -/
theorem C1_balance_and_canSubdivide :
    (∀ (ext : Ext) (md : Int) (s0 s : State), BalInv s0 → SubSteps ext md s0 s →
      balanced s) ∧
    (∀ (md : Int) (s : State) (cell : Cell), cell.depth ≤ md →
      (canSubdivide md s cell = false ↔
        cell.depth = md ∨ ∃ l ∈ cell.adjacent_cells, ∃ L ∈ l,
          (getCell s L.to_index).depth < cell.depth)) := by
  constructor
  · intro ext md s0 s h0 hs
    exact (subSteps_balInv hs h0).1
  · intro md s cell hd
    rw [canSubdivide]
    by_cases hP : md ≤ cell.depth ∨ isConstrained s cell = true
    · rw [if_pos hP]
      have hRHS : cell.depth = md ∨ ∃ l ∈ cell.adjacent_cells, ∃ L ∈ l,
          (getCell s L.to_index).depth < cell.depth := by
        rcases hP with h | h
        · exact Or.inl (le_antisymm hd h)
        · right
          rw [isConstrained, List.any_eq_true] at h
          obtain ⟨l, hl, h2⟩ := h
          rw [List.any_eq_true] at h2
          obtain ⟨L, hL, h3⟩ := h2
          rw [isConstrainedBy] at h3
          exact ⟨l, hl, L, hL, of_decide_eq_true h3⟩
      exact iff_of_true rfl hRHS
    · rw [if_neg hP]
      push_neg at hP
      refine iff_of_false (by simp) ?_
      rintro (h | ⟨l, hl, L, hL, h3⟩)
      · omega
      · apply hP.2
        rw [isConstrained, List.any_eq_true]
        exact ⟨l, hl, by
          rw [List.any_eq_true]
          exact ⟨L, hL, by rw [isConstrainedBy]; exact decide_eq_true h3⟩⟩

/-- C1 witness: subdividing the tiny three-cell arena (a subdividable parent
with two linkless children) keeps the arena balanced, and `canSubdivide`
with max_depth 0 is false on the depth-0 parent. -/
theorem C1_witness :
    balanced (subdivide extTrivial cexTree 0) ∧
    (canSubdivide 0 cexTree (getCell cexTree 0) = false ↔
      (getCell cexTree 0).depth = 0 ∨ ∃ l ∈ (getCell cexTree 0).adjacent_cells, ∃ L ∈ l,
        (getCell cexTree L.to_index).depth < (getCell cexTree 0).depth) := by
  constructor
  · refine C1_balance_and_canSubdivide.1 extTrivial 5 cexTree _ ?_
      (SubSteps.step 0 (SubSteps.refl cexTree) ?_ (by decide))
    · unfold BalInv balanced childDepthOK linkTargetsValid adjLen4
      decide
    · unfold SubdividePre
      decide
  · exact C1_balance_and_canSubdivide.2 0 cexTree (getCell cexTree 0) (by decide)

theorem oppositeN_oppositeN {k : Nat} (hk : k < 4) : oppositeN (oppositeN k) = k := by
  interval_cases k <;> rfl

theorem oppositeN_lt {k : Nat} (hk : k < 4) : oppositeN k < 4 := by
  interval_cases k <;> decide

theorem elem_le_sum {l : List Nat} {i : Nat} (h : i < l.length) : l[i] ≤ l.sum := by
  induction l generalizing i with
  | nil => exact absurd h (by simp)
  | cons x tl ih =>
    cases i with
    | zero => simp [List.sum_cons]
    | succ n =>
      simp only [List.getElem_cons_succ, List.sum_cons]
      have := ih (i := n) (by simpa using h)
      omega

theorem two_elem_le_sum {l : List Nat} {i j : Nat} (hi : i < l.length) (hj : j < l.length)
    (hij : i ≠ j) : l[i] + l[j] ≤ l.sum := by
  induction l generalizing i j with
  | nil => exact absurd hi (by simp)
  | cons x tl ih =>
    cases i with
    | zero =>
      cases j with
      | zero => exact absurd rfl hij
      | succ m =>
        simp only [List.getElem_cons_zero, List.getElem_cons_succ, List.sum_cons]
        have := elem_le_sum (l := tl) (i := m) (by simpa using hj)
        omega
    | succ n =>
      cases j with
      | zero =>
        simp only [List.getElem_cons_zero, List.getElem_cons_succ, List.sum_cons]
        have := elem_le_sum (l := tl) (i := n) (by simpa using hi)
        omega
      | succ m =>
        simp only [List.getElem_cons_succ, List.sum_cons]
        have := ih (i := n) (j := m) (by simpa using hi) (by simpa using hj)
          (by simpa using hij)
        omega

theorem sum_map_set_nat {α : Type} (g : α → Nat) (l : List α) (i : Nat) (a : α)
    (h : i < l.length) :
    ((l.set i a).map g).sum + g l[i] = (l.map g).sum + g a := by
  induction l generalizing i with
  | nil => exact absurd h (by simp)
  | cons x tl ih =>
    cases i with
    | zero =>
      simp only [List.set_cons_zero, List.map_cons, List.sum_cons, List.getElem_cons_zero]
      omega
    | succ n =>
      simp only [List.set_cons_succ, List.map_cons, List.sum_cons, List.getElem_cons_succ]
      have := ih (i := n) (by simpa using h)
      omega

theorem countId_insertBeforeId (r : Nat) (lnew : Link) (l : List Link) (n : Nat) :
    countId (insertBeforeId r lnew l) n = countId l n + (if lnew.id == n then 1 else 0) := by
  induction l with
  | nil => simp [insertBeforeId, countId, List.countP_cons]
  | cons x tl ih =>
    rw [insertBeforeId]
    by_cases h : x.id = r
    · rw [if_pos h]
      simp only [countId, List.countP_cons]
    · rw [if_neg h]
      simp only [countId, List.countP_cons] at ih ⊢
      omega

theorem countId_eraseFirstId_ne (r : Nat) (l : List Link) (n : Nat) (hnr : n ≠ r) :
    countId (eraseFirstId r l) n = countId l n := by
  induction l with
  | nil => rfl
  | cons x tl ih =>
    rw [eraseFirstId]
    by_cases h : x.id = r
    · rw [if_pos h]
      have : (x.id == n) = false := by
        rw [h]
        exact beq_false_of_ne (fun hc => hnr hc.symm)
      simp only [countId, List.countP_cons, this]
      simp
    · rw [if_neg h]
      simp only [countId, List.countP_cons] at ih ⊢
      omega

theorem countId_eraseFirstId_self (r : Nat) (l : List Link)
    (hmem : ∃ L ∈ l, L.id = r) :
    countId (eraseFirstId r l) r + 1 = countId l r := by
  induction l with
  | nil => simp at hmem
  | cons x tl ih =>
    rw [eraseFirstId]
    by_cases h : x.id = r
    · rw [if_pos h]
      simp only [countId, List.countP_cons]
      rw [if_pos (by simp [h])]
    · rw [if_neg h]
      have hmem2 : ∃ L ∈ tl, L.id = r := by
        obtain ⟨L, hL, hLr⟩ := hmem
        rcases List.mem_cons.mp hL with rfl | h2
        · exact absurd hLr h
        · exact ⟨L, h2, hLr⟩
      simp only [countId, List.countP_cons] at ih ⊢
      have := ih hmem2
      omega

theorem mem_eraseFirstId_of_ne {r : Nat} {l : List Link} {L : Link}
    (h : L ∈ l) (hne : L.id ≠ r) : L ∈ eraseFirstId r l := by
  induction l with
  | nil => simp at h
  | cons x tl ih =>
    rw [eraseFirstId]
    by_cases hx : x.id = r
    · rw [if_pos hx]
      rcases List.mem_cons.mp h with rfl | h2
      · exact absurd hx hne
      · exact h2
    · rw [if_neg hx]
      rcases List.mem_cons.mp h with rfl | h2
      · exact List.mem_cons_self _ _
      · exact List.mem_cons_of_mem _ (ih h2)

theorem countId_pos_of_mem {l : List Link} {L : Link} (h : L ∈ l) :
    1 ≤ countId l L.id := by
  rw [countId]
  exact List.countP_pos.mpr ⟨L, h, by simp⟩

theorem mem_sideOf_lt_adjLen {c : Cell} {k : Nat} {L : Link} (h : L ∈ sideOf c k) :
    k < c.adjacent_cells.length := by
  by_contra hk
  push_neg at hk
  rw [sideOf, List.getD_eq_getElem?_getD, List.getElem?_eq_none hk] at h
  simp at h

theorem sideOf_getElem (c : Cell) (k : Nat) (hk : k < c.adjacent_cells.length) :
    sideOf c k = c.adjacent_cells[k] := by
  simp [sideOf, List.getD_eq_getElem?_getD, List.getElem?_eq_getElem hk]

theorem countId_side_le_cellCount (c : Cell) (k : Nat) (n : Nat)
    (hk : k < c.adjacent_cells.length) :
    countId (sideOf c k) n ≤ cellCount c n := by
  rw [sideOf_getElem c k hk, cellCount]
  have hk2 : k < (c.adjacent_cells.map (fun l => countId l n)).length := by simpa using hk
  have e : (c.adjacent_cells.map (fun l => countId l n))[k]
      = countId c.adjacent_cells[k] n := by
    simp
  rw [← e]
  exact elem_le_sum hk2

theorem two_sides_le_cellCount (c : Cell) (k1 k2 : Nat) (n : Nat)
    (h1 : k1 < c.adjacent_cells.length) (h2 : k2 < c.adjacent_cells.length)
    (hne : k1 ≠ k2) :
    countId (sideOf c k1) n + countId (sideOf c k2) n ≤ cellCount c n := by
  rw [sideOf_getElem c k1 h1, sideOf_getElem c k2 h2, cellCount]
  have hk1 : k1 < (c.adjacent_cells.map (fun l => countId l n)).length := by simpa using h1
  have hk2 : k2 < (c.adjacent_cells.map (fun l => countId l n)).length := by simpa using h2
  have e1 : (c.adjacent_cells.map (fun l => countId l n))[k1]
      = countId c.adjacent_cells[k1] n := by simp
  have e2 : (c.adjacent_cells.map (fun l => countId l n))[k2]
      = countId c.adjacent_cells[k2] n := by simp
  rw [← e1, ← e2]
  exact two_elem_le_sum hk1 hk2 hne

theorem cellCount_le_idCount (s : State) (i : Nat) (n : Nat) (hi : i < s.cells.length) :
    cellCount (s.cells.getD i dummyCell) n ≤ idCount s n := by
  rw [idCount]
  have hi2 : i < (s.cells.map (fun c => cellCount c n)).length := by simpa using hi
  have e0 : s.cells.getD i dummyCell = s.cells[i] := by
    simp [List.getD_eq_getElem?_getD, List.getElem?_eq_getElem hi]
  have e : (s.cells.map (fun c => cellCount c n))[i]
      = cellCount s.cells[i] n := by simp
  rw [e0, ← e]
  exact elem_le_sum hi2

theorem two_cells_le_idCount (s : State) (i j : Nat) (n : Nat)
    (hi : i < s.cells.length) (hj : j < s.cells.length) (hij : i ≠ j) :
    cellCount (s.cells.getD i dummyCell) n + cellCount (s.cells.getD j dummyCell) n
      ≤ idCount s n := by
  rw [idCount]
  have hi2 : i < (s.cells.map (fun c => cellCount c n)).length := by simpa using hi
  have hj2 : j < (s.cells.map (fun c => cellCount c n)).length := by simpa using hj
  have ei : s.cells.getD i dummyCell = s.cells[i] := by
    simp [List.getD_eq_getElem?_getD, List.getElem?_eq_getElem hi]
  have ej : s.cells.getD j dummyCell = s.cells[j] := by
    simp [List.getD_eq_getElem?_getD, List.getElem?_eq_getElem hj]
  have e1 : (s.cells.map (fun c => cellCount c n))[i]
      = cellCount s.cells[i] n := by simp
  have e2 : (s.cells.map (fun c => cellCount c n))[j]
      = cellCount s.cells[j] n := by simp
  rw [ei, ej, ← e1, ← e2]
  exact two_elem_le_sum hi2 hj2 hij

theorem count_pos_of_linkAt {s : State} {i k : Nat} {L : Link} (h : LinkAt s i k L) :
    1 ≤ idCount s L.id := by
  obtain ⟨hi, hk, hm⟩ := h
  have h1 := countId_pos_of_mem hm
  have h2 := countId_side_le_cellCount _ k L.id (mem_sideOf_lt_adjLen hm)
  have h3 := cellCount_le_idCount s i L.id hi
  omega

theorem two_mem_countP {p : Link → Bool} {l : List Link} {a b : Link}
    (ha : a ∈ l) (hb : b ∈ l) (hab : a ≠ b) (hpa : p a = true) (hpb : p b = true) :
    2 ≤ l.countP p := by
  induction l with
  | nil => simp at ha
  | cons x tl ih =>
    rcases List.mem_cons.mp ha with rfl | ha2
    · rcases List.mem_cons.mp hb with rfl | hb2
      · exact absurd rfl hab
      · have h1 : 1 ≤ tl.countP p := List.countP_pos.mpr ⟨b, hb2, hpb⟩
        rw [List.countP_cons, if_pos hpa]
        omega
    · rcases List.mem_cons.mp hb with rfl | hb2
      · have h1 : 1 ≤ tl.countP p := List.countP_pos.mpr ⟨a, ha2, hpa⟩
        rw [List.countP_cons, if_pos hpb]
        omega
      · have := ih ha2 hb2
        rw [List.countP_cons]
        omega

theorem unique_id_loc {s : State} (huniq : ∀ n, idCount s n ≤ 1)
    {i1 k1 i2 k2 : Nat} {L1 L2 : Link}
    (h1 : LinkAt s i1 k1 L1) (h2 : LinkAt s i2 k2 L2) (hid : L1.id = L2.id) :
    i1 = i2 ∧ k1 = k2 ∧ L1 = L2 := by
  by_cases hii : i1 = i2
  · subst hii
    by_cases hkk : k1 = k2
    · subst hkk
      by_cases hLL : L1 = L2
      · exact ⟨rfl, rfl, hLL⟩
      · exfalso
        have hc : 2 ≤ countId (sideOf (s.cells.getD i1 dummyCell) k1) L1.id := by
          rw [countId]
          exact two_mem_countP h1.2.2 h2.2.2 hLL (by simp) (by simp [hid])
        have h3 := countId_side_le_cellCount _ k1 L1.id (mem_sideOf_lt_adjLen h1.2.2)
        have h4 := cellCount_le_idCount s i1 L1.id h1.1
        have := huniq L1.id
        omega
    · exfalso
      have ha := countId_pos_of_mem h1.2.2
      have hb := countId_pos_of_mem h2.2.2
      rw [← hid] at hb
      have h3 := two_sides_le_cellCount (s.cells.getD i1 dummyCell) k1 k2 L1.id
        (mem_sideOf_lt_adjLen h1.2.2) (mem_sideOf_lt_adjLen h2.2.2) hkk
      have h4 := cellCount_le_idCount s i1 L1.id h1.1
      have := huniq L1.id
      omega
  · exfalso
    have ha1 := countId_pos_of_mem h1.2.2
    have ha2 := countId_side_le_cellCount _ k1 L1.id (mem_sideOf_lt_adjLen h1.2.2)
    have hb1 := countId_pos_of_mem h2.2.2
    rw [← hid] at hb1
    have hb2 := countId_side_le_cellCount _ k2 L1.id (mem_sideOf_lt_adjLen h2.2.2)
    have h3 := two_cells_le_idCount s i1 i2 L1.id h1.1 h2.1 hii
    have := huniq L1.id
    omega

theorem idCount_updCell (s : State) (i : Int) (f : Cell → Cell) (n : Nat)
    (h : i.toNat < s.cells.length) :
    idCount (updCell s i f) n + cellCount (getCell s i) n
      = idCount s n + cellCount (f (getCell s i)) n := by
  have e0 : getCell s i = s.cells[i.toNat] := by
    simp [getCell, List.getD_eq_getElem?_getD, List.getElem?_eq_getElem h]
  show ((s.cells.set i.toNat (f (getCell s i))).map (fun c => cellCount c n)).sum + _ = _
  rw [e0]
  exact sum_map_set_nat (fun c => cellCount c n) s.cells i.toNat _ h

theorem cellCount_setSide (c : Cell) (k : Nat) (l : List Link) (n : Nat)
    (hk : k < c.adjacent_cells.length) :
    cellCount (setSide c k l) n + countId (sideOf c k) n = cellCount c n + countId l n := by
  show ((c.adjacent_cells.set k l).map (fun l2 => countId l2 n)).sum + _ = _
  rw [sideOf_getElem c k hk]
  exact sum_map_set_nat (fun l2 => countId l2 n) c.adjacent_cells k l hk

theorem idCount_modifySide (s : State) (i : Int) (k : Nat) (f : List Link → List Link)
    (n : Nat) (h : i.toNat < s.cells.length)
    (hk : k < (getCell s i).adjacent_cells.length) :
    idCount (modifySide s i k f) n + countId (sideOf (getCell s i) k) n
      = idCount s n + countId (f (sideOf (getCell s i) k)) n := by
  have h1 : idCount (modifySide s i k f) n + cellCount (getCell s i) n
      = idCount s n + cellCount (setSide (getCell s i) k (f (sideOf (getCell s i) k))) n :=
    idCount_updCell s i _ n h
  have h2 := cellCount_setSide (getCell s i) k (f (sideOf (getCell s i) k)) n hk
  omega

theorem idCount_nextId (s : State) (m : Nat) (n : Nat) :
    idCount { s with next_id := m } n = idCount s n := rfl

theorem sideOf_modifySide_self (s : State) (i : Int) (k : Nat) (f : List Link → List Link)
    (h : i.toNat < s.cells.length) (hk : k < (getCell s i).adjacent_cells.length) :
    sideOf (getCell (modifySide s i k f) i) k = f (sideOf (getCell s i) k) := by
  show sideOf ((modifySide s i k f).cells.getD i.toNat dummyCell) k = _
  rw [cells_modifySide_getD, if_pos ⟨rfl, h⟩, sideOf_setSide, if_pos ⟨rfl, hk⟩]

theorem sideOf_modifySide_other (s : State) (i : Int) (k : Nat) (f : List Link → List Link)
    (j : Int) (k2 : Nat) (h : i.toNat ≠ j.toNat ∨ k ≠ k2) :
    sideOf (getCell (modifySide s i k f) j) k2 = sideOf (getCell s j) k2 := by
  rcases h with hij | hk
  · rw [getCell_modifySide_ne _ _ _ _ _ hij]
  · show sideOf ((modifySide s i k f).cells.getD j.toNat dummyCell) k2 = _
    rw [cells_modifySide_getD]
    by_cases hc : i.toNat = j.toNat ∧ i.toNat < s.cells.length
    · rw [if_pos hc, sideOf_setSide, if_neg (fun hp => hk hp.1)]
      rw [show getCell s i = s.cells.getD j.toNat dummyCell from by rw [getCell, hc.1]]
      rfl
    · rw [if_neg hc]
      rfl

theorem sideOf_modifySide_mono (s : State) (i : Int) (k : Nat) (f : List Link → List Link)
    (hf : ∀ l, l ⊆ f l) (j : Int) (k2 : Nat) :
    sideOf (getCell s j) k2 ⊆ sideOf (getCell (modifySide s i k f) j) k2 := by
  show _ ⊆ sideOf ((modifySide s i k f).cells.getD j.toNat dummyCell) k2
  rw [cells_modifySide_getD]
  by_cases hc : i.toNat = j.toNat ∧ i.toNat < s.cells.length
  · rw [if_pos hc, sideOf_setSide]
    by_cases hp : k = k2 ∧ k < (getCell s i).adjacent_cells.length
    · rw [if_pos hp]
      rw [show getCell s i = getCell s j from by rw [getCell, getCell, hc.1], ← hp.1]
      exact hf _
    · rw [if_neg hp]
      rw [show getCell s i = s.cells.getD j.toNat dummyCell from by rw [getCell, hc.1]]
      exact fun L hL => hL
  · rw [if_neg hc]
    exact fun L hL => hL

theorem sideOf_updCell_keep (s : State) (i : Int) (f : Cell → Cell)
    (hf : ∀ c, (f c).adjacent_cells = c.adjacent_cells) (j : Int) (k : Nat) :
    sideOf (getCell (updCell s i f) j) k = sideOf (getCell s j) k := by
  show sideOf ((updCell s i f).cells.getD j.toNat dummyCell) k = _
  rw [cells_updCell_getD]
  by_cases hc : i.toNat = j.toNat ∧ i.toNat < s.cells.length
  · rw [if_pos hc, sideOf, hf (getCell s i)]
    rw [show getCell s i = s.cells.getD j.toNat dummyCell from by rw [getCell, hc.1]]
    rfl
  · rw [if_neg hc]
    rfl

theorem sideOf_initialConnection_ne (s : State) (a b : Int) (dir : Nat) (x : Int) (j : Nat)
    (hxa : x.toNat ≠ a.toNat) (hxb : x.toNat ≠ b.toNat) :
    sideOf (getCell (initialConnection s a b dir) x) j = sideOf (getCell s x) j := by
  show sideOf (getCell { modifySide (modifySide s a dir _) b (oppositeN dir) _
    with next_id := s.next_id + 2 } x) j = _
  rw [getCell_nextId, getCell_modifySide_ne _ _ _ _ _ (Ne.symm hxb),
    getCell_modifySide_ne _ _ _ _ _ (Ne.symm hxa)]

theorem countId_cons (lnew : Link) (l : List Link) (n : Nat) :
    countId (lnew :: l) n = countId l n + (if lnew.id == n then 1 else 0) := by
  simp only [countId, List.countP_cons]

theorem idCount_modifySide_cons (s : State) (i : Int) (k : Nat) (lnew : Link) (n : Nat)
    (h : i.toNat < s.cells.length) (hk : k < (getCell s i).adjacent_cells.length) :
    idCount (modifySide s i k (fun l => lnew :: l)) n
      = idCount s n + (if lnew.id == n then 1 else 0) := by
  have h1 : idCount (modifySide s i k (fun l => lnew :: l)) n
        + countId (sideOf (getCell s i) k) n
      = idCount s n + countId (lnew :: sideOf (getCell s i) k) n :=
    idCount_modifySide s i k (fun l => lnew :: l) n h hk
  have h2 := countId_cons lnew (sideOf (getCell s i) k) n
  omega

theorem idCount_modifySide_insert (s : State) (i : Int) (k : Nat) (r : Nat) (lnew : Link)
    (n : Nat) (h : i.toNat < s.cells.length)
    (hk : k < (getCell s i).adjacent_cells.length) :
    idCount (modifySide s i k (insertBeforeId r lnew)) n
      = idCount s n + (if lnew.id == n then 1 else 0) := by
  have h1 := idCount_modifySide s i k (insertBeforeId r lnew) n h hk
  have h2 := countId_insertBeforeId r lnew (sideOf (getCell s i) k) n
  omega

theorem idCount_modifySide_erase_ne (s : State) (i : Int) (k : Nat) (r : Nat) (n : Nat)
    (hnr : n ≠ r) (h : i.toNat < s.cells.length)
    (hk : k < (getCell s i).adjacent_cells.length) :
    idCount (modifySide s i k (eraseFirstId r)) n = idCount s n := by
  have h1 := idCount_modifySide s i k (eraseFirstId r) n h hk
  have h2 := countId_eraseFirstId_ne r (sideOf (getCell s i) k) n hnr
  omega

theorem idCount_modifySide_erase_self (s : State) (i : Int) (k : Nat) (r : Nat)
    (h : i.toNat < s.cells.length) (hk : k < (getCell s i).adjacent_cells.length)
    (hmem : ∃ L ∈ sideOf (getCell s i) k, L.id = r) :
    idCount (modifySide s i k (eraseFirstId r)) r + 1 = idCount s r := by
  have h1 := idCount_modifySide s i k (eraseFirstId r) r h hk
  have h2 := countId_eraseFirstId_self r (sideOf (getCell s i) k) hmem
  omega

theorem idCount_modifySide_clear (s : State) (i : Int) (k : Nat) (n : Nat)
    (h : i.toNat < s.cells.length) (hk : k < (getCell s i).adjacent_cells.length) :
    idCount (modifySide s i k (fun _ => [])) n
      + countId (sideOf (getCell s i) k) n = idCount s n := by
  have h1 : idCount (modifySide s i k (fun _ => [])) n
        + countId (sideOf (getCell s i) k) n
      = idCount s n + countId ([] : List Link) n :=
    idCount_modifySide s i k (fun _ => []) n h hk
  have h2 : countId ([] : List Link) n = 0 := rfl
  omega

theorem count_map_id_eq_countId (l : List Link) (n : Nat) :
    (l.map Link.id).count n = countId l n := by
  rw [List.count_eq_countP, List.countP_map]
  rfl

theorem ids_nodup_of_unique (s : State) (i : Nat) (k : Nat) (hi : i < s.cells.length)
    (hk : k < (s.cells.getD i dummyCell).adjacent_cells.length)
    (hu : ∀ n, idCount s n ≤ 1) :
    ((sideOf (s.cells.getD i dummyCell) k).map Link.id).Nodup := by
  refine List.nodup_iff_count_le_one.mpr ?_
  intro n
  rw [count_map_id_eq_countId]
  have h1 := countId_side_le_cellCount (s.cells.getD i dummyCell) k n hk
  have h2 := cellCount_le_idCount s i n hi
  have := hu n
  omega

theorem indicEq (m n : Nat) : (if m == n then 1 else 0) = (if m = n then 1 else 0) := by
  by_cases h : m = n <;> simp [h]

theorem pairExcept_of_dead {t : State} {bad : List Nat} (hpe : PairExcept t bad)
    (hdead : ∀ n ∈ bad, idCount t n = 0) : PairExcept t [] := by
  refine ⟨hpe.1, hpe.2.1, ?_⟩
  intro i k L h _
  refine hpe.2.2 i k L h ?_
  intro hmem
  have h0 := hdead L.id hmem
  have h1 := count_pos_of_linkAt h
  omega

theorem sameShape_initialConnection (s : State) (a b : Int) (dir : Nat) :
    sameShape s (initialConnection s a b dir) :=
  sameShape_nextId _
    (sameShape_trans (sameShape_modifySide s a dir _)
      (sameShape_modifySide _ b (oppositeN dir) _))

theorem wf_transport {s t : State} (hsh : sameShape s t)
    (hwf : ∀ i < s.cells.length, (s.cells.getD i dummyCell).index = Int.ofNat i)
    (hadj : adjLen4 s) :
    (∀ i < t.cells.length, (t.cells.getD i dummyCell).index = Int.ofNat i) ∧ adjLen4 t := by
  constructor
  · intro i hi
    have e := (hsh.2 (Int.ofNat i)).2.2.2
    show (getCell t (Int.ofNat i)).index = Int.ofNat i
    rw [e]
    exact hwf i (by rw [← hsh.1]; exact hi)
  · intro i hi
    have e := (hsh.2 (Int.ofNat i)).2.2.1
    show (getCell t (Int.ofNat i)).adjacent_cells.length = 4
    rw [e]
    exact hadj i (by rw [← hsh.1]; exact hi)

theorem pairInv_initialConnection (s : State) (before after : Int) (dir : Nat)
    (hp : PairInv s) (hb0 : 0 ≤ before) (ha0 : 0 ≤ after)
    (hbv : before.toNat < s.cells.length) (hav : after.toNat < s.cells.length)
    (hne : before ≠ after) (hdir : dir < 4) :
    PairInv (initialConnection s before after dir) := by
  obtain ⟨hwf, hadj, huniq, hfresh, hpair⟩ := hp
  have hBA : before.toNat ≠ after.toNat := fun h => hne (by omega)
  have hadjB : dir < (getCell s before).adjacent_cells.length := by
    show dir < (s.cells.getD before.toNat dummyCell).adjacent_cells.length
    rw [hadj before.toNat hbv]
    exact hdir
  rw [show initialConnection s before after dir
      = { modifySide (modifySide s before dir
            (fun l => (⟨after, s.next_id, s.next_id + 1⟩ : Link) :: l)) after (oppositeN dir)
            (fun l => (⟨before, s.next_id + 1, s.next_id⟩ : Link) :: l)
          with next_id := s.next_id + 2 } from rfl]
  set s1 := modifySide s before dir
    (fun l => (⟨after, s.next_id, s.next_id + 1⟩ : Link) :: l) with hs1
  set s2 := modifySide s1 after (oppositeN dir)
    (fun l => (⟨before, s.next_id + 1, s.next_id⟩ : Link) :: l) with hs2
  have hsh1 : sameShape s s1 := by
    rw [hs1]
    exact sameShape_modifySide s before dir _
  have hsh2 : sameShape s s2 := by
    rw [hs2]
    exact sameShape_trans hsh1 (sameShape_modifySide s1 after (oppositeN dir) _)
  have hlen1 : s1.cells.length = s.cells.length := hsh1.1
  have hlen2 : s2.cells.length = s.cells.length := hsh2.1
  have hadj1 : oppositeN dir < (getCell s1 after).adjacent_cells.length := by
    rw [(hsh1.2 after).2.2.1]
    show oppositeN dir < (s.cells.getD after.toNat dummyCell).adjacent_cells.length
    rw [hadj after.toNat hav]
    exact oppositeN_lt hdir
  have hc1 : ∀ n, idCount s1 n = idCount s n + (if s.next_id == n then 1 else 0) := by
    intro n
    rw [hs1]
    exact idCount_modifySide_cons s before dir ⟨after, s.next_id, s.next_id + 1⟩ n hbv hadjB
  have hc2 : ∀ n, idCount s2 n = idCount s1 n + (if s.next_id + 1 == n then 1 else 0) := by
    intro n
    rw [hs2]
    exact idCount_modifySide_cons s1 after (oppositeN dir) ⟨before, s.next_id + 1, s.next_id⟩ n
      (by rw [hlen1]; exact hav) hadj1
  have hw := wf_transport hsh2 hwf hadj
  refine ⟨?_, ?_, ?_, ?_, ?_⟩
  · intro i hi
    exact hw.1 i hi
  · intro i hi
    exact hw.2 i hi
  · intro n
    have h1 := hc1 n
    have h2 := hc2 n
    rw [indicEq] at h1
    rw [indicEq] at h2
    have hcc : idCount { s2 with next_id := s.next_id + 2 } n = idCount s2 n := rfl
    rw [hcc]
    by_cases e1 : s.next_id = n
    · rw [if_pos e1] at h1
      rw [if_neg (by omega)] at h2
      have h0 : idCount s n = 0 := hfresh n (by omega)
      omega
    · rw [if_neg e1] at h1
      by_cases e2 : s.next_id + 1 = n
      · rw [if_pos e2] at h2
        have h0 : idCount s n = 0 := hfresh n (by omega)
        omega
      · rw [if_neg e2] at h2
        have := huniq n
        omega
  · intro n hn
    have hn' : s.next_id + 2 ≤ n := hn
    have h1 := hc1 n
    have h2 := hc2 n
    rw [indicEq] at h1
    rw [indicEq] at h2
    rw [if_neg (by omega)] at h1
    rw [if_neg (by omega)] at h2
    have h0 : idCount s n = 0 := hfresh n (by omega)
    show idCount s2 n = 0
    omega
  · intro i k L hLa
    have hL2 : LinkAt s2 i k L := hLa
    rw [hs2] at hL2
    rcases linkAt_modifySide_cons hL2 with ⟨e1, e2, e3, e4, he⟩ | hh
    · subst he
      subst e1
      subst e2
      refine ⟨hb0, ?_, ?_⟩
      · show before.toNat < s2.cells.length
        rw [hlen2]
        exact hbv
      · show (⟨Int.ofNat after.toNat, s.next_id, s.next_id + 1⟩ : Link) ∈
          sideOf (s2.cells.getD before.toNat dummyCell) (oppositeN (oppositeN dir))
        rw [oppositeN_oppositeN hdir,
          show Int.ofNat after.toNat = after from Int.toNat_of_nonneg ha0]
        have e : sideOf (getCell s2 before) dir
            = (⟨after, s.next_id, s.next_id + 1⟩ : Link) :: sideOf (getCell s before) dir := by
          rw [hs2]
          rw [sideOf_modifySide_other s1 after (oppositeN dir) _ before dir (Or.inl (Ne.symm hBA))]
          rw [hs1]
          exact sideOf_modifySide_self s before dir _ hbv hadjB
        show (⟨after, s.next_id, s.next_id + 1⟩ : Link) ∈ sideOf (getCell s2 before) dir
        rw [e]
        exact List.mem_cons_self _ _
    · rw [hs1] at hh
      rcases linkAt_modifySide_cons hh with ⟨e1, e2, e3, e4, he⟩ | hold
      · subst he
        subst e1
        subst e2
        refine ⟨ha0, ?_, ?_⟩
        · show after.toNat < s2.cells.length
          rw [hlen2]
          exact hav
        · show (⟨Int.ofNat before.toNat, s.next_id + 1, s.next_id⟩ : Link) ∈
            sideOf (s2.cells.getD after.toNat dummyCell) (oppositeN k)
          rw [show Int.ofNat before.toNat = before from Int.toNat_of_nonneg hb0]
          have e : sideOf (getCell s2 after) (oppositeN k)
              = (⟨before, s.next_id + 1, s.next_id⟩ : Link)
                :: sideOf (getCell s1 after) (oppositeN k) := by
            rw [hs2]
            exact sideOf_modifySide_self s1 after (oppositeN k) _ (by rw [hlen1]; exact hav) hadj1
          show (⟨before, s.next_id + 1, s.next_id⟩ : Link) ∈ sideOf (getCell s2 after) (oppositeN k)
          rw [e]
          exact List.mem_cons_self _ _
      · obtain ⟨hml, hmr, hmem⟩ := hpair i k L hold
        refine ⟨hml, ?_, ?_⟩
        · show L.to_index.toNat < s2.cells.length
          rw [hlen2]
          exact hmr
        · show (⟨Int.ofNat i, L.rev, L.id⟩ : Link) ∈
            sideOf (s2.cells.getD L.to_index.toNat dummyCell) (oppositeN k)
          have m1 : sideOf (getCell s L.to_index) (oppositeN k)
              ⊆ sideOf (getCell s1 L.to_index) (oppositeN k) := by
            rw [hs1]
            exact sideOf_modifySide_mono s before dir _
              (fun l y hy => List.mem_cons_of_mem _ hy) _ _
          have m2 : sideOf (getCell s1 L.to_index) (oppositeN k)
              ⊆ sideOf (getCell s2 L.to_index) (oppositeN k) := by
            rw [hs2]
            exact sideOf_modifySide_mono s1 after (oppositeN dir) _
              (fun l y hy => List.mem_cons_of_mem _ hy) _ _
          exact m2 (m1 hmem)

theorem pairAddPair (s0 : State) (ci : Int) (side : Nat)
    (hci0 : 0 ≤ ci) (hciv : ci.toNat < s0.cells.length) (hside : side < 4)
    (hadj0 : adjLen4 s0)
    (hnoself : ∀ k < 4, ∀ L ∈ sideOf (getCell s0 ci) k,
      L.to_index ≠ ci ∧ L.to_index ∉ kidsOf s0 ci)
    (hkids : ∀ ch ∈ kidsOf s0 ci, ch ≠ ci ∧ ch.toNat < s0.cells.length)
    (t : State) (bad rv : List Nat) (L : Link) (ch : Int)
    (hsh : sameShape s0 t)
    (hpe : PairExcept t bad)
    (hrv : ∀ n ∈ rv, idCount t n = 0 ∧ n < t.next_id)
    (hch : ch ∈ kidsOf s0 ci)
    (hLt : L ∈ sideOf (getCell t ci) side)
    (hLs0 : L ∈ sideOf (getCell s0 ci) side)
    (hLid : L.id ∉ bad) :
    PairExcept (addPairBefore t ch side L.to_index L.rev) bad ∧
    (∀ n ∈ rv, idCount (addPairBefore t ch side L.to_index L.rev) n = 0 ∧
      n < (addPairBefore t ch side L.to_index L.rev).next_id) ∧
    (∀ j2, sideOf (getCell (addPairBefore t ch side L.to_index L.rev) ci) j2
      = sideOf (getCell t ci) j2) ∧
    t.next_id ≤ (addPairBefore t ch side L.to_index L.rev).next_id ∧
    sameShape s0 (addPairBefore t ch side L.to_index L.rev) := by
  have hLAt : LinkAt t ci.toNat side L := ⟨by rw [hsh.1]; exact hciv, hside, hLt⟩
  obtain ⟨h_to0, h_tov, hBL⟩ := hpe.2.2 ci.toNat side L hLAt hLid
  have hchno := hnoself side hside L hLs0
  have hch0 : 0 ≤ ch := kid_nonneg hch
  have hchci : ch ≠ ci := (hkids ch hch).1
  have hchv : ch.toNat < t.cells.length := by
    rw [hsh.1]
    exact (hkids ch hch).2
  have hchnb : ch ≠ L.to_index := fun h => hchno.2 (h ▸ hch)
  have hNbCh : L.to_index.toNat ≠ ch.toNat := fun h => hchnb (by omega)
  have hNbCi : L.to_index.toNat ≠ ci.toNat := fun h => hchno.1 (by omega)
  have hChCi : ch.toNat ≠ ci.toNat := fun h => hchci (by omega)
  have hadjT : ∀ j : Int, j.toNat < t.cells.length →
      (getCell t j).adjacent_cells.length = 4 := by
    intro j hj
    rw [(hsh.2 j).2.2.1]
    show (s0.cells.getD j.toNat dummyCell).adjacent_cells.length = 4
    exact hadj0 j.toNat (by rw [← hsh.1]; exact hj)
  have hadjCh : side < (getCell t ch).adjacent_cells.length := by
    rw [hadjT ch hchv]
    exact hside
  rw [show addPairBefore t ch side L.to_index L.rev
      = { modifySide (modifySide t ch side
            (fun l => (⟨L.to_index, t.next_id, t.next_id + 1⟩ : Link) :: l))
          L.to_index (oppositeN side)
          (insertBeforeId L.rev (⟨ch, t.next_id + 1, t.next_id⟩ : Link))
          with next_id := t.next_id + 2 } from rfl]
  set u1 := modifySide t ch side
    (fun l => (⟨L.to_index, t.next_id, t.next_id + 1⟩ : Link) :: l) with hu1
  set u2 := modifySide u1 L.to_index (oppositeN side)
    (insertBeforeId L.rev (⟨ch, t.next_id + 1, t.next_id⟩ : Link)) with hu2
  have hshu1 : sameShape t u1 := by
    rw [hu1]
    exact sameShape_modifySide t ch side _
  have hshu2 : sameShape t u2 := by
    rw [hu2]
    exact sameShape_trans hshu1 (sameShape_modifySide u1 L.to_index (oppositeN side) _)
  have hlenu1 : u1.cells.length = t.cells.length := hshu1.1
  have hlenu2 : u2.cells.length = t.cells.length := hshu2.1
  have hadjNb : oppositeN side < (getCell u1 L.to_index).adjacent_cells.length := by
    rw [(hshu1.2 L.to_index).2.2.1, hadjT L.to_index h_tov]
    exact oppositeN_lt hside
  have hcu1 : ∀ n, idCount u1 n = idCount t n + (if t.next_id == n then 1 else 0) := by
    intro n
    rw [hu1]
    exact idCount_modifySide_cons t ch side ⟨L.to_index, t.next_id, t.next_id + 1⟩ n hchv hadjCh
  have hcu2 : ∀ n, idCount u2 n = idCount u1 n + (if t.next_id + 1 == n then 1 else 0) := by
    intro n
    rw [hu2]
    exact idCount_modifySide_insert u1 L.to_index (oppositeN side) L.rev
      ⟨ch, t.next_id + 1, t.next_id⟩ n (by rw [hlenu1]; exact h_tov) hadjNb
  refine ⟨⟨?_, ?_, ?_⟩, ?_, ?_, ?_, ?_⟩
  · intro n
    have h1 := hcu1 n
    have h2 := hcu2 n
    rw [indicEq] at h1
    rw [indicEq] at h2
    show idCount u2 n ≤ 1
    by_cases e1 : t.next_id = n
    · rw [if_pos e1] at h1
      rw [if_neg (by omega)] at h2
      have h0 : idCount t n = 0 := hpe.2.1 n (by omega)
      omega
    · rw [if_neg e1] at h1
      by_cases e2 : t.next_id + 1 = n
      · rw [if_pos e2] at h2
        have h0 : idCount t n = 0 := hpe.2.1 n (by omega)
        omega
      · rw [if_neg e2] at h2
        have := hpe.1 n
        omega
  · intro n hn
    have hn' : t.next_id + 2 ≤ n := hn
    have h1 := hcu1 n
    have h2 := hcu2 n
    rw [indicEq] at h1
    rw [indicEq] at h2
    rw [if_neg (by omega)] at h1
    rw [if_neg (by omega)] at h2
    have h0 : idCount t n = 0 := hpe.2.1 n (by omega)
    show idCount u2 n = 0
    omega
  · intro i k M hMa hMid
    have hM2 : LinkAt u2 i k M := hMa
    rw [hu2] at hM2
    rcases linkAt_modifySide_insert hM2 with ⟨e1, e2, e3, e4, he⟩ | hh
    · subst he
      subst e1
      subst e2
      refine ⟨hch0, ?_, ?_⟩
      · show ch.toNat < u2.cells.length
        rw [hlenu2]
        exact hchv
      · show (⟨Int.ofNat L.to_index.toNat, t.next_id, t.next_id + 1⟩ : Link) ∈
          sideOf (u2.cells.getD ch.toNat dummyCell) (oppositeN (oppositeN side))
        rw [oppositeN_oppositeN hside,
          show Int.ofNat L.to_index.toNat = L.to_index from Int.toNat_of_nonneg h_to0]
        have e : sideOf (getCell u2 ch) side
            = (⟨L.to_index, t.next_id, t.next_id + 1⟩ : Link) :: sideOf (getCell t ch) side := by
          rw [hu2]
          rw [sideOf_modifySide_other u1 L.to_index (oppositeN side) _ ch side
            (Or.inl hNbCh)]
          rw [hu1]
          exact sideOf_modifySide_self t ch side _ hchv hadjCh
        show (⟨L.to_index, t.next_id, t.next_id + 1⟩ : Link) ∈ sideOf (getCell u2 ch) side
        rw [e]
        exact List.mem_cons_self _ _
    · rw [hu1] at hh
      rcases linkAt_modifySide_cons hh with ⟨e1, e2, e3, e4, he⟩ | hold
      · subst he
        subst e1
        refine ⟨h_to0, ?_, ?_⟩
        · show L.to_index.toNat < u2.cells.length
          rw [hlenu2]
          exact h_tov
        · show (⟨Int.ofNat ch.toNat, t.next_id + 1, t.next_id⟩ : Link) ∈
            sideOf (u2.cells.getD L.to_index.toNat dummyCell) (oppositeN k)
          rw [show Int.ofNat ch.toNat = ch from Int.toNat_of_nonneg hch0, e2]
          have e : sideOf (getCell u2 L.to_index) (oppositeN side)
              = insertBeforeId L.rev (⟨ch, t.next_id + 1, t.next_id⟩ : Link)
                  (sideOf (getCell u1 L.to_index) (oppositeN side)) := by
            rw [hu2]
            exact sideOf_modifySide_self u1 L.to_index (oppositeN side) _
              (by rw [hlenu1]; exact h_tov) hadjNb
          show (⟨ch, t.next_id + 1, t.next_id⟩ : Link) ∈
            sideOf (getCell u2 L.to_index) (oppositeN side)
          rw [e]
          exact mem_insertBeforeId.mpr (Or.inl rfl)
      · obtain ⟨hml, hmr, hmem⟩ := hpe.2.2 i k M hold hMid
        refine ⟨hml, ?_, ?_⟩
        · show M.to_index.toNat < u2.cells.length
          rw [hlenu2]
          exact hmr
        · show (⟨Int.ofNat i, M.rev, M.id⟩ : Link) ∈
            sideOf (u2.cells.getD M.to_index.toNat dummyCell) (oppositeN k)
          have m1 : sideOf (getCell t M.to_index) (oppositeN k)
              ⊆ sideOf (getCell u1 M.to_index) (oppositeN k) := by
            rw [hu1]
            exact sideOf_modifySide_mono t ch side _
              (fun l y hy => List.mem_cons_of_mem _ hy) _ _
          have m2 : sideOf (getCell u1 M.to_index) (oppositeN k)
              ⊆ sideOf (getCell u2 M.to_index) (oppositeN k) := by
            rw [hu2]
            exact sideOf_modifySide_mono u1 L.to_index (oppositeN side) _
              (fun l y hy => mem_insertBeforeId.mpr (Or.inr hy)) _ _
          exact m2 (m1 hmem)
  · intro n hn
    obtain ⟨hz, hlt⟩ := hrv n hn
    constructor
    · have h1 := hcu1 n
      have h2 := hcu2 n
      rw [indicEq] at h1
      rw [indicEq] at h2
      rw [if_neg (by omega)] at h1
      rw [if_neg (by omega)] at h2
      show idCount u2 n = 0
      omega
    · show n < t.next_id + 2
      omega
  · intro j2
    show sideOf (getCell u2 ci) j2 = sideOf (getCell t ci) j2
    rw [hu2]
    rw [sideOf_modifySide_other u1 L.to_index (oppositeN side) _ ci j2 (Or.inl hNbCi)]
    rw [hu1]
    exact sideOf_modifySide_other t ch side _ ci j2 (Or.inl hChCi)
  · show t.next_id ≤ t.next_id + 2
    omega
  · exact sameShape_trans hsh (sameShape_nextId _ hshu2)

theorem pairKidsFold (ext : Ext) (s0 : State) (ci : Int) (side : Nat)
    (hci0 : 0 ≤ ci) (hciv : ci.toNat < s0.cells.length) (hside : side < 4)
    (hadj0 : adjLen4 s0)
    (hnoself : ∀ k < 4, ∀ L ∈ sideOf (getCell s0 ci) k,
      L.to_index ≠ ci ∧ L.to_index ∉ kidsOf s0 ci)
    (hkids : ∀ ch ∈ kidsOf s0 ci, ch ≠ ci ∧ ch.toNat < s0.cells.length)
    (L : Link) (bad rv : List Nat)
    (hLs0 : L ∈ sideOf (getCell s0 ci) side) (hLid : L.id ∉ bad)
    (ks : List Int) (hks : ∀ ch ∈ ks, ch ∈ kidsOf s0 ci) :
    ∀ t : State, sameShape s0 t → PairExcept t bad →
    (∀ n ∈ rv, idCount t n = 0 ∧ n < t.next_id) →
    L ∈ sideOf (getCell t ci) side →
    ∀ u, u = ks.foldl (fun st ch =>
        if isNextTo ext (getCell st ch) (getCell st L.to_index) (dirOfNat side) = true
        then addPairBefore st ch side L.to_index L.rev else st) t →
    sameShape s0 u ∧ PairExcept u bad ∧
    (∀ n ∈ rv, idCount u n = 0 ∧ n < u.next_id) ∧
    (∀ j2, sideOf (getCell u ci) j2 = sideOf (getCell t ci) j2) ∧
    t.next_id ≤ u.next_id := by
  induction ks with
  | nil =>
    intro t hsh hpe hrv hLt u hu
    rw [List.foldl_nil] at hu
    subst hu
    exact ⟨hsh, hpe, hrv, fun j2 => rfl, Nat.le_refl _⟩
  | cons ch ks' ih =>
    intro t hsh hpe hrv hLt u hu
    rw [List.foldl_cons] at hu
    have hchk : ch ∈ kidsOf s0 ci := hks ch (by simp)
    have hu2 : u = ks'.foldl (fun st chx =>
        if isNextTo ext (getCell st chx) (getCell st L.to_index) (dirOfNat side) = true
        then addPairBefore st chx side L.to_index L.rev else st)
        (if isNextTo ext (getCell t ch) (getCell t L.to_index) (dirOfNat side) = true
         then addPairBefore t ch side L.to_index L.rev else t) := hu
    by_cases hn : isNextTo ext (getCell t ch) (getCell t L.to_index) (dirOfNat side) = true
    · rw [if_pos hn] at hu2
      obtain ⟨hpe2, hrv2, hsides2, hnext2, hsh2⟩ :=
        pairAddPair s0 ci side hci0 hciv hside hadj0 hnoself hkids t bad rv L ch
          hsh hpe hrv hchk hLt hLs0 hLid
      have hLt2 : L ∈ sideOf (getCell (addPairBefore t ch side L.to_index L.rev) ci) side := by
        rw [hsides2 side]
        exact hLt
      obtain ⟨g1, g2, g3, g4, g5⟩ := ih (fun c hc => hks c (by simp [hc]))
        (addPairBefore t ch side L.to_index L.rev) hsh2 hpe2 hrv2 hLt2 u hu2
      refine ⟨g1, g2, g3, ?_, ?_⟩
      · intro j2
        rw [g4 j2]
        exact hsides2 j2
      · exact Nat.le_trans hnext2 g5
    · rw [if_neg hn] at hu2
      exact ih (fun c hc => hks c (by simp [hc])) t hsh hpe hrv hLt u hu2

theorem pairErase (s0 : State) (ci : Int) (side : Nat)
    (hci0 : 0 ≤ ci) (hciv : ci.toNat < s0.cells.length) (hside : side < 4)
    (hadj0 : adjLen4 s0)
    (hnoself : ∀ k < 4, ∀ L ∈ sideOf (getCell s0 ci) k,
      L.to_index ≠ ci ∧ L.to_index ∉ kidsOf s0 ci)
    (t : State) (bad rv : List Nat) (L : Link)
    (hsh : sameShape s0 t) (hpe : PairExcept t bad)
    (hrv : ∀ n ∈ rv, idCount t n = 0 ∧ n < t.next_id)
    (hLt : L ∈ sideOf (getCell t ci) side)
    (hLs0 : L ∈ sideOf (getCell s0 ci) side)
    (hLid : L.id ∉ bad) :
    ∀ w, w = modifySide t L.to_index (oppositeN side) (eraseFirstId L.rev) →
    sameShape s0 w ∧ PairExcept w (L.id :: bad) ∧
    (∀ n ∈ L.rev :: rv, idCount w n = 0 ∧ n < w.next_id) ∧
    (∀ j2, sideOf (getCell w ci) j2 = sideOf (getCell t ci) j2) ∧
    t.next_id ≤ w.next_id := by
  intro w hw
  have hLAt : LinkAt t ci.toNat side L := ⟨by rw [hsh.1]; exact hciv, hside, hLt⟩
  obtain ⟨h_to0, h_tov, hBL⟩ := hpe.2.2 ci.toNat side L hLAt hLid
  have hchno := hnoself side hside L hLs0
  have hNbCi : L.to_index.toNat ≠ ci.toNat := fun h => hchno.1 (by omega)
  have hadjT : ∀ j : Int, j.toNat < t.cells.length →
      (getCell t j).adjacent_cells.length = 4 := by
    intro j hj
    rw [(hsh.2 j).2.2.1]
    show (s0.cells.getD j.toNat dummyCell).adjacent_cells.length = 4
    exact hadj0 j.toNat (by rw [← hsh.1]; exact hj)
  have hadjNb : oppositeN side < (getCell t L.to_index).adjacent_cells.length := by
    rw [hadjT L.to_index h_tov]
    exact oppositeN_lt hside
  have hBLAt : LinkAt t L.to_index.toNat (oppositeN side) (⟨Int.ofNat ci.toNat, L.rev, L.id⟩ : Link) :=
    ⟨h_tov, oppositeN_lt hside, hBL⟩
  have hBLcnt : 1 ≤ idCount t L.rev := count_pos_of_linkAt hBLAt
  have hrevlt : L.rev < t.next_id := by
    by_contra hc
    push_neg at hc
    have := hpe.2.1 L.rev hc
    omega
  have heraseq : idCount w L.rev + 1 = idCount t L.rev := by
    rw [hw]
    exact idCount_modifySide_erase_self t L.to_index (oppositeN side) L.rev h_tov hadjNb
      ⟨⟨Int.ofNat ci.toNat, L.rev, L.id⟩, hBL, rfl⟩
  have hcne : ∀ n, n ≠ L.rev → idCount w n = idCount t n := by
    intro n hne
    rw [hw]
    exact idCount_modifySide_erase_ne t L.to_index (oppositeN side) L.rev n hne h_tov hadjNb
  have hnext : w.next_id = t.next_id := by
    rw [hw]
    rfl
  have hshw : sameShape s0 w := by
    rw [hw]
    exact sameShape_trans hsh (sameShape_modifySide t L.to_index (oppositeN side) _)
  have hlenw : w.cells.length = t.cells.length := by
    rw [hw]
    exact length_modifySide _ _ _ _
  refine ⟨hshw, ⟨?_, ?_, ?_⟩, ?_, ?_, ?_⟩
  · intro n
    by_cases hne : n = L.rev
    · rw [hne]
      have := hpe.1 L.rev
      omega
    · rw [hcne n hne]
      exact hpe.1 n
  · intro n hn
    have hn' : t.next_id ≤ n := by
      rw [← hnext]
      exact hn
    have hne : n ≠ L.rev := by omega
    rw [hcne n hne]
    exact hpe.2.1 n hn'
  · intro i k M hMa hMid
    have hMw : LinkAt w i k M := hMa
    rw [hw] at hMw
    have hMold : LinkAt t i k M :=
      linkAt_modifySide_sub (fun l y hy => mem_eraseFirstId_sub hy) hMw
    have hMidb : M.id ∉ bad := fun hc => hMid (List.mem_cons_of_mem _ hc)
    obtain ⟨m0, mv, mmem⟩ := hpe.2.2 i k M hMold hMidb
    refine ⟨m0, ?_, ?_⟩
    · rw [show w.cells.length = t.cells.length from hlenw]
      exact mv
    · by_cases hloc : L.to_index.toNat = M.to_index.toNat ∧ oppositeN side = oppositeN k
      · have hMrev : M.rev ≠ L.rev := by
          intro hre
          by_cases hPMBL : (⟨Int.ofNat i, M.rev, M.id⟩ : Link)
              = (⟨Int.ofNat ci.toNat, L.rev, L.id⟩ : Link)
          · have := congrArg Link.rev hPMBL
            simp only at this
            exact hMid (this ▸ List.mem_cons_self _ _)
          · have hmm2 : (⟨Int.ofNat i, M.rev, M.id⟩ : Link) ∈
                sideOf (t.cells.getD L.to_index.toNat dummyCell) (oppositeN side) := by
              rw [hloc.1, hloc.2]
              exact mmem
            have h2c : 2 ≤ countId
                (sideOf (t.cells.getD L.to_index.toNat dummyCell) (oppositeN side)) L.rev := by
              rw [countId]
              refine two_mem_countP hmm2 hBL hPMBL ?_ ?_
              · simp [hre]
              · simp
            have h3 := countId_side_le_cellCount (t.cells.getD L.to_index.toNat dummyCell)
              (oppositeN side) L.rev (mem_sideOf_lt_adjLen hBL)
            have h4 := cellCount_le_idCount t L.to_index.toNat L.rev h_tov
            have := hpe.1 L.rev
            omega
        show (⟨Int.ofNat i, M.rev, M.id⟩ : Link) ∈
          sideOf (w.cells.getD M.to_index.toNat dummyCell) (oppositeN k)
        rw [← hloc.1, ← hloc.2]
        have e : sideOf (getCell w L.to_index) (oppositeN side)
            = eraseFirstId L.rev (sideOf (getCell t L.to_index) (oppositeN side)) := by
          rw [hw]
          exact sideOf_modifySide_self t L.to_index (oppositeN side) _ h_tov hadjNb
        show (⟨Int.ofNat i, M.rev, M.id⟩ : Link) ∈ sideOf (getCell w L.to_index) (oppositeN side)
        rw [e]
        refine mem_eraseFirstId_of_ne ?_ ?_
        · show (⟨Int.ofNat i, M.rev, M.id⟩ : Link) ∈
            sideOf (t.cells.getD L.to_index.toNat dummyCell) (oppositeN side)
          rw [hloc.1, hloc.2]
          exact mmem
        · show M.rev ≠ L.rev
          exact hMrev
      · show (⟨Int.ofNat i, M.rev, M.id⟩ : Link) ∈
          sideOf (w.cells.getD M.to_index.toNat dummyCell) (oppositeN k)
        have hor : L.to_index.toNat ≠ M.to_index.toNat ∨ oppositeN side ≠ oppositeN k := by
          by_cases h1 : L.to_index.toNat = M.to_index.toNat
          · right
            intro h2
            exact hloc ⟨h1, h2⟩
          · left
            exact h1
        have e : sideOf (getCell w M.to_index) (oppositeN k)
            = sideOf (getCell t M.to_index) (oppositeN k) := by
          rw [hw]
          exact sideOf_modifySide_other t L.to_index (oppositeN side) _ M.to_index (oppositeN k) hor
        show (⟨Int.ofNat i, M.rev, M.id⟩ : Link) ∈ sideOf (getCell w M.to_index) (oppositeN k)
        rw [e]
        exact mmem
  · intro n hn
    rcases List.mem_cons.mp hn with rfl | hn2
    · constructor
      · have := hpe.1 L.rev
        omega
      · rw [hnext]
        exact hrevlt
    · obtain ⟨hz, hlt⟩ := hrv n hn2
      have hne : n ≠ L.rev := by
        intro hc
        rw [hc] at hz
        omega
      constructor
      · rw [hcne n hne]
        exact hz
      · rw [hnext]
        exact hlt
  · intro j2
    rw [hw]
    exact sideOf_modifySide_other t L.to_index (oppositeN side) _ ci j2 (Or.inl hNbCi)
  · rw [hnext]

theorem pairProcessLink (ext : Ext) (s0 : State) (ci : Int) (side : Nat)
    (hci0 : 0 ≤ ci) (hciv : ci.toNat < s0.cells.length) (hside : side < 4)
    (hadj0 : adjLen4 s0)
    (hnoself : ∀ k < 4, ∀ L ∈ sideOf (getCell s0 ci) k,
      L.to_index ≠ ci ∧ L.to_index ∉ kidsOf s0 ci)
    (hkids : ∀ ch ∈ kidsOf s0 ci, ch ≠ ci ∧ ch.toNat < s0.cells.length)
    (t : State) (bad rv : List Nat) (L : Link)
    (hsh : sameShape s0 t) (hpe : PairExcept t bad)
    (hrv : ∀ n ∈ rv, idCount t n = 0 ∧ n < t.next_id)
    (hLt : L ∈ sideOf (getCell t ci) side)
    (hLs0 : L ∈ sideOf (getCell s0 ci) side)
    (hLid : L.id ∉ bad) :
    ∀ w, w = processLink ext ci side t L →
    sameShape s0 w ∧ PairExcept w (L.id :: bad) ∧
    (∀ n ∈ L.rev :: rv, idCount w n = 0 ∧ n < w.next_id) ∧
    (∀ j2, sideOf (getCell w ci) j2 = sideOf (getCell t ci) j2) ∧
    t.next_id ≤ w.next_id := by
  intro w hw
  simp only [processLink] at hw
  have hk : (getCell t ci).children.takeWhile (fun c => decide (0 ≤ c)) = kidsOf s0 ci := by
    rw [(hsh.2 ci).1]
    rfl
  rw [hk] at hw
  obtain ⟨f1, f2, f3, f4, f5⟩ :=
    pairKidsFold ext s0 ci side hci0 hciv hside hadj0 hnoself hkids L bad rv hLs0 hLid
      (kidsOf s0 ci) (fun c hc => hc) t hsh hpe hrv hLt
      ((kidsOf s0 ci).foldl (fun st ch =>
        if isNextTo ext (getCell st ch) (getCell st L.to_index) (dirOfNat side) = true
        then addPairBefore st ch side L.to_index L.rev else st) t) rfl
  have hLt2 : L ∈ sideOf (getCell ((kidsOf s0 ci).foldl (fun st ch =>
      if isNextTo ext (getCell st ch) (getCell st L.to_index) (dirOfNat side) = true
      then addPairBefore st ch side L.to_index L.rev else st) t) ci) side := by
    rw [f4 side]
    exact hLt
  obtain ⟨g1, g2, g3, g4, g5⟩ :=
    pairErase s0 ci side hci0 hciv hside hadj0 hnoself _ bad rv L f1 f2 f3 hLt2 hLs0 hLid w hw
  refine ⟨g1, g2, g3, ?_, ?_⟩
  · intro j2
    rw [g4 j2]
    exact f4 j2
  · exact Nat.le_trans f5 g5

theorem pairLinkFold (ext : Ext) (s0 : State) (ci : Int) (side : Nat)
    (hci0 : 0 ≤ ci) (hciv : ci.toNat < s0.cells.length) (hside : side < 4)
    (hadj0 : adjLen4 s0)
    (hnoself : ∀ k < 4, ∀ L ∈ sideOf (getCell s0 ci) k,
      L.to_index ≠ ci ∧ L.to_index ∉ kidsOf s0 ci)
    (hkids : ∀ ch ∈ kidsOf s0 ci, ch ≠ ci ∧ ch.toNat < s0.cells.length)
    (rem : List Link) :
    ∀ (bad rv : List Nat) (t : State),
    sameShape s0 t → PairExcept t bad →
    (∀ n ∈ rv, idCount t n = 0 ∧ n < t.next_id) →
    (∀ L ∈ rem, L ∈ sideOf (getCell t ci) side ∧ L ∈ sideOf (getCell s0 ci) side ∧
      L.id ∉ bad) →
    (rem.map Link.id).Nodup →
    ∀ u, u = rem.foldl (processLink ext ci side) t →
    sameShape s0 u ∧
    ∃ (bad2 rv2 : List Nat),
      (∀ n, n ∈ bad2 ↔ (∃ L ∈ rem, L.id = n) ∨ n ∈ bad) ∧
      PairExcept u bad2 ∧
      (∀ n ∈ rv2, idCount u n = 0 ∧ n < u.next_id) ∧
      (∀ P ∈ rem, P.rev ∈ rv2) ∧
      (∀ n ∈ rv, n ∈ rv2) ∧
      (∀ j2, sideOf (getCell u ci) j2 = sideOf (getCell t ci) j2) ∧
      t.next_id ≤ u.next_id := by
  induction rem with
  | nil =>
    intro bad rv t hsh hpe hrv hremok hnd u hu
    rw [List.foldl_nil] at hu
    subst hu
    exact ⟨hsh, bad, rv, fun n => by simp, hpe, hrv, by simp, fun n hn => hn,
      fun j2 => rfl, Nat.le_refl _⟩
  | cons L rem' ih =>
    intro bad rv t hsh hpe hrv hremok hnd u hu
    rw [List.foldl_cons] at hu
    obtain ⟨hLt, hLs0, hLid⟩ := hremok L (by simp)
    obtain ⟨g1, g2, g3, g4, g5⟩ := pairProcessLink ext s0 ci side hci0 hciv hside hadj0
      hnoself hkids t bad rv L hsh hpe hrv hLt hLs0 hLid (processLink ext ci side t L) rfl
    rw [List.map_cons] at hnd
    obtain ⟨hLni, hnd'⟩ := List.nodup_cons.mp hnd
    have hremok' : ∀ P ∈ rem', P ∈ sideOf (getCell (processLink ext ci side t L) ci) side ∧
        P ∈ sideOf (getCell s0 ci) side ∧ P.id ∉ L.id :: bad := by
      intro P hP
      obtain ⟨p1, p2, p3⟩ := hremok P (by simp [hP])
      refine ⟨?_, p2, ?_⟩
      · rw [g4 side]
        exact p1
      · intro hc
        rcases List.mem_cons.mp hc with he | hc2
        · refine hLni ?_
          rw [← he]
          exact List.mem_map_of_mem Link.id hP
        · exact p3 hc2
    obtain ⟨k1, bad2, rv2, k2, k3, k4, k5, k6, k7, k8⟩ := ih (L.id :: bad) (L.rev :: rv)
      (processLink ext ci side t L) g1 g2 g3 hremok' hnd' u hu
    refine ⟨k1, bad2, rv2, ?_, k3, k4, ?_, ?_, ?_, ?_⟩
    · intro n
      rw [k2 n]
      constructor
      · rintro (⟨P, hP, hPn⟩ | hc)
        · exact Or.inl ⟨P, by simp [hP], hPn⟩
        · rcases List.mem_cons.mp hc with he | hc2
          · exact Or.inl ⟨L, by simp, he.symm⟩
          · exact Or.inr hc2
      · rintro (⟨P, hP, hPn⟩ | hc)
        · rcases List.mem_cons.mp hP with he | hP2
          · refine Or.inr ?_
            rw [← hPn, he]
            exact List.mem_cons_self _ _
          · exact Or.inl ⟨P, hP2, hPn⟩
        · exact Or.inr (List.mem_cons_of_mem _ hc)
    · intro P hP
      rcases List.mem_cons.mp hP with he | hP2
      · rw [he]
        exact k6 L.rev (List.mem_cons_self _ _)
      · exact k5 P hP2
    · intro n hn
      exact k6 n (List.mem_cons_of_mem _ hn)
    · intro j2
      rw [k7 j2]
      exact g4 j2
    · exact Nat.le_trans g5 k8

theorem pairSide (ext : Ext) (s0 : State) (ci : Int)
    (hci0 : 0 ≤ ci) (hciv : ci.toNat < s0.cells.length)
    (hadj0 : adjLen4 s0)
    (hnoself : ∀ k < 4, ∀ L ∈ sideOf (getCell s0 ci) k,
      L.to_index ≠ ci ∧ L.to_index ∉ kidsOf s0 ci)
    (hkids : ∀ ch ∈ kidsOf s0 ci, ch ≠ ci ∧ ch.toNat < s0.cells.length)
    (t : State) (side : Nat) (hside : side < 4)
    (hsh : sameShape s0 t) (hpe : PairExcept t [])
    (hsnap : sideOf (getCell t ci) side = sideOf (getCell s0 ci) side) :
    ∀ w, w = processSide ext ci t side →
    sameShape s0 w ∧ PairExcept w [] ∧
    sideOf (getCell w ci) side = [] ∧
    (∀ j2, j2 ≠ side → sideOf (getCell w ci) j2 = sideOf (getCell t ci) j2) := by
  intro w hw
  simp only [processSide] at hw
  have hcivt : ci.toNat < t.cells.length := by
    rw [hsh.1]
    exact hciv
  have hadjTci : (getCell t ci).adjacent_cells.length = 4 := by
    rw [(hsh.2 ci).2.2.1]
    show (s0.cells.getD ci.toNat dummyCell).adjacent_cells.length = 4
    exact hadj0 ci.toNat hciv
  have hnodup : ((sideOf (getCell t ci) side).map Link.id).Nodup :=
    ids_nodup_of_unique t ci.toNat side hcivt
      (by show side < (getCell t ci).adjacent_cells.length
          rw [hadjTci]
          exact hside) hpe.1
  obtain ⟨f1, bad2, rv2, fiff, fpe, frv, fprev, frsub, fsides, fnext⟩ :=
    pairLinkFold ext s0 ci side hci0 hciv hside hadj0 hnoself hkids
      (sideOf (getCell t ci) side) [] [] t hsh hpe (by simp)
      (fun L hL => ⟨hL, by rw [← hsnap]; exact hL, by simp⟩) hnodup
      ((sideOf (getCell t ci) side).foldl (processLink ext ci side) t) rfl
  have hlenu : ((sideOf (getCell t ci) side).foldl (processLink ext ci side) t).cells.length
      = s0.cells.length := f1.1
  have hcivu : ci.toNat <
      ((sideOf (getCell t ci) side).foldl (processLink ext ci side) t).cells.length := by
    rw [hlenu]
    exact hciv
  have hadjU : side <
      (getCell ((sideOf (getCell t ci) side).foldl (processLink ext ci side) t)
        ci).adjacent_cells.length := by
    rw [(f1.2 ci).2.2.1]
    show side < (s0.cells.getD ci.toNat dummyCell).adjacent_cells.length
    rw [hadj0 ci.toNat hciv]
    exact hside
  have hsideu : sideOf (getCell
      ((sideOf (getCell t ci) side).foldl (processLink ext ci side) t) ci) side
      = sideOf (getCell t ci) side := fsides side
  have hshw : sameShape s0 w := by
    rw [hw]
    exact sameShape_trans f1 (sameShape_modifySide _ ci side _)
  have hclr : sideOf (getCell w ci) side = [] := by
    rw [hw]
    exact sideOf_modifySide_self _ ci side _ hcivu hadjU
  have hdead : ∀ n ∈ bad2, idCount w n = 0 := by
    intro n hn
    rcases (fiff n).mp hn with ⟨P, hP, hPn⟩ | hc
    · have hc1 : 1 ≤ countId (sideOf (getCell t ci) side) n := by
        rw [← hPn]
        exact countId_pos_of_mem hP
      have hc2 : idCount w n + countId (sideOf (getCell
          ((sideOf (getCell t ci) side).foldl (processLink ext ci side) t) ci) side) n
          = idCount ((sideOf (getCell t ci) side).foldl (processLink ext ci side) t) n := by
        rw [hw]
        exact idCount_modifySide_clear _ ci side n hcivu hadjU
      rw [hsideu] at hc2
      have := fpe.1 n
      omega
    · exact absurd hc (List.not_mem_nil n)
  have hpew : PairExcept w bad2 := by
    refine ⟨?_, ?_, ?_⟩
    · intro n
      have hc2 : idCount w n + countId (sideOf (getCell
          ((sideOf (getCell t ci) side).foldl (processLink ext ci side) t) ci) side) n
          = idCount ((sideOf (getCell t ci) side).foldl (processLink ext ci side) t) n := by
        rw [hw]
        exact idCount_modifySide_clear _ ci side n hcivu hadjU
      have := fpe.1 n
      omega
    · intro n hn
      have hn' : ((sideOf (getCell t ci) side).foldl (processLink ext ci side) t).next_id
          ≤ n := by
        rw [show w.next_id = ((sideOf (getCell t ci) side).foldl
          (processLink ext ci side) t).next_id from by rw [hw]; rfl] at hn
        exact hn
      have hc2 : idCount w n + countId (sideOf (getCell
          ((sideOf (getCell t ci) side).foldl (processLink ext ci side) t) ci) side) n
          = idCount ((sideOf (getCell t ci) side).foldl (processLink ext ci side) t) n := by
        rw [hw]
        exact idCount_modifySide_clear _ ci side n hcivu hadjU
      have := fpe.2.1 n hn'
      omega
    · intro i k M hMa hMid
      have hMw : LinkAt w i k M := hMa
      rw [hw] at hMw
      have hMu : LinkAt ((sideOf (getCell t ci) side).foldl (processLink ext ci side) t)
          i k M :=
        linkAt_modifySide_sub (fun l y hy => absurd hy (List.not_mem_nil y)) hMw
      obtain ⟨m0, mv, mmem⟩ := fpe.2.2 i k M hMu hMid
      refine ⟨m0, ?_, ?_⟩
      · rw [show w.cells.length = ((sideOf (getCell t ci) side).foldl
          (processLink ext ci side) t).cells.length from by rw [hw]; exact length_modifySide _ _ _ _]
        exact mv
      · by_cases hloc : ci.toNat = M.to_index.toNat ∧ side = oppositeN k
        · exfalso
          rw [← hloc.1, ← hloc.2] at mmem
          have mmem2 : (⟨Int.ofNat i, M.rev, M.id⟩ : Link) ∈ sideOf (getCell
              ((sideOf (getCell t ci) side).foldl (processLink ext ci side) t) ci) side := mmem
          rw [hsideu] at mmem2
          have hz : idCount ((sideOf (getCell t ci) side).foldl (processLink ext ci side) t)
              (⟨Int.ofNat i, M.rev, M.id⟩ : Link).rev = 0 :=
            (frv _ (fprev _ mmem2)).1
          have hz2 : idCount ((sideOf (getCell t ci) side).foldl (processLink ext ci side) t)
              M.id = 0 := hz
          have hpos := count_pos_of_linkAt hMu
          omega
        · have hor : ci.toNat ≠ M.to_index.toNat ∨ side ≠ oppositeN k := by
            by_cases h1 : ci.toNat = M.to_index.toNat
            · right
              intro h2
              exact hloc ⟨h1, h2⟩
            · left
              exact h1
          have e : sideOf (getCell w M.to_index) (oppositeN k)
              = sideOf (getCell ((sideOf (getCell t ci) side).foldl
                  (processLink ext ci side) t) M.to_index) (oppositeN k) := by
            rw [hw]
            exact sideOf_modifySide_other _ ci side _ M.to_index (oppositeN k) hor
          show (⟨Int.ofNat i, M.rev, M.id⟩ : Link) ∈
            sideOf (getCell w M.to_index) (oppositeN k)
          rw [e]
          exact mmem
  refine ⟨hshw, pairExcept_of_dead hpew hdead, hclr, ?_⟩
  · intro j2 hj2
    have e : sideOf (getCell w ci) j2 = sideOf (getCell
        ((sideOf (getCell t ci) side).foldl (processLink ext ci side) t) ci) j2 := by
      rw [hw]
      exact sideOf_modifySide_other _ ci side _ ci j2 (Or.inr (fun h => hj2 h.symm))
    rw [e]
    exact fsides j2

theorem pairInv_pairExcept {s : State} (hp : PairInv s) : PairExcept s [] :=
  ⟨hp.2.2.1, hp.2.2.2.1, fun i k L h _ => hp.2.2.2.2 i k L h⟩

theorem pairInv_finalize (s : State) (ci : Int) (hp : PairInv s)
    (hciv : ci.toNat < s.cells.length)
    (u : State) (hshu : sameShape s u) (hpeu : PairExcept u []) :
    PairInv (updCell u ci (fun cc => { cc with is_subdivided := true })) := by
  have hshw : sameShape s (updCell u ci (fun cc => { cc with is_subdivided := true })) :=
    sameShape_trans hshu (sameShape_updCell u ci _ (fun cc => ⟨rfl, rfl, rfl, rfl⟩))
  have hT := wf_transport hshw hp.1 hp.2.1
  have hcivu : ci.toNat < u.cells.length := by
    rw [hshu.1]
    exact hciv
  have hcnt : ∀ n, idCount (updCell u ci (fun cc => { cc with is_subdivided := true })) n
      = idCount u n := by
    intro n
    have h1 : idCount (updCell u ci (fun cc => { cc with is_subdivided := true })) n
        + cellCount (getCell u ci) n
        = idCount u n
          + cellCount ((fun cc => { cc with is_subdivided := true }) (getCell u ci)) n :=
      idCount_updCell u ci _ n hcivu
    have h2 : cellCount ((fun cc => { cc with is_subdivided := true }) (getCell u ci)) n
        = cellCount (getCell u ci) n := rfl
    omega
  refine ⟨hT.1, hT.2, ?_, ?_, ?_⟩
  · intro n
    rw [hcnt n]
    exact hpeu.1 n
  · intro n hn
    rw [hcnt n]
    exact hpeu.2.1 n hn
  · intro i k M hMa
    have hold : LinkAt u i k M := by
      rcases linkAt_updCell hMa with ⟨e1, e2, e3, hm⟩ | hold
      · refine ⟨e1 ▸ e2, e3, ?_⟩
        rw [e1]
        exact hm
      · exact hold
    obtain ⟨m0, mv, mmem⟩ := hpeu.2.2 i k M hold (List.not_mem_nil M.id)
    refine ⟨m0, ?_, ?_⟩
    · rw [show (updCell u ci (fun cc => { cc with is_subdivided := true })).cells.length
        = u.cells.length from length_updCell _ _ _]
      exact mv
    · have e := sideOf_updCell_keep u ci (fun cc => { cc with is_subdivided := true })
        (fun cc => rfl) M.to_index (oppositeN k)
      show (⟨Int.ofNat i, M.rev, M.id⟩ : Link) ∈
        sideOf (getCell (updCell u ci (fun cc => { cc with is_subdivided := true }))
          M.to_index) (oppositeN k)
      rw [e]
      exact mmem

theorem pairInv_subdivide (ext : Ext) (s : State) (ci : Int)
    (hp : PairInv s) (pre : SubdividePre s ci) :
    PairInv (subdivide ext s ci) := by
  obtain ⟨hci0, hciv, hlen4, h0, h1, h23, hkids, hnoself, hnd⟩ := pre
  obtain ⟨a, b, c, d, he⟩ := list_len4 hlen4
  have hg0 : (getCell s ci).children.getD 0 (-1) = a := by rw [he]; rfl
  have hg1 : (getCell s ci).children.getD 1 (-1) = b := by rw [he]; rfl
  have hg2 : (getCell s ci).children.getD 2 (-1) = c := by rw [he]; rfl
  have hg3 : (getCell s ci).children.getD 3 (-1) = d := by rw [he]; rfl
  have ha0 : 0 ≤ a := hg0 ▸ h0
  have hb0 : 0 ≤ b := hg1 ▸ h1
  have hamem : a ∈ kidsOf s ci := by
    rw [kidsOf, he, List.takeWhile_cons, if_pos (by simpa using ha0)]
    simp
  have hbmem : b ∈ kidsOf s ci := by
    rw [kidsOf, he, List.takeWhile_cons, if_pos (by simpa using ha0),
      List.takeWhile_cons, if_pos (by simpa using hb0)]
    simp
  have hadjS := hp.2.1
  have hane : a ≠ ci := (hkids a hamem).1
  have hbne : b ≠ ci := (hkids b hbmem).1
  have hav : a.toNat < s.cells.length := (hkids a hamem).2
  have hbv : b.toNat < s.cells.length := (hkids b hbmem).2
  have hciA : ci.toNat ≠ a.toNat := fun hq => hane (by omega)
  have hciB : ci.toNat ≠ b.toNat := fun hq => hbne (by omega)
  simp only [subdivide]
  rw [hg0, hg1, hg2, hg3]
  by_cases hc2 : 0 ≤ c
  · have hd0 : 0 ≤ d := by
      have := h23 (by rw [hg2]; exact hc2)
      rwa [hg3] at this
    have hcmem : c ∈ kidsOf s ci := by
      rw [kidsOf, he, List.takeWhile_cons, if_pos (by simpa using ha0),
        List.takeWhile_cons, if_pos (by simpa using hb0),
        List.takeWhile_cons, if_pos (by simpa using hc2)]
      simp
    have hdmem : d ∈ kidsOf s ci := by
      rw [kidsOf, he, List.takeWhile_cons, if_pos (by simpa using ha0),
        List.takeWhile_cons, if_pos (by simpa using hb0),
        List.takeWhile_cons, if_pos (by simpa using hc2),
        List.takeWhile_cons, if_pos (by simpa using hd0)]
      simp
    have hkeq : kidsOf s ci = [a, b, c, d] := by
      rw [kidsOf, he, List.takeWhile_cons, if_pos (by simpa using ha0),
        List.takeWhile_cons, if_pos (by simpa using hb0),
        List.takeWhile_cons, if_pos (by simpa using hc2),
        List.takeWhile_cons, if_pos (by simpa using hd0), List.takeWhile_nil]
    have hND : ([a, b, c, d] : List Int).Nodup := hkeq ▸ hnd
    have hab : a ≠ b := by
      intro hq
      exact (List.nodup_cons.mp hND).1 (by simp [hq])
    have hac : a ≠ c := by
      intro hq
      exact (List.nodup_cons.mp hND).1 (by simp [hq])
    have hbd : b ≠ d := by
      intro hq
      exact (List.nodup_cons.mp (List.nodup_cons.mp hND).2).1 (by simp [hq])
    have hcd : c ≠ d := by
      intro hq
      exact (List.nodup_cons.mp (List.nodup_cons.mp (List.nodup_cons.mp hND).2).2).1
        (by simp [hq])
    have hcne : c ≠ ci := (hkids c hcmem).1
    have hdne : d ≠ ci := (hkids d hdmem).1
    have hcv : c.toNat < s.cells.length := (hkids c hcmem).2
    have hdv : d.toNat < s.cells.length := (hkids d hdmem).2
    have hciC : ci.toNat ≠ c.toNat := fun hq => hcne (by omega)
    have hciD : ci.toNat ≠ d.toNat := fun hq => hdne (by omega)
    have hcc : (getCell s ci).getChildCount = 4 := by
      rw [Cell.getChildCount, hg2, if_neg (by omega)]
    rw [if_pos hcc]
    have hp1 : PairInv (initialConnection s a b 1) :=
      pairInv_initialConnection s a b 1 hp ha0 hb0 hav hbv hab (by omega)
    have hp2 : PairInv (initialConnection (initialConnection s a b 1) c d 1) :=
      pairInv_initialConnection _ c d 1 hp1 hc2 hd0
        (by rw [length_initialConnection]; exact hcv)
        (by rw [length_initialConnection]; exact hdv) hcd (by omega)
    have hp3 : PairInv (initialConnection (initialConnection
        (initialConnection s a b 1) c d 1) a c 2) :=
      pairInv_initialConnection _ a c 2 hp2 ha0 hc2
        (by rw [length_initialConnection, length_initialConnection]; exact hav)
        (by rw [length_initialConnection, length_initialConnection]; exact hcv) hac (by omega)
    have hp4 : PairInv (initialConnection (initialConnection (initialConnection
        (initialConnection s a b 1) c d 1) a c 2) b d 2) :=
      pairInv_initialConnection _ b d 2 hp3 hb0 hd0
        (by rw [length_initialConnection, length_initialConnection,
          length_initialConnection]; exact hbv)
        (by rw [length_initialConnection, length_initialConnection,
          length_initialConnection]; exact hdv) hbd (by omega)
    have hsh2 : sameShape s (initialConnection (initialConnection (initialConnection
        (initialConnection s a b 1) c d 1) a c 2) b d 2) :=
      sameShape_trans (sameShape_initialConnection s a b 1)
        (sameShape_trans (sameShape_initialConnection _ c d 1)
          (sameShape_trans (sameShape_initialConnection _ a c 2)
            (sameShape_initialConnection _ b d 2)))
    have hsnap : ∀ j : Nat, sideOf (getCell (initialConnection (initialConnection
        (initialConnection (initialConnection s a b 1) c d 1) a c 2) b d 2) ci) j
        = sideOf (getCell s ci) j := by
      intro j
      rw [sideOf_initialConnection_ne _ b d 2 ci j hciB hciD,
        sideOf_initialConnection_ne _ a c 2 ci j hciA hciC,
        sideOf_initialConnection_ne _ c d 1 ci j hciC hciD,
        sideOf_initialConnection_ne _ a b 1 ci j hciA hciB]
    simp only [List.foldl_cons, List.foldl_nil]
    obtain ⟨t1sh, t1pe, t1clr, t1keep⟩ := pairSide ext s ci hci0 hciv hadjS hnoself hkids
      _ 0 (by omega) hsh2 (pairInv_pairExcept hp4) (hsnap 0) _ rfl
    obtain ⟨t2sh, t2pe, t2clr, t2keep⟩ := pairSide ext s ci hci0 hciv hadjS hnoself hkids
      _ 1 (by omega) t1sh t1pe (by rw [t1keep 1 (by omega)]; exact hsnap 1) _ rfl
    obtain ⟨t3sh, t3pe, t3clr, t3keep⟩ := pairSide ext s ci hci0 hciv hadjS hnoself hkids
      _ 2 (by omega) t2sh t2pe
      (by rw [t2keep 2 (by omega), t1keep 2 (by omega)]; exact hsnap 2) _ rfl
    obtain ⟨t4sh, t4pe, t4clr, t4keep⟩ := pairSide ext s ci hci0 hciv hadjS hnoself hkids
      _ 3 (by omega) t3sh t3pe
      (by rw [t3keep 3 (by omega), t2keep 3 (by omega), t1keep 3 (by omega)]; exact hsnap 3)
      _ rfl
    exact pairInv_finalize s ci hp hciv _ t4sh t4pe
  · have hcc : ¬ ((getCell s ci).getChildCount = 4) := by
      rw [Cell.getChildCount, hg2, if_pos (by omega)]
      omega
    rw [if_neg hcc]
    have hkeq : kidsOf s ci = [a, b] := by
      rw [kidsOf, he, List.takeWhile_cons, if_pos (by simpa using ha0),
        List.takeWhile_cons, if_pos (by simpa using hb0),
        List.takeWhile_cons, if_neg (by simpa using hc2)]
    have hND : ([a, b] : List Int).Nodup := hkeq ▸ hnd
    have hab : a ≠ b := by
      intro hq
      exact (List.nodup_cons.mp hND).1 (by simp [hq])
    have hp1 : PairInv (initialConnection s a b 1) :=
      pairInv_initialConnection s a b 1 hp ha0 hb0 hav hbv hab (by omega)
    have hsh2 : sameShape s (initialConnection s a b 1) :=
      sameShape_initialConnection s a b 1
    have hsnap : ∀ j : Nat, sideOf (getCell (initialConnection s a b 1) ci) j
        = sideOf (getCell s ci) j := by
      intro j
      rw [sideOf_initialConnection_ne _ a b 1 ci j hciA hciB]
    simp only [List.foldl_cons, List.foldl_nil]
    obtain ⟨t1sh, t1pe, t1clr, t1keep⟩ := pairSide ext s ci hci0 hciv hadjS hnoself hkids
      _ 0 (by omega) hsh2 (pairInv_pairExcept hp1) (hsnap 0) _ rfl
    obtain ⟨t2sh, t2pe, t2clr, t2keep⟩ := pairSide ext s ci hci0 hciv hadjS hnoself hkids
      _ 1 (by omega) t1sh t1pe (by rw [t1keep 1 (by omega)]; exact hsnap 1) _ rfl
    obtain ⟨t3sh, t3pe, t3clr, t3keep⟩ := pairSide ext s ci hci0 hciv hadjS hnoself hkids
      _ 2 (by omega) t2sh t2pe
      (by rw [t2keep 2 (by omega), t1keep 2 (by omega)]; exact hsnap 2) _ rfl
    obtain ⟨t4sh, t4pe, t4clr, t4keep⟩ := pairSide ext s ci hci0 hciv hadjS hnoself hkids
      _ 3 (by omega) t3sh t3pe
      (by rw [t3keep 3 (by omega), t2keep 3 (by omega), t1keep 3 (by omega)]; exact hsnap 3)
      _ rfl
    exact pairInv_finalize s ci hp hciv _ t4sh t4pe

theorem pairInv_mdpStep (ext : Ext) (s : State) (q : List Int)
    (hp : PairInv s)
    (hpre : ∀ cq rest, q = cq :: rest →
      ¬((getCell s cq).children.getD 0 (-1) < 0 ∨ ext.max_depth ≤ (getCell s cq).depth) →
      isConstrained s (getCell s cq) = false → SubdividePre s cq) :
    PairInv (mdpStep ext s q).1 := by
  cases q with
  | nil => exact hp
  | cons cq rest =>
    simp only [mdpStep]
    by_cases hl : (getCell s cq).children.getD 0 (-1) < 0 ∨
        ext.max_depth ≤ (getCell s cq).depth
    · rw [if_pos hl]
      exact hp
    · rw [if_neg hl]
      by_cases hcon : isConstrained s (getCell s cq) = false
      · rw [if_pos hcon]
        exact pairInv_subdivide ext s cq hp (hpre cq rest rfl hl hcon)
      · rw [if_neg hcon]
        exact hp

/-- C2: the link pairing invariant is preserved by every completed public
operation of the source — `initialConnection` on valid distinct cells,
`subdivide` under its call preconditions, and every step of
`createMinimalDensityPattern` — and under the invariant every stored link L of
the cell at arena position i, side k, has its back-link ⟨i, L.rev, L.id⟩
stored in cell_data[L.to_index].adjacent_cells[opposite k]; that back-link
points back at the owning cell's `index` field, and its own reverse is L
itself. -/
theorem C2_link_pairing :
    (∀ (s : State) (before after : Int) (dir : Nat), PairInv s →
      0 ≤ before → 0 ≤ after → before.toNat < s.cells.length →
      after.toNat < s.cells.length → before ≠ after → dir < 4 →
      PairInv (initialConnection s before after dir)) ∧
    (∀ (ext : Ext) (s : State) (ci : Int), PairInv s → SubdividePre s ci →
      PairInv (subdivide ext s ci)) ∧
    (∀ (ext : Ext) (s : State) (q : List Int), PairInv s →
      (∀ cq rest, q = cq :: rest →
        ¬((getCell s cq).children.getD 0 (-1) < 0 ∨
          ext.max_depth ≤ (getCell s cq).depth) →
        isConstrained s (getCell s cq) = false → SubdividePre s cq) →
      PairInv (mdpStep ext s q).1) ∧
    (∀ (s : State), PairInv s → ∀ i k L, LinkAt s i k L →
      (⟨Int.ofNat i, L.rev, L.id⟩ : Link) ∈
        sideOf (s.cells.getD L.to_index.toNat dummyCell) (oppositeN k) ∧
      (⟨Int.ofNat i, L.rev, L.id⟩ : Link).to_index = (s.cells.getD i dummyCell).index ∧
      (⟨L.to_index, L.id, L.rev⟩ : Link) = L) := by
  refine ⟨pairInv_initialConnection, pairInv_subdivide, pairInv_mdpStep, ?_⟩
  intro s hp i k L h
  refine ⟨(hp.2.2.2.2 i k L h).2.2, ?_, rfl⟩
  show Int.ofNat i = (s.cells.getD i dummyCell).index
  exact (hp.1 i h.1).symm

theorem C2_witness :
    PairInv (initialConnection cexTree 1 2 1) ∧
    PairInv (subdivide extTrivial cexTree 0) := by
  have hp0 : PairInv cexTree := by
    refine ⟨?_, ?_, ?_, ?_, ?_⟩
    · intro i hi
      have hi3 : i < 3 := hi
      interval_cases i <;> rfl
    · intro i hi
      have hi3 : i < 3 := hi
      interval_cases i <;> rfl
    · intro n
      have hz : idCount cexTree n = 0 := rfl
      omega
    · intro n hn
      rfl
    · intro i k L h
      obtain ⟨hi, hk, hm⟩ := h
      exfalso
      have hi3 : i < 3 := hi
      interval_cases i <;> interval_cases k <;>
        exact absurd hm (List.not_mem_nil L)
  have pre0 : SubdividePre cexTree 0 := by
    unfold SubdividePre kidsOf
    decide
  exact ⟨C2_link_pairing.1 cexTree 1 2 1 hp0 (by decide) (by decide) (by decide)
      (by decide) (by decide) (by decide),
    C2_link_pairing.2.1 extTrivial cexTree 0 hp0 pre0⟩

end Cross3DV
